import Mathlib

/-!
# dsak: batch certificate check, HTTP client, command tree and configuration

A shallow embedding of the `http cert` command (`cmd/httpCert.go`), of the
HTTP client (`internal/pkg/httpdsak`) and its command `http debug`, of the
command tree (`internal/pkg/commander`), of the configuration registry
(`internal/pkg/config`) and of the memory writer (`internal/pkg/resource/http`)
of `jucrouzet/dsak`, and of the Go library calls they rely on.

Conventions of the embedding:

* a Go `string` is a Lean `String`, processed through its list of characters;
* a Go `error` is an `Option` of a structured error value, `none` being `nil`;
* a `time.Time` is an `Int` count of nanoseconds, a `time.Duration` an `Int`
  wrapped to 64 bits;
* a `net.IP` is its byte slice, a `List Nat`;
* everything the operating system or the network decides (routing table, TLS
  dial, DNS lookup, chain verification, URL parsing) is a field of `Env`, and
  of `HttpEnv` for the HTTP client;
* an `io.Reader` is the list of what its `Read` calls hand over, and the
  output sink is the list of the bytes written to it.
-/

namespace Dsak

/-! ## Go standard library: strings, strconv -/

/-- Go `strings.Contains(s, sub)`, on character lists. -/
def stringsContains (sub : List Char) : List Char → Bool
  | [] => sub.isEmpty
  | c :: cs => sub.isPrefixOf (c :: cs) || stringsContains sub cs

/-- Go `strings.SplitN(s, sep, 2)` for a one-character separator: the whole
string when the separator does not occur, otherwise what stands before its
first occurrence and everything after it. -/
def stringsSplitN2 (sep : Char) (s : List Char) : List (List Char) :=
  match s.span (fun c => c != sep) with
  | (a, []) => [a]
  | (a, _ :: b) => [a, b]

/-- Value of a decimal digit, `none` for any other character. -/
def digitVal (c : Char) : Option Nat :=
  if '0' ≤ c ∧ c ≤ '9' then some (c.toNat - '0'.toNat) else none

/-- Digit loop of `strconv.ParseUint(s, 10, 64)` without the range check:
every character must be a decimal digit. -/
def parseDigits : List Char → Nat → Option Nat
  | [], acc => some acc
  | c :: cs, acc =>
    match digitVal c with
    | none => none
    | some d => parseDigits cs (acc * 10 + d)

/-- Go `strconv.ParseInt(s, 10, 64)`; `none` stands for any error (syntax or
range). -/
def ParseInt (s : List Char) : Option Int :=
  match s with
  | [] => none
  | c :: cs =>
    let neg := c == '-'
    let body := if c == '+' ∨ c == '-' then cs else c :: cs
    match body with
    | [] => none
    | _ :: _ =>
      match parseDigits body 0 with
      | none => none
      | some un =>
        if ¬ neg ∧ un ≥ 2 ^ 63 then none
        else if neg ∧ un > 2 ^ 63 then none
        else some (if neg then - (un : Int) else (un : Int))

/-! ## Go standard library: net.IP -/

/-- A `net.IP`: a byte slice, of length 4 or 16 for a valid address; the empty
list is the `nil` IP. -/
abbrev IP := List Nat

/-- The 12-byte prefix of an IPv4 address mapped into IPv6. -/
def v4InV6Prefix : List Nat := [0, 0, 0, 0, 0, 0, 0, 0, 0, 0, 0xff, 0xff]

/-- Go `IP.Equal`: equal byte slices, or an IPv4 address and its IPv4-in-IPv6
form. -/
def IP.Equal (ip x : IP) : Bool :=
  if ip.length = x.length then decide (ip = x)
  else if ip.length = 4 ∧ x.length = 16 then
    decide (x.take 12 = v4InV6Prefix) && decide (ip = x.drop 12)
  else if ip.length = 16 ∧ x.length = 4 then
    decide (ip.take 12 = v4InV6Prefix) && decide (ip.drop 12 = x)
  else false

/-- One step of the field loop of `parseIPv4Fields`: the state is the current
octet value, the number of its digits, and the octets already closed. -/
def parseIPv4Loop : List Char → Option Char → Nat → Nat → List Nat → Option (List Nat)
  | [], _, val, _, fields => if fields.length < 3 then none else some (fields ++ [val])
  | c :: cs, prev, val, digLen, fields =>
    match digitVal c with
    | some d =>
      if digLen = 1 ∧ val = 0 then none
      else if val * 10 + d > 255 then none
      else parseIPv4Loop cs (some c) (val * 10 + d) (digLen + 1) fields
    | none =>
      if c = '.' then
        if prev = none ∨ cs = [] ∨ prev = some '.' then none
        else if fields.length = 3 then none
        else parseIPv4Loop cs (some c) 0 0 (fields ++ [val])
      else none

/-- Go `parseIPv4`: four decimal octets separated by dots, none above 255,
none empty, none with a leading zero. -/
def parseIPv4 (s : List Char) : Option (List Nat) :=
  parseIPv4Loop s none 0 0 []

/-- Value of a hexadecimal digit. -/
def hexVal (c : Char) : Option Nat :=
  if '0' ≤ c ∧ c ≤ '9' then some (c.toNat - '0'.toNat)
  else if 'a' ≤ c ∧ c ≤ 'f' then some (c.toNat - 'a'.toNat + 10)
  else if 'A' ≤ c ∧ c ≤ 'F' then some (c.toNat - 'A'.toNat + 10)
  else none

/-- Hex-group loop of `parseIPv6`: reads hexadecimal digits, at most four,
and returns the value, the number of digits read and the rest of the input. -/
def parseHexGroup : List Char → Nat → Nat → Option (Nat × Nat × List Char)
  | [], acc, off => some (acc, off, [])
  | c :: cs, acc, off =>
    match hexVal c with
    | none => some (acc, off, c :: cs)
    | some d =>
      if off > 3 then none
      else if acc * 16 + d > 0xffff then none
      else parseHexGroup cs (acc * 16 + d) (off + 1)

/-- Main loop of `parseIPv6`, after a leading `::` has been removed. The state
is the bytes written so far and the position of the ellipsis; the result is the
bytes, the ellipsis and the unread input. `fuel` bounds the number of groups. -/
def parseIPv6Loop : Nat → List Char → List Nat → Option Nat →
    Option (List Nat × Option Nat × List Char)
  | 0, s, ip, ell => some (ip, ell, s)
  | fuel + 1, s, ip, ell =>
    if ip.length ≥ 16 then some (ip, ell, s)
    else
      match parseHexGroup s 0 0 with
      | none => none
      | some (acc, off, rest) =>
        if off = 0 then none
        else
          match rest with
          | '.' :: _ =>
            if ell = none ∧ ip.length ≠ 12 then none
            else if ip.length + 4 > 16 then none
            else
              match parseIPv4 s with
              | none => none
              | some v4 => some (ip ++ v4, ell, [])
          | [] => some (ip ++ [acc / 256, acc % 256], ell, [])
          | c :: more =>
            if c ≠ ':' then none
            else
              match more with
              | [] => none
              | ':' :: more2 =>
                if ell.isSome then none
                else
                  match more2 with
                  | [] => some (ip ++ [acc / 256, acc % 256], some (ip.length + 2), [])
                  | _ :: _ =>
                    parseIPv6Loop fuel more2 (ip ++ [acc / 256, acc % 256]) (some (ip.length + 2))
              | _ :: _ => parseIPv6Loop fuel more (ip ++ [acc / 256, acc % 256]) ell

/-- Go `parseIPv6`, zones excluded (`net.ParseIP` rejects them): hexadecimal
groups separated by colons, one optional `::`, an optional dotted IPv4 tail. -/
def parseIPv6 (s : List Char) : Option (List Nat) :=
  if s.contains '%' then none
  else
    let start : List Char × Option Nat :=
      match s with
      | ':' :: ':' :: rest => (rest, some 0)
      | _ => (s, none)
    if start.2.isSome ∧ start.1 = [] then some (List.replicate 16 0)
    else
      match parseIPv6Loop 8 start.1 [] start.2 with
      | none => none
      | some (ip, ell, rest) =>
        if rest ≠ [] then none
        else if ip.length < 16 then
          match ell with
          | none => none
          | some e => some (ip.take e ++ List.replicate (16 - ip.length) 0 ++ ip.drop e)
        else if ell.isSome then none
        else some ip

/-- First of `.`, `:` and `%` to occur in the string, which decides the address
family in `netip.ParseAddr`. -/
def firstAddrMark : List Char → Option Char
  | [] => none
  | c :: cs => if c = '.' ∨ c = ':' ∨ c = '%' then some c else firstAddrMark cs

/-- Go `net.ParseIP`: the 16-byte form of a literal IPv4 or IPv6 address,
`none` (the `nil` IP) when the string is not one. -/
def ParseIP (s : String) : Option IP :=
  match firstAddrMark s.toList with
  | some '.' => (parseIPv4 s.toList).map (fun v4 => v4InV6Prefix ++ v4)
  | some ':' => parseIPv6 s.toList
  | _ => none

/-! ## github.com/gobwas/glob, as called with no separator -/

/-- Tokens of a glob pattern in the fragment modelled here: literal text, `*`,
`**` and `?`. -/
inductive GlobTok where
  | text (c : Char)
  | any
  | super
  | single
deriving DecidableEq, Repr

/-- Characters that open a range, an alternative list or an escape in a glob
pattern, or close one: a pattern holding one of them is outside the fragment. -/
def globOutside : List Char := ['[', ']', '{', '}', ',', '\\']

/-- Lexer of the fragment: `**` is read before `*`, as the library's lexer
does; `none` when the pattern leaves the fragment. -/
def globLex : List Char → Option (List GlobTok)
  | [] => some []
  | '*' :: '*' :: cs => (globLex cs).map (fun ts => GlobTok.super :: ts)
  | '*' :: cs => (globLex cs).map (fun ts => GlobTok.any :: ts)
  | '?' :: cs => (globLex cs).map (fun ts => GlobTok.single :: ts)
  | c :: cs =>
    if c ∈ globOutside then none
    else (globLex cs).map (fun ts => GlobTok.text c :: ts)

/-- Whether `f` accepts some suffix of the string: how a wildcard that may
absorb any run of characters hands over to the rest of the pattern. -/
def anySuffix (f : List Char → Bool) : List Char → Bool
  | [] => f []
  | c :: cs => f (c :: cs) || anySuffix f cs

/-- Matching of a token list against a whole string, for a glob compiled with
no separator: `*` and `**` both match any run of characters (dots included),
`?` any one character. -/
def globMatchToks : List GlobTok → List Char → Bool
  | [], s => s.isEmpty
  | GlobTok.text c :: ps, s =>
    match s with
    | [] => false
    | d :: ds => c == d && globMatchToks ps ds
  | GlobTok.single :: ps, s =>
    match s with
    | [] => false
    | _ :: ds => globMatchToks ps ds
  | GlobTok.any :: ps, s => anySuffix (globMatchToks ps) s
  | GlobTok.super :: ps, s => anySuffix (globMatchToks ps) s

/-- Go `glob.Compile(pattern)` with no separator argument, followed by `Match`:
`none` is a compile error, `some m` a compiled glob whose `Match` is `m`.
Patterns of the fragment are matched by `globMatchToks`; for the others
(ranges, alternatives, escapes) the library's answer is the parameter
`other`. -/
def globCompile (other : String → Option (String → Bool)) (pattern : String) :
    Option (String → Bool) :=
  match globLex pattern.toList with
  | some toks => some (fun s => globMatchToks toks s.toList)
  | none => other pattern

/-! ## Data model of the batch check -/

/-- The fields of an `x509.Certificate` the check reads. `raw` is the DER
encoding, `subject` the printed subject, `uris` the printed URIs; the dates
are instants in nanoseconds. -/
structure Certificate where
  raw : List Nat
  subject : String
  dnsNames : List String
  ipAddresses : List IP
  uris : List String
  notBefore : Int
  notAfter : Int
deriving DecidableEq, Repr

/-- An `x509.CertPool`, as the list of its certificates. -/
abbrev CertPool := List Certificate

/-- Go `CertPool.AddCert`: a certificate whose encoding is already in the pool
is not added again. -/
def CertPool.AddCert (pool : CertPool) (c : Certificate) : CertPool :=
  if pool.any (fun p => decide (p.raw = c.raw)) then pool else pool ++ [c]

/-- The non-nil errors of the batch check, one constructor per message. -/
inductive CertErr where
  /-- The text `failed to get routing table: ...`. -/
  | routingTable (msg : String)
  /-- The text `failed to get route for <ip>: ...`. -/
  | noRoute (ip : IP) (msg : String)
  /-- The text `cannot connect to server or is not an HTTPS server: ...`. -/
  | cannotConnect (msg : String)
  /-- The text `no certificate found for <ip>:<port>`. -/
  | noCertificate (ip : IP) (port : Int)
  /-- The text `server certificate has no Subject Alternate Name`. -/
  | sanNone
  /-- The text `server certificate does not match any Subject Alternate Name`. -/
  | sanNoMatch
  /-- The text `<certType> "<subject>" is not valid before <date>`. -/
  | notValidBefore (certType : String) (subject : String) (notBefore : Int)
  /-- The text `<certType> "<subject>" expires on <date>`. -/
  | expires (certType : String) (subject : String) (notAfter : Int)
  /-- The error of `Certificate.Verify`. -/
  | verify (msg : String)
deriving DecidableEq, Repr

/-- The result of `url.Parse` as far as the command reads it. -/
structure ParsedURL where
  scheme : String
  hostname : String
  port : String
deriving DecidableEq, Repr

/-- What the command takes from its surroundings. -/
structure Env where
  /-- The value of `http.cert.days`, a `uint64`. -/
  days : Nat
  /-- The reading of `time.Now()`, in nanoseconds; the clock is taken to stand
  still while one command runs. -/
  now : Int
  /-- The answer of `glob.Compile` and `Match` outside the modelled fragment. -/
  globOther : String → Option (String → Bool)
  /-- The error of `netroute.New()`, `none` when the routing table is read. -/
  newRouter : Option String
  /-- The answer of `r.Route(ip)`: an error, or whether the interface returned
  is not nil. The library returns an interface whenever it returns no error,
  and the error `no route found for <ip>` when no route leads to the address. -/
  route : IP → Except String Bool
  /-- The call `tls.Dial` to `ip:port` with server name `domain`: an error, or
  the peer certificates of the connection. -/
  dial : IP → Int → String → Except String (List Certificate)
  /-- The call `leaf.Verify` with the DNS name, root pool and intermediate pool:
  its error, `none` when the chain verifies. -/
  verify : Certificate → String → Option CertPool → Option CertPool → Option String
  /-- The call `url.Parse`. -/
  urlParse : String → Except String ParsedURL
  /-- The call `net.LookupIP`. -/
  lookupIP : String → Except String (List IP)

/-- The struct `httpCertResult`. -/
structure httpCertResult where
  errs : List (Option CertErr)
  runned : Bool
  ip : IP
deriving DecidableEq, Repr

/-! ## Date and SAN checks -/

/-- Conversion of an integer to `int64`, by wrap-around. -/
def wrapInt64 (z : Int) : Int := (z + 2 ^ 63) % 2 ^ 64 - 2 ^ 63

/-- The expression `time.Duration(days) * 24 * time.Hour`, in nanoseconds, each
operation wrapped to 64 bits. -/
def graceDuration (days : Nat) : Int :=
  wrapInt64 (wrapInt64 (wrapInt64 (days : Int) * 24) * 3600000000000)

/-- The function `httpCertOnIPCheckCertDates`. `nowAfter` is the clock reading
that `afterDate` is computed from, `nowBefore` the reading the not-before date
is compared with. -/
def httpCertOnIPCheckCertDates (days : Nat) (nowAfter nowBefore : Int)
    (cert : Certificate) (certType : String) : List CertErr :=
  let afterDate := nowAfter + graceDuration days
  let errs : List CertErr := []
  let errs :=
    if cert.notBefore > nowBefore then
      errs ++ [CertErr.notValidBefore certType cert.subject cert.notBefore]
    else errs
  let errs :=
    if cert.notAfter < afterDate then
      errs ++ [CertErr.expires certType cert.subject cert.notAfter]
    else errs
  errs

/-- First loop of `httpCertOnIPCheckCertSAN`: the DNS names without repeats. -/
def sanNames (cert : Certificate) : List String :=
  cert.dnsNames.foldl (fun names name => if names.contains name then names else names ++ [name]) []

/-- Second loop of `httpCertOnIPCheckCertSAN`: its `continue` leaves the inner
loop only, so every address is appended. -/
def sanIPs (cert : Certificate) : List IP :=
  cert.ipAddresses.foldl (fun ips givenIP => ips ++ [givenIP]) []

/-- Third loop of `httpCertOnIPCheckCertSAN`, of the same shape as the second. -/
def sanURLs (cert : Certificate) : List String :=
  cert.uris.foldl (fun urls givenURL => urls ++ [givenURL]) []

/-- The loop over the DNS names: whether some name compiles to a glob that
matches the domain; a name that does not compile is skipped. -/
def sanNameMatches (other : String → Option (String → Bool)) (domain : String) :
    List String → Bool
  | [] => false
  | name :: rest =>
    match globCompile other name with
    | none => sanNameMatches other domain rest
    | some m => if m domain then true else sanNameMatches other domain rest

/-- The block over the IP addresses: whether the domain parses as a literal IP
that some address of the list is `Equal` to. -/
def sanIPMatches (domain : String) (ips : List IP) : Bool :=
  match ParseIP domain with
  | some hostIP => ips.any (fun ip => IP.Equal ip hostIP)
  | none => false

/-- The function `httpCertOnIPCheckCertSAN`; `none` is the `nil` error. -/
def httpCertOnIPCheckCertSAN (other : String → Option (String → Bool)) (domain : String)
    (cert : Certificate) : Option CertErr :=
  let names := sanNames cert
  let ips := sanIPs cert
  let urls := sanURLs cert
  if names.length = 0 ∧ ips.length = 0 ∧ urls.length = 0 then some CertErr.sanNone
  else if names.length > 0 ∧ sanNameMatches other domain names then none
  else if ips.length > 0 ∧ sanIPMatches domain ips then none
  else some CertErr.sanNoMatch

/-! ## The check of one chain -/

/-- The function `httpCertOnIPCheckCert`: the SAN check for the server
certificate only, its result appended whether `nil` or not, then the dates. -/
def httpCertOnIPCheckCert (env : Env) (domain : String) (cert : Certificate)
    (certType : String) : List (Option CertErr) :=
  let res : List (Option CertErr) := []
  let res :=
    if certType = "server certificate" then
      res ++ [httpCertOnIPCheckCertSAN env.globOther domain cert]
    else res
  res ++ (httpCertOnIPCheckCertDates env.days env.now env.now cert certType).map some

/-- The pools built at the head of `httpCertOnIPCheck`: the root pool and the
intermediate pool, `none` for a pool left `nil`. -/
def httpCertPools (certs : List Certificate) : Option CertPool × Option CertPool :=
  let root : Option CertPool :=
    if certs.length > 1 then
      (certs.getLast?).map (fun c => CertPool.AddCert [] c)
    else none
  let inter : Option CertPool :=
    if certs.length > 2 then
      some (((certs.take (certs.length - 1)).drop 1).foldl CertPool.AddCert [])
    else none
  (root, inter)

/-- The values taken by `i` in `for i := 1; i < len(certs)-2; i++`. -/
def interLoopIndices (certs : List Certificate) : List Nat :=
  (List.range (certs.length - 2)).filter (fun i => 1 ≤ i)

/-- The function `httpCertOnIPCheck`, from the presented chain to the list of
errors. In the loop over the intermediates the certificate checked is
`certs[0]`, as in the source. -/
def httpCertOnIPCheck (env : Env) (domain : String) (ip : IP) (port : Int)
    (certs : List Certificate) : List (Option CertErr) :=
  match certs with
  | [] => [some (CertErr.noCertificate ip port)]
  | leaf :: _ =>
    let pools := httpCertPools certs
    let root := pools.1
    let inter := pools.2
    let res := httpCertOnIPCheckCert env domain leaf "server certificate"
    let res :=
      if inter.isSome then
        (interLoopIndices certs).foldl
          (fun acc _ => acc ++ httpCertOnIPCheckCert env domain leaf "intermediate certificate")
          res
      else res
    let res :=
      if root.isSome then
        match certs.getLast? with
        | some last => res ++ httpCertOnIPCheckCert env domain last "root certificate"
        | none => res
      else res
    match env.verify leaf domain root inter with
    | some e => res ++ [some (CertErr.verify e)]
    | none => res

/-- The function `httpCertOnIP`: route lookup, TLS dial, check of the chain. -/
def httpCertOnIP (env : Env) (domain : String) (ip : IP) (port : Int) : httpCertResult :=
  match env.newRouter with
  | some e => { errs := [some (CertErr.routingTable e)], runned := false, ip := ip }
  | none =>
    match env.route ip with
    | Except.error e => { errs := [some (CertErr.noRoute ip e)], runned := false, ip := ip }
    | Except.ok false => { errs := [], runned := false, ip := ip }
    | Except.ok true =>
      match env.dial ip port domain with
      | Except.error e => { errs := [some (CertErr.cannotConnect e)], runned := true, ip := ip }
      | Except.ok certs =>
        { errs := httpCertOnIPCheck env domain ip port certs, runned := true, ip := ip }

/-! ## The command: resolution, tasks, report -/

/-- The errors of `httpCertResolve` and of the command. -/
inductive CmdErr where
  /-- The text `failed to parse <uri>: ...`. -/
  | urlParse (msg : String)
  /-- The text `<uri> is not an HTTPS URL`. -/
  | notHTTPS
  /-- The text `<uri> has no host`. -/
  | noHost
  /-- The text `<uri> has invalid port: ...`. -/
  | urlInvalidPort
  /-- The text `invalid port: ...`. -/
  | invalidPort
  /-- The error of `net.LookupIP`. -/
  | lookup (msg : String)
  /-- The text `failed to validate certificate`. -/
  | failedToValidate
deriving DecidableEq, Repr

/-- The function `httpCertResolveURL`. -/
def httpCertResolveURL (env : Env) (uri : String) : Except CmdErr (String × Int) :=
  match env.urlParse uri with
  | Except.error e => Except.error (CmdErr.urlParse e)
  | Except.ok u =>
    if u.scheme ≠ "https" then Except.error CmdErr.notHTTPS
    else if u.hostname = "" then Except.error CmdErr.noHost
    else if u.port ≠ "" then
      match ParseInt u.port.toList with
      | none => Except.error CmdErr.urlInvalidPort
      | some p =>
        if p ≤ 0 ∨ p > 65535 then Except.error CmdErr.urlInvalidPort
        else Except.ok (u.hostname, p)
    else Except.ok (u.hostname, 443)

/-- The function `httpCertResolve`: domain, port and addresses of the argument.
`net.LookupIP` is reached only when the domain is not a literal IP. -/
def httpCertResolve (env : Env) (arg : String) : Except CmdErr (String × Int × List IP) :=
  let fromURL : Except CmdErr (String × Int) :=
    if stringsContains "://".toList arg.toList then httpCertResolveURL env arg
    else Except.ok (arg, 443)
  match fromURL with
  | Except.error e => Except.error e
  | Except.ok (domain0, port0) =>
    let split : Except CmdErr (String × Int) :=
      match stringsSplitN2 ':' domain0.toList with
      | [host, portStr] =>
        match ParseInt portStr with
        | none => Except.error CmdErr.invalidPort
        | some p => Except.ok (String.mk host, p)
      | _ => Except.ok (domain0, port0)
    match split with
    | Except.error e => Except.error e
    | Except.ok (domain, port) =>
      match ParseIP domain with
      | some ip => Except.ok (domain, port, [ip])
      | none =>
        match env.lookupIP domain with
        | Except.error e => Except.error (CmdErr.lookup e)
        | Except.ok ips => Except.ok (domain, port, ips)

/-- An entry of the map `errs`. The key is the pointer `&res.ip`, the address
of a field of the result the task allocated; `ip` is the value it points to. -/
structure Entry where
  key : Nat
  ip : IP
  errs : List (Option CertErr)
deriving DecidableEq, Repr

/-- Assignment `m[key] = value` of a Go map, the map being the list of its
entries: the entry of the key is replaced when there is one, added otherwise. -/
def mapAssign (m : List Entry) (e : Entry) : List Entry :=
  if m.any (fun x => decide (x.key = e.key)) then
    m.map (fun x => if x.key = e.key then e else x)
  else m ++ [e]

/-- The closure `getResult`, run under the mutex: the state is the map and the
counter `countRuns`. `key` is the address of the result. -/
def getResult (st : List Entry × Nat) (key : Nat) (res : httpCertResult) : List Entry × Nat :=
  (mapAssign st.1 { key := key, ip := res.ip, errs := res.errs },
   if res.runned then st.2 + 1 else st.2)

/-- The tasks of the command up to `wg.Wait()`. Task `i` checks `ips[i]` and
allocates its result at address `i`, two tasks never sharing an address;
`order` lists the tasks in the order in which they enter `getResult`. -/
def runTasks (env : Env) (domain : String) (port : Int) (ips : List IP) (order : List Nat) :
    List Entry × Nat :=
  order.foldl
    (fun st i =>
      match ips[i]? with
      | some ip => getResult st i (httpCertOnIP env domain ip port)
      | none => st)
    ([], 0)

/-- A line printed by the report: `<ip>: OK` or `<ip>: <error>`. -/
inductive Line where
  | ok (ip : IP)
  | failed (ip : IP) (e : CertErr)
deriving DecidableEq, Repr

/-- The inner loop of the report over the errors of one address: a line for each
non-nil error, which also clears `valid`. -/
def reportErrs (ip : IP) : List (Option CertErr) → List Line × Bool → List Line × Bool
  | [], st => st
  | none :: rest, st => reportErrs ip rest st
  | some e :: rest, st => reportErrs ip rest (st.1 ++ [Line.failed ip e], false)

/-- The report loop over the map, the state being the lines printed and the
flag `valid`. -/
def reportLoop : List Entry → List Line × Bool → List Line × Bool
  | [], st => st
  | ent :: rest, st =>
    if ent.errs.length = 0 then reportLoop rest (st.1 ++ [Line.ok ent.ip], st.2)
    else reportLoop rest (reportErrs ent.ip ent.errs st)

/-- The report: the lines printed and the error returned by the command. -/
def report (errs : List Entry) : List Line × Option CmdErr :=
  let st := reportLoop errs ([], true)
  (st.1, if st.2 then none else some CmdErr.failedToValidate)

/-- The function `RunE` of `http>cert`: the lines printed and the error
returned. The map is iterated in insertion order. -/
def RunE (env : Env) (arg : String) (order : List Nat) : List Line × Option CmdErr :=
  match httpCertResolve env arg with
  | Except.error e => ([], some e)
  | Except.ok (domain, port, ips) => report (runTasks env domain port ips order).1

/-! ## Definitions used to state the properties -/

/-- The entry that task `i` writes into the map, when `ips[i]` exists. -/
def taskEntry (env : Env) (domain : String) (port : Int) (ips : List IP) (i : Nat) :
    Option Entry :=
  (ips[i]?).map (fun ip =>
    { key := i, ip := ip, errs := (httpCertOnIP env domain ip port).errs })

/-- The lines the report prints for one entry of the map: the `OK` line when
its error list is empty, otherwise a line for each of its non-nil errors. -/
def entryLines (ent : Entry) : List Line :=
  if ent.errs.length = 0 then [Line.ok ent.ip]
  else ent.errs.filterMap (fun e => e.map (Line.failed ent.ip))

/-- Whether an error is one of the two errors of the SAN check. -/
def CertErr.isSAN : CertErr → Bool
  | CertErr.sanNone => true
  | CertErr.sanNoMatch => true
  | _ => false

/-- The loop over the DNS names in `Client.checkCerts` (`httpdsak/x509.go`):
each name is compiled with `glob.Compile(name)` and matched against the
hostname, already lowercased, a name that does not compile being skipped. It is
the loop of `httpCertOnIPCheckCertSAN`. -/
def checkCertsNameMatches (other : String → Option (String → Bool)) (hostname : String)
    (names : List String) : Bool :=
  sanNameMatches other hostname names

/-! ## Concrete inputs -/

/-- A glob library that is never asked about a pattern outside the fragment. -/
def noGlobOther : String → Option (String → Bool) := fun _ => none

/-- The address the concrete runs resolve to, 192.0.2.10. -/
def testAddr : IP := [192, 0, 2, 10]

/-- A leaf certificate for `*.test.local`, valid from instant 0 to 2000. -/
def testLeaf : Certificate where
  raw := [1]
  subject := "CN=test.local"
  dnsNames := ["*.test.local"]
  ipAddresses := []
  uris := []
  notBefore := 0
  notAfter := 2000

/-- An intermediate certificate that expired at instant 50. -/
def expiredMid : Certificate where
  raw := [2]
  subject := "CN=mid"
  dnsNames := []
  ipAddresses := []
  uris := []
  notBefore := 0
  notAfter := 50

/-- A root certificate valid from instant 0 to 2000. -/
def testRoot : Certificate where
  raw := [3]
  subject := "CN=root"
  dnsNames := []
  ipAddresses := []
  uris := []
  notBefore := 0
  notAfter := 2000

/-- A leaf certificate whose not-after date is one day after instant 1000. -/
def boundaryCert : Certificate where
  raw := [4]
  subject := "CN=boundary"
  dnsNames := ["*.test.local"]
  ipAddresses := []
  uris := []
  notBefore := 0
  notAfter := 86400000001000

/-- Surroundings at instant 1000 with no grace period: the name resolves to
`testAddr`, a route exists, the server presents `testLeaf` alone and the chain
verifies. -/
def envOK : Env where
  days := 0
  now := 1000
  globOther := noGlobOther
  newRouter := none
  route := fun _ => Except.ok true
  dial := fun _ _ _ => Except.ok [testLeaf]
  verify := fun _ _ _ _ => none
  urlParse := fun _ => Except.error "no URL"
  lookupIP := fun _ => Except.ok [testAddr]

/-- The surroundings `envOK`, but with no route to any address: the route
lookup returns its error. -/
def envRouteFails : Env where
  days := 0
  now := 1000
  globOther := noGlobOther
  newRouter := none
  route := fun _ => Except.error "no route found for 192.0.2.10"
  dial := fun _ _ _ => Except.ok [testLeaf]
  verify := fun _ _ _ _ => none
  urlParse := fun _ => Except.error "no URL"
  lookupIP := fun _ => Except.ok [testAddr]

/-- A second address, 192.0.2.11. -/
def testAddr2 : IP := [192, 0, 2, 11]

/-- A certificate whose only SAN entry is `*.example.com`. -/
def wildcardCert : Certificate where
  raw := [5]
  subject := "CN=example.com"
  dnsNames := ["*.example.com"]
  ipAddresses := []
  uris := []
  notBefore := 0
  notAfter := 2000

/-- Surroundings in which the name resolves to two addresses: the server at
`testAddr` presents `testLeaf`, the connection to any other address fails. -/
def envTwo : Env where
  days := 0
  now := 1000
  globOther := noGlobOther
  newRouter := none
  route := fun _ => Except.ok true
  dial := fun ip _ _ => if ip = testAddr then Except.ok [testLeaf] else Except.error "refused"
  verify := fun _ _ _ _ => none
  urlParse := fun _ => Except.error "no URL"
  lookupIP := fun _ => Except.ok [testAddr, testAddr2]

/-! # The HTTP client (`internal/pkg/httpdsak`)

## Go standard library: strings, unicode, net/textproto, net/http -/

/-- Lower case of an ASCII letter, any other character unchanged. -/
def asciiLower (c : Char) : Char :=
  if 'A' ≤ c ∧ c ≤ 'Z' then Char.ofNat (c.toNat + 32) else c

/-- Upper case of an ASCII letter, any other character unchanged. -/
def asciiUpper (c : Char) : Char :=
  if 'a' ≤ c ∧ c ≤ 'z' then Char.ofNat (c.toNat - 32) else c

/-- Whether a character is an ASCII letter, the class `[a-zA-Z]`. -/
def isASCIILetter (c : Char) : Bool :=
  ('a' ≤ c ∧ c ≤ 'z') ∨ ('A' ≤ c ∧ c ≤ 'Z')

/-- Go `strings.ToLower`: ASCII letters are lowered here, `uni` is
`unicode.ToLower` on the characters outside ASCII. -/
def stringsToLower (uni : Char → Char) (s : List Char) : List Char :=
  s.map (fun c => if c.toNat < 128 then asciiLower c else uni c)

/-- Go `strings.ToUpper`: ASCII letters are raised here, `uni` is
`unicode.ToUpper` on the characters outside ASCII. -/
def stringsToUpper (uni : Char → Char) (s : List Char) : List Char :=
  s.map (fun c => if c.toNat < 128 then asciiUpper c else uni c)

/-- Go `unicode.IsSpace`: the Latin-1 spaces, and above Latin-1 the characters
of the property White_Space. -/
def unicodeIsSpace (c : Char) : Bool :=
  let n := c.toNat
  if n ≤ 0xFF then
    n = 9 ∨ n = 10 ∨ n = 11 ∨ n = 12 ∨ n = 13 ∨ n = 32 ∨ n = 0x85 ∨ n = 0xA0
  else
    n = 0x1680 ∨ (0x2000 ≤ n ∧ n ≤ 0x200A) ∨ n = 0x2028 ∨ n = 0x2029 ∨ n = 0x202F ∨
      n = 0x205F ∨ n = 0x3000

/-- Go `strings.TrimSpace`: the string without its leading and trailing
white space. -/
def stringsTrimSpace (s : List Char) : List Char :=
  ((s.dropWhile unicodeIsSpace).reverse.dropWhile unicodeIsSpace).reverse

/-- Go `unicode.IsGraphic(rune(b))` for a byte `b`, read from the Latin-1
table: the space, the printable ASCII characters, and the characters from
U+00A0 to U+00FF but the soft hyphen U+00AD. -/
def isGraphicByte (b : Nat) : Bool :=
  (0x20 ≤ b ∧ b ≤ 0x7E) ∨ (0xA0 ≤ b ∧ b ≤ 0xFF ∧ b ≠ 0xAD)

/-- The token characters of HTTP, `validHeaderFieldByte` in `net/textproto` and
`IsTokenRune` in `httpguts`: letters, digits and the fifteen marks
`! # $ % & ' * + - . ^ _` , the grave accent, `|` and `~`, given by code. -/
def isTokenChar (c : Char) : Bool :=
  let n := c.toNat
  (48 ≤ n ∧ n ≤ 57) ∨ (65 ≤ n ∧ n ≤ 90) ∨ (97 ≤ n ∧ n ≤ 122) ∨
    n ∈ [33, 35, 36, 37, 38, 39, 42, 43, 45, 46, 94, 95, 96, 124, 126]

/-- The loop of `canonicalMIMEHeaderKey`: a letter is raised at the start and
after a dash, lowered elsewhere; `upper` tells whether the next letter is to be
raised. -/
def canonLoop : Bool → List Char → List Char
  | _, [] => []
  | upper, c :: cs =>
    let c2 := if upper then asciiUpper c else asciiLower c
    c2 :: canonLoop (c2 == '-') cs

/-- Go `textproto.CanonicalMIMEHeaderKey`: a key made of token characters is
put in canonical form, any other key is returned unchanged. -/
def canonicalKey (s : String) : String :=
  if s.toList.all isTokenChar then String.mk (canonLoop true s.toList) else s

/-- An `http.Header`: the list of its keys with their values. -/
abbrev Header := List (String × List String)

/-- The values `h[key]` of a header map, empty when the key is absent. -/
def headerValues : Header → String → List String
  | [], _ => []
  | e :: rest, key => if e.1 = key then e.2 else headerValues rest key

/-- Go `Header.Get`: the first value of the canonical key, or the empty
string. -/
def headerGet (h : Header) (key : String) : String :=
  ((headerValues h (canonicalKey key)).head?).getD ""

/-- The assignment `h[key] = f(h[key])` of a header map, the key being added
when it is absent. -/
def headerUpdate (f : List String → List String) : Header → String → Header
  | [], key => [(key, f [])]
  | e :: rest, key =>
    if e.1 = key then (e.1, f e.2) :: rest else e :: headerUpdate f rest key

/-- Go `Header.Set`: the values of the canonical key become the single given
value. -/
def headerSet (h : Header) (key value : String) : Header :=
  headerUpdate (fun _ => [value]) h (canonicalKey key)

/-- Go `Header.Add`: the value is appended to the values of the canonical
key. -/
def headerAdd (h : Header) (key value : String) : Header :=
  headerUpdate (fun vs => vs ++ [value]) h (canonicalKey key)

/-- An error returned by `Read`: `io.EOF` or another error. -/
inductive ReadErr where
  | eof
  | other (msg : String)
deriving DecidableEq, Repr

/-- What one call of `Read` hands over when the buffer is large enough: some
bytes and possibly an error. -/
structure ReadEvent where
  bytes : List Nat
  err : Option ReadErr
deriving DecidableEq, Repr

/-- An `io.Reader`, as the list of what its successive `Read` calls hand over;
a reader at the end of its list returns `io.EOF`. -/
abbrev Reader := List ReadEvent

/-- A call `Read(p)` with `len(p) = n`: the bytes and error returned and the
reader afterwards. An event larger than the buffer is handed over in pieces. -/
def readerRead (r : Reader) (n : Nat) : (List Nat × Option ReadErr) × Reader :=
  match r with
  | [] => (([], some ReadErr.eof), [])
  | ev :: rest =>
    if ev.bytes.length ≤ n then ((ev.bytes, ev.err), rest)
    else ((ev.bytes.take n, none), { bytes := ev.bytes.drop n, err := ev.err } :: rest)

/-- Number of `Read` calls with a non-empty buffer after which a reader is
surely at the end of its list. -/
def readerFuel : Reader → Nat
  | [] => 0
  | ev :: rest => ev.bytes.length + 1 + readerFuel rest

/-- The loop of `io.Copy` into a sink that accepts every write, with its buffer
of 32 KiB: the bytes written so far are `acc`; the result is the bytes written
and the error returned, `io.EOF` ending the copy without error. -/
def ioCopyLoop : Nat → Reader → List Nat → List Nat × Option String
  | 0, _, acc => (acc, none)
  | fuel + 1, r, acc =>
    match readerRead r 32768 with
    | ((bs, none), r2) => ioCopyLoop fuel r2 (acc ++ bs)
    | ((bs, some ReadErr.eof), _) => (acc ++ bs, none)
    | ((bs, some (ReadErr.other msg)), _) => (acc ++ bs, some msg)

/-- Go `io.Copy(dst, src)` for a sink that accepts every write. -/
def ioCopy (r : Reader) : List Nat × Option String :=
  ioCopyLoop (readerFuel r + 1) r []

/-! ## Data model of the client -/

/-- An `io.Writer` given to the client, by name. -/
inductive Writer where
  | stdout
  | stderr
  | other (id : Nat)
deriving DecidableEq, Repr

/-- A request body, an `io.ReadCloser`: `http.NoBody`; a `*resource.R` over a
file or a standard stream, with the value its `Size` method returns, read
without the network; a `*resource.R` over an HTTP URL, with the size it has
stored, 0 until its first request; or any other reader with its content. -/
inductive Body where
  | noBody
  | resource (size : Int)
  | httpResource (url : String) (stored : Int)
  | reader (content : List Nat)
deriving DecidableEq, Repr

/-- The fields and methods of a `*url.URL` the client reads: `Scheme`, `Host`,
`Hostname()` and `String()`. -/
structure URL where
  scheme : String
  host : String
  hostname : String
  text : String
deriving DecidableEq, Repr

/-- The struct `Client`, without the fields `client` and `req` that `Run`
fills. The field `url` is the empty URL until `NewClient` has parsed the
target. -/
structure Client where
  acccept : String
  body : Body
  contentType : String
  forceHTTP1 : Bool
  forceHTTP2 : Bool
  forceType : String
  headers : Header
  insecure : Bool
  jq : Option String
  log : Writer
  method : String
  out : Writer
  raw : Bool
  style : String
  trace : Bool
  url : URL
deriving DecidableEq, Repr

/-- The body stored in an `http.Request`: a `*sizedBody` with its inner body and
size, or a body of another type. -/
inductive ReqBody where
  | sized (body : Body) (size : Int)
  | plain (body : Body)
deriving DecidableEq, Repr

/-- The fields of an `http.Request` the client sets. -/
structure Request where
  method : String
  url : URL
  header : Header
  body : ReqBody
  contentLength : Int
deriving DecidableEq, Repr

/-- A request put on the network: the `GET` an HTTP resource sends when it
opens its reader, or the call `client.Do` on the request of the client. -/
inductive NetEvent where
  | resourceGet (url : String)
  | clientDo (req : Request)
deriving DecidableEq, Repr

/-- The fields of an `http.Response` the client reads. -/
structure Response where
  status : String
  statusCode : Int
  header : Header
  body : Reader
deriving DecidableEq, Repr

/-- The fields of the `http.Transport` built by `buildTransport` that bear on
the protocol: `ForceAttemptHTTP2`, `TLSHandshakeTimeout`, `TLSNextProto`, and of
its `TLSClientConfig` the fields `InsecureSkipVerify`, `NextProtos` and
`VerifyConnection`. `tlsNextProto` is `none` for a nil map and `some []` for an
empty one; `verifyConnection` takes the negotiated protocol to the error of the
hook. -/
structure Transport where
  forceAttemptHTTP2 : Bool
  tlsHandshakeTimeout : Int
  tlsNextProto : Option (List String)
  insecureSkipVerify : Bool
  nextProtos : List String
  verifyConnection : String → Option String

/-- The functions of `output*.go` that render a response body. -/
inductive Presenter where
  | raw
  | jq
  | json
  | highlighted (lexer : String)
  | image
  | media
deriving DecidableEq, Repr

/-- What the client takes from its surroundings and from the libraries that
are not modelled. -/
structure HttpEnv where
  /-- The function `unicode.ToLower` outside ASCII. -/
  toLowerRune : Char → Char
  /-- The function `unicode.ToUpper` outside ASCII. -/
  toUpperRune : Char → Char
  /-- The list `styles.Names()` of chroma. -/
  styleNames : List String
  /-- The error of `gojq.Parse`, `none` when the filter parses. -/
  jqParse : String → Option String
  /-- The call `url.Parse`: its error, or the parsed URL. The scheme it reports
  is not read here, `urlParse` computes it. -/
  urlParts : String → Except String URL
  /-- The answer of `term.IsTerminal(syscall.Stdout)`. -/
  isTerminal : Bool
  /-- Whether `ffmpeg` is found in the path. -/
  hasFFMpeg : Bool
  /-- The deadline of the context, `none` when it has none. -/
  deadline : Option Int
  /-- The reading of `time.Now()`, in nanoseconds. -/
  now : Int
  /-- The call `c.client.Do(c.req)`: the network exchange. -/
  doRequest : Transport → Request → Except String Response
  /-- The size an HTTP resource has stored after the `GET` of its first reader:
  the `Content-Length` of the answer, 0 when the request fails or the header is
  absent or unreadable. -/
  httpResourceSize : String → Int
  /-- What a presenter other than the raw one writes to the output sink and the
  error it returns, decoding and highlighting being left to their libraries. -/
  render : Presenter → Client → Response → List Nat × Option String

/-- What a presenter did: the presenter functions entered, in order, the bytes
written to the output sink, and the error returned. -/
structure RenderResult where
  calls : List Presenter
  written : List Nat
  err : Option String
deriving DecidableEq, Repr

/-- What `Run` did: the error returned, the request handed to `client.Do` if
that call was reached, the presenter functions entered, the bytes written to
the output sink, and the requests put on the network, in order. -/
structure RunResult where
  err : Option String
  sent : Option Request
  calls : List Presenter
  written : List Nat
  network : List NetEvent
deriving DecidableEq, Repr

/-! ## Options and `NewClient` -/

/-- The options of `options.go`, one constructor per function. -/
inductive ClientOption where
  | WithOut (writer : Writer)
  | WithLog (writer : Writer)
  | WithInsecure
  | WithMethod (method : String)
  | WithAccept (v : String)
  | WithBody (b : Body)
  | WithContentType (v : String)
  | WithForceHTTP1
  | WithForceHTTP2
  | WithHeader (name value : String)
  | WithJQ (filter : String)
  | WithRaw
  | WithStyle (style : String)
  | WithTrace
  | WithForceType (t : String)
deriving DecidableEq, Repr

/-- The test `regexp.MustCompile("^[a-zA-Z]+$").MatchString(method)`: the
string is not empty and holds ASCII letters only. -/
def matchLetters (method : String) : Bool :=
  !method.toList.isEmpty && method.toList.all isASCIILetter

/-- The closure an option returns, run on a client: the client afterwards and
the error returned. -/
def ClientOption.apply (env : HttpEnv) (o : ClientOption) (c : Client) :
    Client × Option String :=
  match o with
  | ClientOption.WithOut writer => ({ c with out := writer }, none)
  | ClientOption.WithLog writer => ({ c with log := writer }, none)
  | ClientOption.WithInsecure => ({ c with insecure := true }, none)
  | ClientOption.WithMethod method =>
    if method = "" then (c, some "method cannot be empty")
    else if !matchLetters method then (c, some (method ++ ": invalid method"))
    else ({ c with method := String.mk (stringsToUpper env.toUpperRune method.toList) }, none)
  | ClientOption.WithAccept v => ({ c with acccept := v }, none)
  | ClientOption.WithBody b => ({ c with body := b }, none)
  | ClientOption.WithContentType v => ({ c with contentType := v }, none)
  | ClientOption.WithForceHTTP1 =>
    if c.forceHTTP2 then (c, some "cannot force HTTP/1.1 and HTTP/2 at the same time")
    else ({ c with forceHTTP1 := true }, none)
  | ClientOption.WithForceHTTP2 =>
    if c.forceHTTP1 then (c, some "cannot force HTTP/1.1 and HTTP/2 at the same time")
    else ({ c with forceHTTP2 := true }, none)
  | ClientOption.WithHeader name value => ({ c with headers := headerAdd c.headers name value }, none)
  | ClientOption.WithJQ filter =>
    match env.jqParse filter with
    | some e => (c, some ("invalid jq filter: " ++ e))
    | none => ({ c with jq := some filter }, none)
  | ClientOption.WithRaw => ({ c with raw := true }, none)
  | ClientOption.WithStyle style =>
    if !env.styleNames.contains style then (c, some (style ++ ": unknown style"))
    else ({ c with style := style }, none)
  | ClientOption.WithTrace => ({ c with trace := true }, none)
  | ClientOption.WithForceType t => ({ c with forceType := t }, none)

/-- Go `getScheme` of `net/url`: the scheme is what stands before the first
colon when that is a letter followed by letters, digits, `+`, `-` and `.`; a
string with no such start has no scheme, and one that starts with a colon is an
error. `acc` is what has been read. -/
def getScheme : List Char → List Char → Except String (List Char)
  | [], _ => Except.ok []
  | c :: cs, acc =>
    if isASCIILetter c then getScheme cs (acc ++ [c])
    else if ('0' ≤ c ∧ c ≤ '9') ∨ c = '+' ∨ c = '-' ∨ c = '.' then
      if acc = [] then Except.ok [] else getScheme cs (acc ++ [c])
    else if c = ':' then
      if acc = [] then Except.error "missing protocol scheme" else Except.ok acc
    else Except.ok []

/-- Go `url.Parse`: the scheme is read by `getScheme` from what stands before
the first `#` and lowered; the other fields, and the other errors, are those of
`env.urlParts`. -/
def urlParse (env : HttpEnv) (rawURL : String) : Except String URL :=
  match getScheme (rawURL.toList.takeWhile (fun c => c != '#')) [] with
  | Except.error e => Except.error e
  | Except.ok scheme =>
    match env.urlParts rawURL with
    | Except.error e => Except.error e
    | Except.ok u =>
      Except.ok { u with scheme := String.mk (stringsToLower env.toLowerRune scheme) }

/-- The function `parseURL`. -/
def parseURL (env : HttpEnv) (uri : String) : Except String URL :=
  let uri := if !stringsContains "://".toList uri.toList then "http://" ++ uri else uri
  match urlParse env uri with
  | Except.error e => Except.error e
  | Except.ok u =>
    if u.scheme ≠ "http" ∧ u.scheme ≠ "https" then Except.error "not an http url"
    else if u.host = "" then Except.error "no hostname in url"
    else Except.ok u

/-- The client `NewClient` starts from. -/
def defaultClient : Client where
  acccept := ""
  body := Body.noBody
  contentType := "application/octet-stream"
  forceHTTP1 := false
  forceHTTP2 := false
  forceType := ""
  headers := []
  insecure := false
  jq := none
  log := Writer.stderr
  method := "GET"
  out := Writer.stdout
  raw := false
  style := "monokai"
  trace := false
  url := { scheme := "", host := "", hostname := "", text := "" }

/-- The loop of `NewClient` over the options, which stops at the first
error. -/
def applyOptions (env : HttpEnv) : List ClientOption → Client → Except String Client
  | [], c => Except.ok c
  | o :: rest, c =>
    match ClientOption.apply env o c with
    | (_, some e) => Except.error e
    | (c2, none) => applyOptions env rest c2

/-- The function `NewClient`. -/
def NewClient (env : HttpEnv) (uri : String) (opts : List ClientOption) :
    Except String Client :=
  match applyOptions env opts defaultClient with
  | Except.error e => Except.error e
  | Except.ok c =>
    match parseURL env uri with
    | Except.error e => Except.error ("failed to parse url: " ++ e)
    | Except.ok u => Except.ok { c with url := u }

/-! ## Request, transport, rendering and `Run` -/

/-- The constants `V` and `Build` of the package `version` joined by
`GetFullVersion`. -/
def GetFullVersion : String := "0.0.0" ++ "-" ++ "dev"

/-- The method `Size` of a `*resource.R`: the value returned and the requests
put on the network. An HTTP resource returns the size it has stored when that
is not 0; otherwise it opens its reader, which sends a `GET` to its URL, and
returns the size stored then. -/
def resourceSize (env : HttpEnv) (url : String) (stored : Int) : Int × List NetEvent :=
  if stored ≠ 0 then (stored, [])
  else (env.httpResourceSize url, [NetEvent.resourceGet url])

/-- The function `wrapSizedBody`: the size is what `Size` returns when the body
is a `*resource.R`, and 0 otherwise; with the sized body come the requests the
call of `Size` put on the network. -/
def wrapSizedBody (env : HttpEnv) (body : Body) : ReqBody × List NetEvent :=
  match body with
  | Body.resource s => (ReqBody.sized body s, [])
  | Body.httpResource url stored =>
    (ReqBody.sized body (resourceSize env url stored).1, (resourceSize env url stored).2)
  | _ => (ReqBody.sized body 0, [])

/-- Go `http.NewRequestWithContext` with a non-nil context: the method must be
a token, the URL must parse, and for a body that is none of the buffer types of
the standard library, as a `*sizedBody` is, `ContentLength` is left at 0. -/
def NewRequestWithContext (env : HttpEnv) (method url : String) (body : ReqBody) :
    Except String Request :=
  let method := if method = "" then "GET" else method
  if !(!method.toList.isEmpty && method.toList.all isTokenChar) then
    Except.error ("net/http: invalid method " ++ method)
  else
    match urlParse env url with
    | Except.error e => Except.error e
    | Except.ok u =>
      Except.ok { method := method, url := u, header := [], body := body, contentLength := 0 }

/-- The loop of `setRequestHeaders` over the headers of the client: every value
of every name is added. -/
def addUserHeaders (headers : Header) (user : Header) : Header :=
  user.foldl (fun h e => e.2.foldl (fun h2 v => headerAdd h2 e.1 v) h) headers

/-- The function `setRequestHeaders`, from the request built so far to the
request with its headers and content length. -/
def setRequestHeaders (c : Client) (req : Request) : Request :=
  let headers := req.header
  let headers := headerSet headers "user-agent" ("dsak/" ++ GetFullVersion)
  let headers := if c.acccept ≠ "" then headerSet headers "accept" c.acccept else headers
  let headers :=
    if c.contentType ≠ "" then headerSet headers "content-type" c.contentType else headers
  let headers := addUserHeaders headers c.headers
  let contentLength : Int :=
    match req.body with
    | ReqBody.sized _ size => size
    | ReqBody.plain _ => -1
  { req with contentLength := contentLength, header := headers }

/-- The function `buildRequest`: the request stored in the client, or the
error. -/
def buildRequest (env : HttpEnv) (c : Client) : Except String Request :=
  match NewRequestWithContext env c.method c.url.text (wrapSizedBody env c.body).1 with
  | Except.error e => Except.error ("failed to create request: " ++ e)
  | Except.ok req => Except.ok (setRequestHeaders c req)

/-- The message of the error `buildTransport` returns when HTTP/2 is forced on
a plain `http` URL. -/
def errHTTP2RequiresTLS : String :=
  "HTTP/2 requires (de facto) a TLS connection " ++
    "(https://www.mnot.net/blog/2015/06/15/http2_implementation_status)"

/-- The function `buildTransport`. -/
def buildTransport (env : HttpEnv) (c : Client) : Except String Transport :=
  let tlsHandshakeTimeout : Int :=
    match env.deadline with
    | some v => v - env.now
    | none => 10 * 1000000000
  let rtNextProto : Option (List String) := if c.forceHTTP1 then some [] else none
  let cfgNextProto : List String := if c.forceHTTP2 then ["h2"] else []
  if c.forceHTTP2 ∧ c.url.scheme = "http" then
    Except.error errHTTP2RequiresTLS
  else
    Except.ok
      { forceAttemptHTTP2 := true
        tlsHandshakeTimeout := tlsHandshakeTimeout
        tlsNextProto := rtNextProto
        insecureSkipVerify := c.insecure
        nextProtos := cfgNextProto
        verifyConnection := fun negotiated =>
          if c.forceHTTP2 ∧ negotiated ≠ "h2" then some "HTTP/2 was required" else none }

/-- Go `net/http`, what a transport does to the `NextProtos` of its TLS
configuration before its first connection (`onceSetNextProtoDefaults`, then
`http2ConfigureTransports`): the list the TLS handshake offers. With a non-nil
`TLSNextProto`, or without `ForceAttemptHTTP2` when a TLS configuration is
given, the list is left as it is; otherwise `h2` is put in front of it when
absent, and `http/1.1` at its end when absent. -/
def onceSetNextProtoDefaults (tr : Transport) : List String :=
  if tr.tlsNextProto.isSome then tr.nextProtos
  else if !tr.forceAttemptHTTP2 then tr.nextProtos
  else
    let protos := if tr.nextProtos.contains "h2" then tr.nextProtos else "h2" :: tr.nextProtos
    if protos.contains "http/1.1" then protos else protos ++ ["http/1.1"]

/-- The function `buildClient`: the transport of the HTTP client, or the
error. -/
def buildClient (env : HttpEnv) (c : Client) : Except String Transport :=
  match buildTransport env c with
  | Except.error e => Except.error ("failed to build HTTP transport: " ++ e)
  | Except.ok tr => Except.ok tr

/-- The line printed in place of a body that holds binary data, with its line
feed. -/
def binaryWarning : List Nat :=
  ("Output contains binary data, not showing it to preserve terminal".toList.map Char.toNat)
    ++ [10]

/-- The function `outputRaw`, the output sink accepting every write. -/
def outputRaw (env : HttpEnv) (c : Client) (res : Response) : RenderResult :=
  if !c.raw ∧ env.isTerminal then
    match readerRead res.body 1024 with
    | ((_, some (ReadErr.other msg)), _) =>
      { calls := [Presenter.raw], written := [],
        err := some ("failed to read response body: " ++ msg) }
    | ((p, _), body2) =>
      if p.any (fun b => !isGraphicByte b) then
        { calls := [Presenter.raw], written := binaryWarning, err := none }
      else
        { calls := [Presenter.raw], written := p ++ (ioCopy body2).1, err := (ioCopy body2).2 }
  else
    { calls := [Presenter.raw], written := (ioCopy res.body).1, err := (ioCopy res.body).2 }

/-- A presenter whose work is done by a library: `outputJQ`, `outputJSON`,
`outputHighlighted` and `outputImage`. -/
def outputWith (env : HttpEnv) (p : Presenter) (c : Client) (res : Response) : RenderResult :=
  { calls := [p], written := (env.render p c res).1, err := (env.render p c res).2 }

/-- The function `outputMedia`: raw output when `ffmpeg` is not installed. -/
def outputMedia (env : HttpEnv) (c : Client) (res : Response) : RenderResult :=
  if !env.hasFFMpeg then
    { outputRaw env c res with calls := Presenter.media :: (outputRaw env c res).calls }
  else outputWith env Presenter.media c res

/-- The MIME type computed by `output`: the forced type when there is one,
otherwise what stands before the first `;` of the content type of the response,
trimmed and lowered. -/
def outputMimeType (env : HttpEnv) (c : Client) (res : Response) : String :=
  let parts := stringsSplitN2 ';' (headerGet res.header "content-type").toList
  let mimeType := c.forceType
  if mimeType = "" then
    String.mk (stringsToLower env.toLowerRune (stringsTrimSpace (parts.headD [])))
  else mimeType

/-- The end of `output`: the error of the presenter chosen by MIME type, if
any, is wrapped and returned. -/
def wrapRenderError (r : RenderResult) : RenderResult :=
  match r.err with
  | some e => { r with err := some ("error while rendering response: " ++ e) }
  | none => r

/-- The function `output`. -/
def output (env : HttpEnv) (c : Client) (res : Response) : RenderResult :=
  if c.raw ∨ !env.isTerminal then outputRaw env c res
  else if c.jq.isSome then outputWith env Presenter.jq c res
  else
    let mimeType := outputMimeType env c res
    wrapRenderError
      (if mimeType = "application/json" then outputWith env Presenter.json c res
      else if mimeType = "application/xml" ∨ mimeType = "text/xml" then
        outputWith env (Presenter.highlighted "xml") c res
      else if mimeType = "text/html" then outputWith env (Presenter.highlighted "html") c res
      else if mimeType = "image/png" ∨ mimeType = "image/jpeg" ∨ mimeType = "image/gif" then
        outputWith env Presenter.image c res
      else
        let parts := stringsSplitN2 '/' mimeType.toList
        if parts.headD [] = "audio".toList ∨ parts.headD [] = "video".toList then
          outputMedia env c res
        else outputRaw env c res)

/-- The function `Run`, the log sink left out. `buildRequest` calls
`wrapSizedBody` on the body before anything else, so the requests of that call
come first on the network, whatever fails afterwards. -/
def Run (env : HttpEnv) (c : Client) : RunResult :=
  match buildRequest env c with
  | Except.error e =>
    { err := some ("failed to build HTTP request: " ++ e), sent := none, calls := [],
      written := [], network := (wrapSizedBody env c.body).2 }
  | Except.ok req =>
    match buildClient env c with
    | Except.error e =>
      { err := some ("failed to build HTTP client: " ++ e), sent := none, calls := [],
        written := [], network := (wrapSizedBody env c.body).2 }
    | Except.ok tr =>
      match env.doRequest tr req with
      | Except.error e =>
        { err := some ("request failed: " ++ e), sent := some req, calls := [], written := [],
          network := (wrapSizedBody env c.body).2 ++ [NetEvent.clientDo req] }
      | Except.ok res =>
        { err := (output env c res).err, sent := some req, calls := (output env c res).calls,
          written := (output env c res).written,
          network := (wrapSizedBody env c.body).2 ++ [NetEvent.clientDo req] }

/-! ## Definitions used to state the properties of the client -/

/-- The bytes a reader hands over up to its first error, `io.EOF` included:
the body as `io.Copy` sees it. -/
def readerBytes : Reader → List Nat
  | [] => []
  | ev :: rest => ev.bytes ++ (if ev.err.isSome then [] else readerBytes rest)

/-- The first error of a reader that is not `io.EOF`, if it comes before
`io.EOF` and before the end of the list. -/
def readerError : Reader → Option String
  | [] => none
  | ev :: rest =>
    match ev.err with
    | none => readerError rest
    | some ReadErr.eof => none
    | some (ReadErr.other msg) => some msg

/-- The values given by the options `WithHeader` of a list for the header whose
canonical name is `key`, in the order of the options. -/
def userValues (opts : List ClientOption) (key : String) : List String :=
  opts.filterMap (fun o =>
    match o with
    | ClientOption.WithHeader name value => if canonicalKey name = key then some value else none
    | _ => none)

/-- The values `setRequestHeaders` itself gives to a header: the user agent,
the accept value when there is one, the content type when there is one. -/
def generatedValues (c : Client) (key : String) : List String :=
  if key = "User-Agent" then ["dsak/" ++ GetFullVersion]
  else if key = "Accept" ∧ c.acccept ≠ "" then [c.acccept]
  else if key = "Content-Type" ∧ c.contentType ≠ "" then [c.contentType]
  else []

/-- The values the loop of `setRequestHeaders` over a header map adds to the
header `key`: those of every entry whose canonical name is `key`. -/
def valuesAddedFor : Header → String → List String
  | [], _ => []
  | e :: rest, key => (if canonicalKey e.1 = key then e.2 else []) ++ valuesAddedFor rest key

/-- The header maps built by `Header.Add` alone: every key is in canonical form
and occurs once. -/
def headerWellFormed (h : Header) : Prop :=
  (h.map Prod.fst).Nodup ∧ ∀ e ∈ h, canonicalKey e.1 = e.1

/-! ## Concrete inputs of the client -/

/-- Surroundings of the client: an interactive terminal, no `ffmpeg`, a URL
parser that accepts every string and reports the host `example.com`, a server
that answers 200 with a JSON content type and a body handed over in two reads,
the letter `A` and then a zero byte, and presenters that all fail. -/
def httpEnvTerm : HttpEnv where
  toLowerRune := fun c => c
  toUpperRune := fun c => c
  styleNames := ["monokai"]
  jqParse := fun _ => none
  urlParts := fun s =>
    Except.ok { scheme := "", host := "example.com", hostname := "example.com", text := s }
  isTerminal := true
  hasFFMpeg := false
  deadline := none
  now := 0
  doRequest := fun _ _ =>
    Except.ok
      { status := "200 OK"
        statusCode := 200
        header := [("Content-Type", ["application/json"])]
        body := [{ bytes := [65], err := none }, { bytes := [0], err := none }] }
  httpResourceSize := fun _ => 7
  render := fun _ _ _ => ([], some "response is not valid json")

/-- A response of plain text whose body is handed over in two reads: the
letter `A`, then a zero byte. -/
def splitBinaryResponse : Response where
  status := "200 OK"
  statusCode := 200
  header := [("Content-Type", ["text/plain"])]
  body := [{ bytes := [65], err := none }, { bytes := [0], err := none }]

/-- The same response with its body handed over in one read. -/
def wholeBinaryResponse : Response where
  status := "200 OK"
  statusCode := 200
  header := [("Content-Type", ["text/plain"])]
  body := [{ bytes := [65, 0], err := none }]

/-- A response with the content type `Application/JSON; charset=utf-8`. -/
def jsonResponse : Response where
  status := "200 OK"
  statusCode := 200
  header := [("Content-Type", ["Application/JSON; charset=utf-8"])]
  body := [{ bytes := [123, 125], err := none }]

/-- A client for `http://example.com` with the body content `hi`. -/
def literalBodyClient : Client :=
  { defaultClient with
    body := Body.reader [104, 105]
    url := { scheme := "http", host := "example.com", hostname := "example.com",
             text := "http://example.com" } }

/-- A client with the HTTP/2 pin for the bare target `example.com` whose body is
the HTTP resource `http://files.test/body`, no size stored yet. -/
def http2ResourceClient : Client :=
  { defaultClient with
    body := Body.httpResource "http://files.test/body" 0
    forceHTTP2 := true
    url := { scheme := "http", host := "example.com", hostname := "example.com",
             text := "http://example.com" } }

/-- A client with the HTTP/2 pin for the bare target `example.com`. -/
def http2Client : Client :=
  { defaultClient with
    forceHTTP2 := true
    url := { scheme := "http", host := "example.com", hostname := "example.com",
             text := "http://example.com" } }

/-! # Tracing, certificate report and command line of the HTTP client

`internal/pkg/httpdsak/trace.go`, `tracer.go`, `x509.go` and the command
`http debug` of `cmd/httpDebug.go`. The log sink is the list of the prints made
on it. -/

/-- The colour attributes of `fatih/color` the trace helpers use. -/
inductive Attribute where
  | FgBlue
  | FgCyan
  | FgRed
deriving DecidableEq, Repr

/-- An argument handed to a trace format. -/
inductive TraceArg where
  | str (s : String)
  | strs (l : List String)
  | ips (l : List IP)
deriving DecidableEq, Repr

/-- One print on the log sink: `color.New(attrs...).FprintFunc()(c.log, text)`
or `color.New(attrs...).FprintfFunc()(c.log, format, args...)`. -/
inductive LogWrite where
  | print (attrs : List Attribute) (text : String)
  | printf (attrs : List Attribute) (format : String) (args : List TraceArg)
deriving DecidableEq, Repr

/-- The method `doTrace`: the prints it makes on the log sink. -/
def doTrace (c : Client) (text : String) (attrs : List Attribute) : List LogWrite :=
  if !c.trace then [] else [LogWrite.print attrs text]

/-- The method `doTracef`. -/
def doTracef (c : Client) (format : String) (args : List TraceArg) (attrs : List Attribute) :
    List LogWrite :=
  if !c.trace then [] else [LogWrite.printf attrs format args]

/-- The method `traceInfo`. -/
def traceInfo (c : Client) (text : String) : List LogWrite :=
  doTrace c text [Attribute.FgBlue]

/-- The method `traceInfoln`. -/
def traceInfoln (c : Client) (text : String) : List LogWrite :=
  doTrace c (text ++ "\n") [Attribute.FgBlue]

/-- The method `traceInfof`. -/
def traceInfof (c : Client) (format : String) (a : List TraceArg) : List LogWrite :=
  doTracef c format a [Attribute.FgBlue]

/-- The method `traceValue`. -/
def traceValue (c : Client) (text : String) : List LogWrite :=
  doTrace c text [Attribute.FgCyan]

/-- The method `traceValueln`. -/
def traceValueln (c : Client) (text : String) : List LogWrite :=
  doTrace c (text ++ "\n") [Attribute.FgCyan]

/-- The method `traceValuef`. -/
def traceValuef (c : Client) (format : String) (a : List TraceArg) : List LogWrite :=
  doTracef c format a [Attribute.FgCyan]

/-- The method `traceInfoValue`. -/
def traceInfoValue (c : Client) (info value : String) : List LogWrite :=
  traceInfof c "%s: " [TraceArg.str info] ++ traceValue c value

/-- The method `traceInfoValuef`. -/
def traceInfoValuef (c : Client) (info format : String) (a : List TraceArg) : List LogWrite :=
  traceInfof c "%s: " [TraceArg.str info] ++ traceValuef c format a

/-- The method `traceInfoValueln`. -/
def traceInfoValueln (c : Client) (info value : String) : List LogWrite :=
  traceInfoValue c info value ++ traceInfoln c ""

/-- The method `traceError`. -/
def traceError (c : Client) (text : String) : List LogWrite :=
  doTrace c text [Attribute.FgRed]

/-- The method `traceErrorln`. -/
def traceErrorln (c : Client) (text : String) : List LogWrite :=
  doTrace c (text ++ "\n") [Attribute.FgRed]

/-- The method `traceErrorf`. -/
def traceErrorf (c : Client) (format : String) (a : List TraceArg) : List LogWrite :=
  doTracef c format a [Attribute.FgRed]

/-- The method `traceErrorE`; `none` is the `nil` error. -/
def traceErrorE (c : Client) (err : Option String) : List LogWrite :=
  match err with
  | none => traceError c "no error"
  | some e => traceError c e

/-- The method `traceErrorEln`. -/
def traceErrorEln (c : Client) (err : Option String) : List LogWrite :=
  match err with
  | none => traceErrorln c "no error"
  | some e => traceErrorln c e

/-- The hooks of the `httptrace.ClientTrace` that `getTracerContext` fills. -/
def tracerHooks : List String :=
  ["GetConn", "GotConn", "ConnectStart", "ConnectDone", "DNSStart", "DNSDone",
    "TLSHandshakeStart", "TLSHandshakeDone", "WroteHeaderField", "WroteHeaders",
    "WroteRequest", "GotFirstResponseByte"]

/-- A `context.Context`: a context received from the caller, or the result of
`httptrace.WithClientTrace` on a context, with the hooks of the tracer and the
client their closures print for. -/
inductive Context where
  | given (id : Nat)
  | withClientTrace (parent : Context) (hooks : List String) (client : Client)
deriving DecidableEq, Repr

/-- The method `getTracerContext`. -/
def getTracerContext (c : Client) (ctx : Context) : Context :=
  if !c.trace then ctx else Context.withClientTrace ctx tracerHooks c

/-- The function `httpDebugGetCertsSANs`, loop over the DNS names of one
certificate: a name is appended unless `slices.Contains` finds it. -/
def sansAddNames (names : List String) (dnsNames : List String) : List String :=
  dnsNames.foldl (fun names name => if !names.contains name then names ++ [name] else names)
    names

/-- The function `httpDebugGetCertsSANs`, loop `ipLoop` over the addresses of
one certificate: an address is appended unless one of the list is `Equal` to
it. -/
def sansAddIPs (ips : List IP) (ipAddresses : List IP) : List IP :=
  ipAddresses.foldl
    (fun ips givenIP => if ips.any (fun ip => IP.Equal ip givenIP) then ips else ips ++ [givenIP])
    ips

/-- The function `httpDebugGetCertsSANs`, loop `urlsLoop` over the URIs of one
certificate, compared by their printed form. -/
def sansAddURLs (urls : List String) (uris : List String) : List String :=
  uris.foldl
    (fun urls givenURL => if urls.any (fun url => url == givenURL) then urls else urls ++ [givenURL])
    urls

/-- The function `httpDebugGetCertsSANs`: names, addresses and URIs. -/
def httpDebugGetCertsSANs (certs : List Certificate) : List String × List IP × List String :=
  certs.foldl
    (fun (acc : List String × List IP × List String) cert =>
      (sansAddNames acc.1 cert.dnsNames, sansAddIPs acc.2.1 cert.ipAddresses,
        sansAddURLs acc.2.2 cert.uris))
    ([], [], [])

/-- What `checkCerts` takes from libraries that are not modelled: the answer of
`glob.Compile` outside the fragment modelled, and the method `IP.String`. -/
structure CertsEnv where
  globOther : String → Option (String → Bool)
  ipString : IP → String

/-- The loop of `checkCerts` over the names: the prints of the first name that
compiles and matches, after which the method returns, or `none` when the loop
ends. -/
def checkCertsNames (cenv : CertsEnv) (c : Client) (hostname : String) :
    List String → Option (List LogWrite)
  | [] => none
  | name :: rest =>
    match globCompile cenv.globOther name with
    | none => checkCertsNames cenv c hostname rest
    | some m =>
      if m hostname then
        some (traceInfo c "Certificate Subject Alternate Name domain " ++ traceValue c name
          ++ traceInfo c " matches hostname " ++ traceValueln c c.url.hostname)
      else checkCertsNames cenv c hostname rest

/-- The loop of `checkCerts` over the addresses, entered when the hostname
parses as `hostIP`. -/
def checkCertsIPs (cenv : CertsEnv) (c : Client) (hostIP : IP) : List IP → Option (List LogWrite)
  | [] => none
  | ip :: rest =>
    if !IP.Equal ip hostIP then checkCertsIPs cenv c hostIP rest
    else
      some (traceInfo c "Certificate Subject Alternate Name ip " ++ traceValue c (cenv.ipString ip)
        ++ traceInfoln c " matches hostname")

/-- The loop of `checkCerts` over the URIs. -/
def checkCertsURLs (c : Client) (givenURL : String) : List String → Option (List LogWrite)
  | [] => none
  | url :: rest =>
    if !url.toList.isPrefixOf givenURL.toList then checkCertsURLs c givenURL rest
    else
      some (traceInfo c "Certificate Subject Alternate Name uri " ++ traceValue c url
        ++ traceInfoln c " matches url")

/-- The end of `checkCerts`, from the block of the URIs on; `log` is what has
been printed. -/
def checkCertsFromURLs (c : Client) (urls : List String) (log : List LogWrite) :
    List LogWrite :=
  let log :=
    if urls.length > 0 then
      log ++ traceInfo c "Certificate Subject Alternate Name uris are "
        ++ traceValuef c "%q\n" [TraceArg.strs urls]
    else log
  match (if urls.length > 0 then checkCertsURLs c c.url.text urls else none) with
  | some found => log ++ found
  | none => log ++ traceErrorln c "None of the Certificate Subject Alternate Name are valid"

/-- The end of `checkCerts`, from the block of the addresses on. -/
def checkCertsFromIPs (cenv : CertsEnv) (c : Client) (hostname : String) (ips : List IP)
    (urls : List String) (log : List LogWrite) : List LogWrite :=
  let log :=
    if ips.length > 0 then
      log ++ traceInfo c "Certificate Subject Alternate Name ips are "
        ++ traceValuef c "%q\n" [TraceArg.ips ips]
    else log
  match (if ips.length > 0 then
      match ParseIP hostname with
      | some hostIP => checkCertsIPs cenv c hostIP ips
      | none => none
    else none) with
  | some found => log ++ found
  | none => checkCertsFromURLs c urls log

/-- The method `checkCerts`: the prints it makes on the log sink. It returns no
value. -/
def checkCerts (env : HttpEnv) (cenv : CertsEnv) (c : Client) (certs : List Certificate) :
    List LogWrite :=
  let hostname := String.mk (stringsToLower env.toLowerRune c.url.hostname.toList)
  let names := (httpDebugGetCertsSANs certs).1
  let ips := (httpDebugGetCertsSANs certs).2.1
  let urls := (httpDebugGetCertsSANs certs).2.2
  if names.length = 0 ∧ ips.length = 0 ∧ urls.length = 0 then
    traceErrorln c "Certificate has no Subject Alternate Name"
  else
    let log :=
      if names.length > 0 then
        traceInfo c "Certificate Subject Alternate Name domains are "
          ++ traceValuef c "%q\n" [TraceArg.strs names]
      else []
    match (if names.length > 0 then checkCertsNames cenv c hostname names else none) with
    | some found => log ++ found
    | none => checkCertsFromIPs cenv c hostname ips urls log

/-- The values the command `http debug` reads from its configuration. -/
structure HTTPDebugConfig where
  insecure : Bool
  method : String
  requestAccept : String
  requestBody : String
  requestBodyContent : String
  requestContentType : String
  requestForceHTTP1 : Bool
  requestForceHTTP2 : Bool
  requestHeader : List String
  responseForceType : String
  responseJQ : String
  responseRaw : Bool
  responseStyle : String
  trace : Bool
deriving DecidableEq, Repr

/-- The function `httpDebugGetBody`; `resourceNew` is `resource.New`, which
yields an error or a resource. -/
def httpDebugGetBody (resourceNew : String → Except String Body) (cfg : HTTPDebugConfig) :
    Except String Body :=
  if cfg.requestBodyContent ≠ "" then
    Except.ok (Body.reader (cfg.requestBodyContent.toUTF8.toList.map UInt8.toNat))
  else if cfg.requestBody = "" then Except.ok Body.noBody
  else
    match resourceNew cfg.requestBody with
    | Except.error e => Except.error e
    | Except.ok body => Except.ok body

/-- The loop of the command over the configured headers: each is cut at its
first colon, and one with no colon is an error. -/
def httpDebugHeaderOptions : List String → List ClientOption → Except String (List ClientOption)
  | [], opts => Except.ok opts
  | h :: rest, opts =>
    match stringsSplitN2 ':' h.toList with
    | [name, value] =>
      httpDebugHeaderOptions rest (opts ++ [ClientOption.WithHeader (String.mk name) (String.mk value)])
    | _ => Except.error ("invalid header: " ++ h)

/-- The options the command `http debug` builds from its configuration and the
body; the output and log sinks are those of the command. -/
def httpDebugOptions (cfg : HTTPDebugConfig) (body : Body) : Except String (List ClientOption) :=
  let opts : List ClientOption :=
    [ClientOption.WithOut Writer.stdout,
      ClientOption.WithLog Writer.stderr,
      ClientOption.WithMethod cfg.method,
      ClientOption.WithAccept cfg.requestAccept,
      ClientOption.WithBody body,
      ClientOption.WithAccept cfg.requestContentType]
  let opts := if cfg.insecure then opts ++ [ClientOption.WithInsecure] else opts
  let opts := if cfg.requestForceHTTP1 then opts ++ [ClientOption.WithForceHTTP1] else opts
  let opts := if cfg.requestForceHTTP2 then opts ++ [ClientOption.WithForceHTTP2] else opts
  match httpDebugHeaderOptions cfg.requestHeader opts with
  | Except.error e => Except.error e
  | Except.ok opts =>
    let opts :=
      if cfg.responseForceType ≠ "" then opts ++ [ClientOption.WithForceType cfg.responseForceType]
      else opts
    let opts := if cfg.responseJQ ≠ "" then opts ++ [ClientOption.WithJQ cfg.responseJQ] else opts
    let opts := if cfg.responseRaw then opts ++ [ClientOption.WithRaw] else opts
    let opts :=
      if cfg.responseStyle ≠ "" then opts ++ [ClientOption.WithStyle cfg.responseStyle] else opts
    let opts := if cfg.trace then opts ++ [ClientOption.WithTrace] else opts
    Except.ok opts

/-- The client the command `http debug` builds for the URL `arg`, up to the
call of `Run`. -/
def httpDebugClient (env : HttpEnv) (resourceNew : String → Except String Body)
    (cfg : HTTPDebugConfig) (arg : String) : Except String Client :=
  match httpDebugGetBody resourceNew cfg with
  | Except.error e => Except.error ("failed to get request body: " ++ e)
  | Except.ok body =>
    match httpDebugOptions cfg body with
    | Except.error e => Except.error e
    | Except.ok opts =>
      match NewClient env arg opts with
      | Except.error e => Except.error ("failed to initialize HTTP client: " ++ e)
      | Except.ok client => Except.ok client

/-- The function `RunE` of the command `http debug`. -/
def httpDebugRunE (env : HttpEnv) (resourceNew : String → Except String Body)
    (cfg : HTTPDebugConfig) (arg : String) : RunResult :=
  match httpDebugClient env resourceNew cfg arg with
  | Except.error e => { err := some e, sent := none, calls := [], written := [], network := [] }
  | Except.ok client => Run env client

/-! # Command tree, configuration registry and memory writer

`internal/pkg/commander/commander.go`, `internal/pkg/config/value.go`,
`internal/pkg/config/config.go` and
`internal/pkg/resource/http/memorywriter.go`. A Go map is the list of its
entries, in the order a `range` loop happens to visit them. -/

/-- Go `strings.Split(s, sep)` for a one-character separator: the pieces
between the occurrences of the separator, one piece more than there are
occurrences. -/
def stringsSplit (sep : Char) : List Char → List (List Char)
  | [] => [[]]
  | c :: cs =>
    if c = sep then [] :: stringsSplit sep cs
    else
      match stringsSplit sep cs with
      | [] => [[c]]
      | p :: ps => (c :: p) :: ps

/-- Go `strings.Join(elems, sep)` for a one-character separator. -/
def stringsJoin (sep : Char) : List (List Char) → List Char
  | [] => []
  | [a] => a
  | a :: b :: rest => a ++ sep :: stringsJoin sep (b :: rest)

/-- The read `m[k]` of a Go map, `none` when the key is absent. -/
def mapLookup {β : Type} : List (String × β) → String → Option β
  | [], _ => none
  | e :: rest, k => if e.1 = k then some e.2 else mapLookup rest k

/-- The assignment `m[k] = v` of a Go map. -/
def mapStore {β : Type} : List (String × β) → String → β → List (String × β)
  | [], k, v => [(k, v)]
  | e :: rest, k, v => if e.1 = k then (k, v) :: rest else e :: mapStore rest k v

/-- The struct `registeredCommand`: `creator` is the `*cobra.Command` its
creator returns, by name. -/
structure registeredCommand where
  creator : Nat
  configs : List String
deriving DecidableEq, Repr

/-- The local variables `cmds` of `buildCommandTree` and the calls of
`AddCommand` made so far, each as the parent and the command added to it. -/
structure TreeState where
  cmds : List (String × Nat)
  attached : List (Nat × Nat)
deriving DecidableEq, Repr

/-- What `buildCommandTree` returns when its error is nil, with the calls of
`AddCommand` it made. -/
structure CommandTree where
  rootCmd : Nat
  cmds : List (String × Nat)
  attached : List (Nat × Nat)
deriving DecidableEq, Repr

/-- The statement `leveled[n] = append(leveled[n], name)`. -/
def leveledAppend : List (Nat × List String) → Nat → String → List (Nat × List String)
  | [], n, name => [(n, [name])]
  | e :: rest, n, name =>
    if e.1 = n then (e.1, e.2 ++ [name]) :: rest else e :: leveledAppend rest n name

/-- The read `leveled[n]`. -/
def leveledGet : List (Nat × List String) → Nat → List String
  | [], _ => []
  | e :: rest, n => if e.1 = n then e.2 else leveledGet rest n

/-- The first loop of `buildCommandTree`: the names other than the root, by
their number of parts. -/
def buildLeveled (commands : List (String × registeredCommand)) : List (Nat × List String) :=
  commands.foldl
    (fun leveled e =>
      if e.1 = "" then leveled
      else leveledAppend leveled (stringsSplit '>' e.1.toList).length e.1)
    []

/-- The body of the inner loop of `buildCommandTree` for one command. A name
that is not a key of `commands` would have a nil creator, whose call
panics. -/
def addCommand (commands : List (String × registeredCommand)) (level : Nat) (st : TreeState)
    (command : String) : Except String TreeState :=
  let parentName :=
    if level = 1 then ""
    else String.mk (stringsJoin '>' (stringsSplit '>' command.toList).dropLast)
  match mapLookup st.cmds parentName with
  | none => Except.error ("parent command of " ++ command ++ " not found")
  | some parent =>
    match mapLookup commands command with
    | none => Except.error "invalid memory address or nil pointer dereference"
    | some r =>
      Except.ok
        { cmds := mapStore st.cmds command r.creator,
          attached := st.attached ++ [(parent, r.creator)] }

/-- The inner loop of `buildCommandTree`, over the commands of one level. -/
def addCommands (commands : List (String × registeredCommand)) (level : Nat) :
    List String → TreeState → Except String TreeState
  | [], st => Except.ok st
  | command :: rest, st =>
    match addCommand commands level st command with
    | Except.error e => Except.error e
    | Except.ok st2 => addCommands commands level rest st2

/-- The outer loop of `buildCommandTree`, over the sorted levels. -/
def addLevels (commands : List (String × registeredCommand))
    (leveled : List (Nat × List String)) : List Nat → TreeState → Except String TreeState
  | [], st => Except.ok st
  | level :: rest, st =>
    match addCommands commands level (leveledGet leveled level) st with
    | Except.error e => Except.error e
    | Except.ok st2 => addLevels commands leveled rest st2

/-- The function `buildCommandTree`; `sort.Ints` is an insertion sort. -/
def buildCommandTree (commands : List (String × registeredCommand)) :
    Except String CommandTree :=
  match mapLookup commands "" with
  | none => Except.error "root command not found"
  | some rootCreator =>
    let rootCmd := rootCreator.creator
    let leveled := buildLeveled commands
    let counts := (leveled.map Prod.fst).insertionSort (fun a b => a ≤ b)
    match addLevels commands leveled counts { cmds := [("", rootCmd)], attached := [] } with
    | Except.error e => Except.error e
    | Except.ok st => Except.ok { rootCmd := rootCmd, cmds := st.cmds, attached := st.attached }

/-- The default value of a configuration value, an `interface{}`. -/
inductive DefaultVal where
  | unset
  | str (s : String)
  | strs (l : List String)
  | uint (n : Nat)
  | bool (b : Bool)
  | stringsMap (m : List (String × List String))
deriving DecidableEq, Repr

/-- The struct `Value`; a setter or stringer function is named by a number,
`none` being nil, and `valueType` is the number of the `ValueType`. -/
structure Value where
  defaultValue : DefaultVal
  flag : String
  flagDescription : String
  name : String
  noEnv : Bool
  persistentFlag : Bool
  setter : Option Nat
  shortFlag : Nat
  stringer : Option Nat
  valueType : Nat
deriving DecidableEq, Repr

/-- A `ValueOption`: the value after the call, or the error returned. -/
abbrev ValueOption := Value → Except String Value

/-- The constants `ValueTypeString` to `ValueTypeStringsMap`. -/
def ValueTypeString : Nat := 1

/-- The constant `ValueTypeStrings`. -/
def ValueTypeStrings : Nat := 2

/-- The constant `ValueTypeUint`. -/
def ValueTypeUint : Nat := 3

/-- The constant `ValueTypeBool`. -/
def ValueTypeBool : Nat := 4

/-- The constant `ValueTypeStringsMap`. -/
def ValueTypeStringsMap : Nat := 5

/-- The test `valueNameIsLetter`, the regular expression `^[a-z][a-z0-9]+$`: a
lowercase letter followed by one or more lowercase letters or digits. -/
def valueNameIsLetter (part : List Char) : Bool :=
  match part with
  | [] => false
  | c :: rest =>
    decide ('a' ≤ c ∧ c ≤ 'z') && !rest.isEmpty
      && rest.all (fun d => decide (('a' ≤ d ∧ d ≤ 'z') ∨ ('0' ≤ d ∧ d ≤ '9')))

/-- The option `IgnoreEnv`. -/
def IgnoreEnv : ValueOption :=
  fun v => Except.ok { v with noEnv := true }

/-- The option `Description`. -/
def Description (description : String) : ValueOption :=
  fun v => Except.ok { v with flagDescription := description }

/-- The option `FlagIsPersistent`. -/
def FlagIsPersistent : ValueOption :=
  fun v =>
    if v.valueType = ValueTypeStringsMap then
      Except.error "ValueTypeStringsMap cannot be set with flags"
    else Except.ok { v with persistentFlag := true }

/-- The loop of `RegisterValue` over the options, which stops at the first
error. -/
def applyValueOptions : List ValueOption → Value → Except String Value
  | [], v => Except.ok v
  | opt :: rest, v =>
    match opt v with
    | Except.error e => Except.error e
    | Except.ok v2 => applyValueOptions rest v2

/-- The value `RegisterValue` starts from for a known type; `none` is the
default case of the switch. -/
def initialValue (name : String) (valueType : Nat) : Option Value :=
  let v : Value :=
    { defaultValue := DefaultVal.unset, flag := "",
      flagDescription := "set the value for the configuration " ++ name, name := name,
      noEnv := false, persistentFlag := false, setter := none, shortFlag := 0, stringer := none,
      valueType := valueType }
  if valueType = ValueTypeString then some { v with defaultValue := DefaultVal.str "" }
  else if valueType = ValueTypeStrings then some { v with defaultValue := DefaultVal.strs [] }
  else if valueType = ValueTypeUint then some { v with defaultValue := DefaultVal.uint 0 }
  else if valueType = ValueTypeBool then some { v with defaultValue := DefaultVal.bool false }
  else if valueType = ValueTypeStringsMap then
    some { v with defaultValue := DefaultVal.stringsMap [], noEnv := true }
  else none

/-- The function `RegisterValue` on the registry `values`: the registry after
the call and the value it panicked with, `none` when it returned. -/
def RegisterValue (values : List (String × Value)) (name : String) (valueType : Nat)
    (opts : List ValueOption) : List (String × Value) × Option String :=
  if name = "" then (values, some "empty configuration name")
  else if name = "configfile" then (values, some "configfile is a reserved name")
  else if (stringsSplit '.' name.toList).any (fun part => part.isEmpty || !valueNameIsLetter part)
  then (values, some ("invalid configuration name: " ++ name))
  else if (mapLookup values name).isSome then
    (values, some ("configuration name is already registered: " ++ name))
  else
    match initialValue name valueType with
    | none =>
      (values, some ("unknown configuration value type for " ++ name ++ ": "
        ++ toString valueType))
    | some v =>
      match applyValueOptions opts v with
      | Except.error e =>
        (values, some ("invalid option for configuration value " ++ name ++ ": " ++ e))
      | Except.ok v2 => (mapStore values name v2, none)

/-- The function `getDefaultConfigFile`: `envValue` is the environment variable
`DSAK_CONFIGFILE` and `userHomeDir` the answer of `os.UserHomeDir`; `join` is
`filepath.Join`. -/
def getDefaultConfigFile (join : String → String → String) (envValue : String)
    (userHomeDir : Except String String) : Except String String :=
  if envValue = "" then
    match userHomeDir with
    | Except.error e => Except.error ("failed to get user home directory: " ++ e)
    | Except.ok dirname => Except.ok (join dirname ".dsak.yaml")
  else Except.ok envValue

/-- The loop of `getConfigFile` from one argument on: `file` is the file
chosen so far. The argument is the last one when nothing follows it. -/
def getConfigFileLoop : List String → String → Except String String
  | [], file => Except.ok file
  | arg :: rest, file =>
    if arg = "--configfile" then
      match rest with
      | [] => Except.error "--configfile requires an argument"
      | next :: _ => getConfigFileLoop rest next
    else getConfigFileLoop rest file

/-- The function `getConfigFile`; the first three arguments are what
`getDefaultConfigFile` reads. -/
def getConfigFile (join : String → String → String) (envValue : String)
    (userHomeDir : Except String String) (args : List String) : Except String String :=
  match getDefaultConfigFile join envValue userHomeDir with
  | Except.error e => Except.error e
  | Except.ok file => getConfigFileLoop args file

/-- The error `ErrTooLarge` of the memory writer. -/
def ErrTooLarge : String := "http resource: request body too large"

/-- The struct `memoryWriter`, its buffer being the bytes written and not yet
sent. -/
structure memoryWriter where
  buffer : List Nat
  maxSize : Int
  url : String
deriving DecidableEq, Repr

/-- The function `newMemoryWriter`. -/
def newMemoryWriter (url : String) : memoryWriter :=
  { buffer := [], maxSize := 10 * 1024 * 1024, url := url }

/-- The method `Write`: the writer afterwards, the count and the error
returned. `bytes.Buffer.Write` appends the whole slice and returns its length
and a nil error. The two lengths are those of slices held in memory, so their
sum stays far below the 63 bits of an `int`. -/
def memoryWriter.Write (w : memoryWriter) (p : List Nat) : memoryWriter × Int × Option String :=
  if (w.buffer.length : Int) + (p.length : Int) > w.maxSize then (w, 0, some ErrTooLarge)
  else ({ w with buffer := w.buffer ++ p }, (p.length : Int), none)

/-! ## Definitions used to state the properties of the report, the tree and
the registry -/

/-- The entries of a list that no earlier entry of the list is the same as, in
the order of the list; `seen` is what stands before. -/
def firstOccurrencesFrom {α : Type} (same : α → α → Bool) : List α → List α → List α
  | _, [] => []
  | seen, x :: rest =>
    if seen.any (fun y => same y x) then firstOccurrencesFrom same (seen ++ [x]) rest
    else x :: firstOccurrencesFrom same (seen ++ [x]) rest

/-- The first occurrences of a list. -/
def firstOccurrences {α : Type} (same : α → α → Bool) (l : List α) : List α :=
  firstOccurrencesFrom same [] l

/-- The log says that the chain has no Subject Alternate Name. -/
def reportsNoSAN (log : List LogWrite) : Prop :=
  LogWrite.print [Attribute.FgRed] "Certificate has no Subject Alternate Name\n" ∈ log

/-- The log says that a name, an address or a URI matches. -/
def reportsMatch (log : List LogWrite) : Prop :=
  LogWrite.print [Attribute.FgBlue] " matches hostname " ∈ log
    ∨ LogWrite.print [Attribute.FgBlue] " matches hostname\n" ∈ log
    ∨ LogWrite.print [Attribute.FgBlue] " matches url\n" ∈ log

/-- The log says that no Subject Alternate Name is valid. -/
def reportsNoneValid (log : List LogWrite) : Prop :=
  LogWrite.print [Attribute.FgRed] "None of the Certificate Subject Alternate Name are valid\n"
    ∈ log

/-- Some name compiles to a glob that matches the hostname, or the hostname is
a literal IP that some address is `Equal` to, or some URI is a prefix of the
URL. -/
def someSANMatches (cenv : CertsEnv) (hostname givenURL : String) (names : List String)
    (ips : List IP) (urls : List String) : Prop :=
  (∃ name ∈ names, ∃ m, globCompile cenv.globOther name = some m ∧ m hostname = true)
    ∨ (∃ hostIP, ParseIP hostname = some hostIP ∧ ∃ ip ∈ ips, IP.Equal ip hostIP = true)
    ∨ (∃ url ∈ urls, url.toList <+: givenURL.toList)

/-- The name of a command with its last part removed: the name of its
parent. -/
def parentName (name : String) : String :=
  String.mk (stringsJoin '>' (stringsSplit '>' name.toList).dropLast)

/-- A word of lowercase letters. -/
def isLetterWord (w : List Char) : Prop :=
  w ≠ [] ∧ ∀ c ∈ w, 'a' ≤ c ∧ c ≤ 'z'

/-- The writer after a sequence of calls of `Write`. -/
def writeAll (w : memoryWriter) (ps : List (List Nat)) : memoryWriter :=
  ps.foldl (fun w p => (w.Write p).1) w

/-- A log that holds none of the three verdicts of `checkCerts`. -/
def logQuiet (log : List LogWrite) : Prop :=
  ¬ reportsMatch log ∧ ¬ reportsNoneValid log ∧ ¬ reportsNoSAN log

/-- What holds of the commands built so far by `buildCommandTree`: no name
twice, every name is registered, the command of a name is the one its creator
returns, and every command but the root has been added to the command of its
parent. -/
def treeInv (commands : List (String × registeredCommand)) (cmds : List (String × Nat))
    (attached : List (Nat × Nat)) : Prop :=
  (cmds.map Prod.fst).Nodup
    ∧ (∀ k ∈ cmds.map Prod.fst, k ∈ commands.map Prod.fst)
    ∧ (∀ k c, mapLookup cmds k = some c → ∃ r, mapLookup commands k = some r ∧ c = r.creator)
    ∧ (∀ k ∈ cmds.map Prod.fst, k ≠ "" →
        ∃ p c, mapLookup cmds (parentName k) = some p ∧ mapLookup cmds k = some c
          ∧ (p, c) ∈ attached)

/-! ## Concrete inputs of the report, the tree and the registry -/

/-- A client with the HTTP/2 pin for `https://example.com`. -/
def http2TLSClient : Client :=
  { defaultClient with
    forceHTTP2 := true
    url := { scheme := "https", host := "example.com", hostname := "example.com",
             text := "https://example.com" } }

/-- A tracing client for `https://WWW.Example.com/`. -/
def tracingClient : Client :=
  { defaultClient with
    trace := true
    url := { scheme := "https", host := "WWW.Example.com", hostname := "WWW.Example.com",
             text := "https://WWW.Example.com/" } }

/-- A glob library that rejects every pattern outside the fragment, and
addresses printed as their bytes joined by dots. -/
def certsEnvPlain : CertsEnv where
  globOther := fun _ => none
  ipString := fun ip => String.intercalate "." (ip.map toString)

/-- A leaf certificate with a repeated name and the same address in its 4-byte
and 16-byte forms. -/
def sanLeaf : Certificate where
  raw := [1]
  subject := "CN=www.example.com"
  dnsNames := ["*.example.com", "example.com", "*.example.com"]
  ipAddresses := [[10, 0, 0, 1], [0, 0, 0, 0, 0, 0, 0, 0, 0, 0, 255, 255, 10, 0, 0, 1]]
  uris := ["https://example.com/"]
  notBefore := 0
  notAfter := 100

/-- An issuer certificate that repeats a name of the leaf and adds one. -/
def sanIssuer : Certificate where
  raw := [2]
  subject := "CN=issuer"
  dnsNames := ["example.com", "issuer.example.org"]
  ipAddresses := [[10, 0, 0, 1]]
  uris := ["https://example.com/", "https://issuer.example.org/"]
  notBefore := 0
  notAfter := 100

/-- A configuration of `http debug` that asks for the accept value `text/html`
and the request content type `application/json`. -/
def debugConfig : HTTPDebugConfig where
  insecure := false
  method := "POST"
  requestAccept := "text/html"
  requestBody := ""
  requestBodyContent := "hi"
  requestContentType := "application/json"
  requestForceHTTP1 := false
  requestForceHTTP2 := false
  requestHeader := []
  responseForceType := ""
  responseJQ := ""
  responseRaw := false
  responseStyle := ""
  trace := false

/-- A command map with the root, the command `a` and the command `a>b`, in an
order that visits the child first. -/
def treeCommands : List (String × registeredCommand) :=
  [("a>b", { creator := 3, configs := [] }), ("", { creator := 1, configs := [] }),
    ("a", { creator := 2, configs := [] })]

/-! ## Lemmas -/

theorem wrapInt64_of_range (z : Int) (h0 : -(2 ^ 63) ≤ z) (h1 : z < 2 ^ 63) :
    wrapInt64 z = z := by
  unfold wrapInt64
  omega

theorem graceDuration_of_small (days : Nat) (h : (days : Int) * 86400000000000 < 2 ^ 63) :
    graceDuration days = (days : Int) * 86400000000000 := by
  unfold graceDuration
  have hd : (0 : Int) ≤ days := Int.ofNat_nonneg days
  rw [wrapInt64_of_range (days : Int) (by omega) (by omega)]
  rw [wrapInt64_of_range ((days : Int) * 24) (by omega) (by omega)]
  rw [wrapInt64_of_range _ (by omega) (by omega)]
  omega

theorem dates_expiry_iff (days : Nat) (nowAfter nowBefore : Int) (cert : Certificate)
    (certType : String) :
    (∃ ct s t, CertErr.expires ct s t ∈
        httpCertOnIPCheckCertDates days nowAfter nowBefore cert certType)
      ↔ cert.notAfter < nowAfter + graceDuration days := by
  unfold httpCertOnIPCheckCertDates
  by_cases h1 : cert.notBefore > nowBefore <;>
    by_cases h2 : cert.notAfter < nowAfter + graceDuration days <;> simp [h1, h2]

theorem anySuffix_iff (f : List Char → Bool) : ∀ (s : List Char),
    anySuffix f s = true ↔ ∃ t, t <:+ s ∧ f t = true := by
  intro s
  induction s with
  | nil =>
    simp [anySuffix]
  | cons c cs ih =>
    unfold anySuffix
    rw [Bool.or_eq_true, ih]
    constructor
    · rintro (h | ⟨t, ht, hf⟩)
      · exact ⟨c :: cs, List.suffix_refl _, h⟩
      · exact ⟨t, ht.trans (List.suffix_cons c cs), hf⟩
    · rintro ⟨t, ht, hf⟩
      rcases List.suffix_cons_iff.mp ht with h | h
      · left; rw [← h]; exact hf
      · right; exact ⟨t, h, hf⟩

theorem globMatchToks_text : ∀ (lits t : List Char),
    globMatchToks (lits.map GlobTok.text) t = true ↔ t = lits := by
  intro lits
  induction lits with
  | nil => intro t; cases t <;> simp [globMatchToks]
  | cons c cs ih =>
    intro t
    cases t with
    | nil => simp [globMatchToks]
    | cons d ds =>
      simp only [List.map_cons, globMatchToks, Bool.and_eq_true, beq_iff_eq, ih, List.cons.injEq]
      constructor
      · rintro ⟨h1, h2⟩; exact ⟨h1.symm, h2⟩
      · rintro ⟨h1, h2⟩; exact ⟨h1.symm, h2⟩

theorem globLex_example : globLex "*.example.com".toList
    = some (GlobTok.any :: (".example.com".toList).map GlobTok.text) := by
  decide

theorem globMatchToks_any_text (lits t : List Char) :
    globMatchToks (GlobTok.any :: lits.map GlobTok.text) t = true ↔ lits <:+ t := by
  rw [globMatchToks, anySuffix_iff]
  constructor
  · rintro ⟨u, hu, hf⟩
    rw [globMatchToks_text] at hf
    rw [← hf]; exact hu
  · intro h
    exact ⟨lits, h, (globMatchToks_text _ _).mpr rfl⟩

theorem globCompile_of_lex (other : String → Option (String → Bool)) (pattern : String)
    (toks : List GlobTok) (h : globLex pattern.toList = some toks) :
    globCompile other pattern = some (fun s => globMatchToks toks s.toList) := by
  unfold globCompile
  rw [h]

theorem sanNameMatches_single (other : String → Option (String → Bool)) (domain name : String)
    (m : String → Bool) (h : globCompile other name = some m) :
    sanNameMatches other domain [name] = m domain := by
  rw [sanNameMatches, h]
  cases hm : m domain <;> simp [sanNameMatches, hm]

theorem sanNameMatches_example (other : String → Option (String → Bool)) (domain : String) :
    sanNameMatches other domain ["*.example.com"] = true
      ↔ ".example.com".toList <:+ domain.toList := by
  rw [sanNameMatches_single other domain _ _ (globCompile_of_lex other _ _ globLex_example)]
  exact globMatchToks_any_text _ _

theorem AddCert_mem (pool : CertPool) (c x : Certificate) (h : x ∈ CertPool.AddCert pool c) :
    x ∈ pool ∨ x = c := by
  unfold CertPool.AddCert at h
  split at h
  · exact Or.inl h
  · rcases List.mem_append.mp h with h | h
    · exact Or.inl h
    · right; simpa using h

theorem AddCert_sub (pool : CertPool) (c x : Certificate) (h : x ∈ pool) :
    x ∈ CertPool.AddCert pool c := by
  unfold CertPool.AddCert
  split
  · exact h
  · exact List.mem_append_left _ h

theorem AddCert_raw (pool : CertPool) (c : Certificate) :
    ∃ p ∈ CertPool.AddCert pool c, p.raw = c.raw := by
  unfold CertPool.AddCert
  split
  · rename_i h
    rw [List.any_eq_true] at h
    obtain ⟨p, hp, hraw⟩ := h
    exact ⟨p, hp, by simpa using hraw⟩
  · exact ⟨c, by simp, rfl⟩

theorem AddCert_nodup (pool : CertPool) (c : Certificate)
    (h : (pool.map Certificate.raw).Nodup) :
    ((CertPool.AddCert pool c).map Certificate.raw).Nodup := by
  unfold CertPool.AddCert
  split
  · exact h
  · rename_i hany
    rw [List.map_append, List.nodup_append]
    refine ⟨h, by simp, ?_⟩
    intro r hr hr2
    simp at hr2
    subst hr2
    apply hany
    rw [List.any_eq_true]
    obtain ⟨p, hp, hpr⟩ := List.mem_map.mp hr
    exact ⟨p, hp, by simpa using hpr⟩

theorem foldl_AddCert_mem : ∀ (l : List Certificate) (pool : CertPool) (x : Certificate),
    x ∈ l.foldl CertPool.AddCert pool → x ∈ pool ∨ x ∈ l := by
  intro l
  induction l with
  | nil => intro pool x h; exact Or.inl h
  | cons c rest ih =>
    intro pool x h
    rw [List.foldl_cons] at h
    rcases ih _ x h with h | h
    · rcases AddCert_mem pool c x h with h | h
      · exact Or.inl h
      · right; rw [h]; exact List.mem_cons_self _ _
    · right; exact List.mem_cons_of_mem _ h

theorem foldl_AddCert_sub : ∀ (l : List Certificate) (pool : CertPool) (x : Certificate),
    x ∈ pool → x ∈ l.foldl CertPool.AddCert pool := by
  intro l
  induction l with
  | nil => intro pool x h; exact h
  | cons c rest ih =>
    intro pool x h
    rw [List.foldl_cons]
    exact ih _ x (AddCert_sub pool c x h)

theorem foldl_AddCert_raw : ∀ (l : List Certificate) (pool : CertPool) (c : Certificate),
    c ∈ l → ∃ p ∈ l.foldl CertPool.AddCert pool, p.raw = c.raw := by
  intro l
  induction l with
  | nil => intro pool c h; cases h
  | cons d rest ih =>
    intro pool c h
    rw [List.foldl_cons]
    rcases List.mem_cons.mp h with h | h
    · subst h
      obtain ⟨p, hp, hraw⟩ := AddCert_raw pool c
      exact ⟨p, foldl_AddCert_sub rest _ p hp, hraw⟩
    · exact ih _ c h

theorem foldl_AddCert_nodup : ∀ (l : List Certificate) (pool : CertPool),
    (pool.map Certificate.raw).Nodup → ((l.foldl CertPool.AddCert pool).map Certificate.raw).Nodup := by
  intro l
  induction l with
  | nil => intro pool h; exact h
  | cons d rest ih =>
    intro pool h
    rw [List.foldl_cons]
    exact ih _ (AddCert_nodup pool d h)

theorem mem_middle_iff (certs : List Certificate) (c : Certificate) :
    c ∈ (certs.take (certs.length - 1)).drop 1 ↔
      ∃ i, 1 ≤ i ∧ i < certs.length - 1 ∧ certs[i]? = some c := by
  rw [List.mem_iff_getElem?]
  constructor
  · rintro ⟨j, hj⟩
    rw [List.getElem?_drop, List.getElem?_take] at hj
    split at hj
    · exact ⟨1 + j, by omega, by omega, hj⟩
    · cases hj
  · rintro ⟨i, h1, h2, hi⟩
    refine ⟨i - 1, ?_⟩
    rw [List.getElem?_drop, List.getElem?_take]
    have : 1 + (i - 1) = i := by omega
    rw [this, if_pos h2]
    exact hi

theorem sanNames_fold_mem (x : String) : ∀ (l acc : List String),
    x ∈ l.foldl (fun names name => if names.contains name then names else names ++ [name]) acc
      ↔ x ∈ acc ∨ x ∈ l := by
  intro l
  induction l with
  | nil => intro acc; simp
  | cons a rest ih =>
    intro acc
    rw [List.foldl_cons, ih]
    by_cases h : acc.contains a = true
    · simp only [h, if_true, List.mem_cons]
      constructor
      · rintro (h1 | h1)
        · exact Or.inl h1
        · exact Or.inr (Or.inr h1)
      · rintro (h1 | h1 | h1)
        · exact Or.inl h1
        · left; rw [h1]; simpa using h
        · exact Or.inr h1
    · simp only [h, List.mem_append, List.mem_cons, List.mem_singleton]
      simp only [Bool.false_eq_true, if_false, List.mem_append, List.mem_singleton]
      tauto

theorem sanNames_mem (cert : Certificate) (x : String) :
    x ∈ sanNames cert ↔ x ∈ cert.dnsNames := by
  unfold sanNames
  rw [sanNames_fold_mem]
  simp

theorem foldl_append_singleton {α : Type} : ∀ (l acc : List α),
    l.foldl (fun xs x => xs ++ [x]) acc = acc ++ l := by
  intro l
  induction l with
  | nil => intro acc; simp
  | cons a rest ih => intro acc; rw [List.foldl_cons, ih]; simp

theorem sanIPs_eq (cert : Certificate) : sanIPs cert = cert.ipAddresses := by
  unfold sanIPs
  rw [foldl_append_singleton]; simp

theorem sanURLs_eq (cert : Certificate) : sanURLs cert = cert.uris := by
  unfold sanURLs
  rw [foldl_append_singleton]; simp

theorem sanNameMatches_iff (other : String → Option (String → Bool)) (domain : String) :
    ∀ (names : List String), sanNameMatches other domain names = true ↔
      ∃ name ∈ names, ∃ m, globCompile other name = some m ∧ m domain = true := by
  intro names
  induction names with
  | nil => simp [sanNameMatches]
  | cons a rest ih =>
    unfold sanNameMatches
    cases hc : globCompile other a with
    | none =>
      simp only [ih, List.mem_cons]
      constructor
      · rintro ⟨n, hn, m, hm, hd⟩
        exact ⟨n, Or.inr hn, m, hm, hd⟩
      · rintro ⟨n, hn | hn, m, hm, hd⟩
        · subst hn; rw [hc] at hm; cases hm
        · exact ⟨n, hn, m, hm, hd⟩
    | some m0 =>
      by_cases hm0 : m0 domain = true
      · simp only [hm0, if_true, true_iff]
        exact ⟨a, List.mem_cons_self _ _, m0, hc, hm0⟩
      · simp only [hm0, Bool.false_eq_true, if_false, ih, List.mem_cons]
        constructor
        · rintro ⟨n, hn, m, hm, hd⟩
          exact ⟨n, Or.inr hn, m, hm, hd⟩
        · rintro ⟨n, hn | hn, m, hm, hd⟩
          · subst hn; rw [hc] at hm
            cases hm
            exact absurd hd hm0
          · exact ⟨n, hn, m, hm, hd⟩

theorem sanIPMatches_iff (domain : String) (ips : List IP) :
    sanIPMatches domain ips = true ↔
      ∃ hostIP, ParseIP domain = some hostIP ∧ ∃ ip ∈ ips, IP.Equal ip hostIP = true := by
  unfold sanIPMatches
  cases hp : ParseIP domain with
  | none => simp
  | some hostIP => simp [List.any_eq_true]

theorem san_none_iff (other : String → Option (String → Bool)) (domain : String)
    (cert : Certificate) :
    httpCertOnIPCheckCertSAN other domain cert = none ↔
      (∃ name ∈ cert.dnsNames, ∃ m, globCompile other name = some m ∧ m domain = true) ∨
      (∃ hostIP, ParseIP domain = some hostIP ∧
        ∃ ip ∈ cert.ipAddresses, IP.Equal ip hostIP = true) := by
  have hn : sanNameMatches other domain (sanNames cert) = true ↔
      ∃ name ∈ cert.dnsNames, ∃ m, globCompile other name = some m ∧ m domain = true := by
    rw [sanNameMatches_iff]
    constructor
    · rintro ⟨n, hn, r⟩; exact ⟨n, (sanNames_mem cert n).mp hn, r⟩
    · rintro ⟨n, hn, r⟩; exact ⟨n, (sanNames_mem cert n).mpr hn, r⟩
  have hi := sanIPMatches_iff domain cert.ipAddresses
  rw [← hn, ← hi]
  unfold httpCertOnIPCheckCertSAN
  simp only [sanIPs_eq, sanURLs_eq]
  by_cases h0 : (sanNames cert).length = 0 ∧ cert.ipAddresses.length = 0 ∧ cert.uris.length = 0
  · have hnil : sanNames cert = [] := List.length_eq_zero.mp h0.1
    have hnil2 : cert.ipAddresses = [] := List.length_eq_zero.mp h0.2.1
    simp [h0, hnil, hnil2, sanNameMatches, sanIPMatches]
    cases ParseIP domain <;> simp
  · simp only [h0, if_false]
    by_cases h1 : sanNameMatches other domain (sanNames cert) = true
    · have hpos : (sanNames cert).length > 0 := by
        cases hs : sanNames cert with
        | nil => rw [hs] at h1; simp [sanNameMatches] at h1
        | cons a r => simp
      simp [h1, hpos]
    · by_cases h2 : sanIPMatches domain cert.ipAddresses = true
      · have hpos : cert.ipAddresses.length > 0 := by
          obtain ⟨_, _, ip, hip, _⟩ := hi.mp h2
          exact List.length_pos_of_mem hip
        simp [h1, h2, hpos]
      · simp [h1, h2]

theorem dates_not_san (days : Nat) (nowAfter nowBefore : Int) (cert : Certificate)
    (certType : String) :
    ∀ e ∈ (httpCertOnIPCheckCertDates days nowAfter nowBefore cert certType).map some,
      ∃ err, e = some err ∧ err.isSAN = false := by
  intro e he
  obtain ⟨err, herr, rfl⟩ := List.mem_map.mp he
  refine ⟨err, rfl, ?_⟩
  unfold httpCertOnIPCheckCertDates at herr
  by_cases h1 : cert.notBefore > nowBefore <;>
    by_cases h2 : cert.notAfter < nowAfter + graceDuration days <;>
    simp [h1, h2] at herr
  · rcases herr with h | h <;> (subst h; rfl)
  · subst herr; rfl
  · subst herr; rfl

theorem checkCert_other_not_san (env : Env) (domain : String) (cert : Certificate)
    (certType : String) (h : certType ≠ "server certificate") :
    ∀ e ∈ httpCertOnIPCheckCert env domain cert certType,
      ∃ err, e = some err ∧ err.isSAN = false := by
  unfold httpCertOnIPCheckCert
  simp only [h, if_false, List.nil_append]
  exact dates_not_san _ _ _ _ _

theorem san_applied_to_leaf_only (env : Env) (domain : String) (ip : IP) (port : Int)
    (leaf : Certificate) (rest : List Certificate) :
    ∃ tail, httpCertOnIPCheck env domain ip port (leaf :: rest)
        = httpCertOnIPCheckCertSAN env.globOther domain leaf :: tail ∧
      ∀ e ∈ tail, ∃ err, e = some err ∧ err.isSAN = false := by
  have happ : ∀ (l l2 : List (Option CertErr)),
      (∃ tail, l = httpCertOnIPCheckCertSAN env.globOther domain leaf :: tail ∧
        ∀ e ∈ tail, ∃ err, e = some err ∧ err.isSAN = false) →
      (∀ e ∈ l2, ∃ err, e = some err ∧ err.isSAN = false) →
      (∃ tail, l ++ l2 = httpCertOnIPCheckCertSAN env.globOther domain leaf :: tail ∧
        ∀ e ∈ tail, ∃ err, e = some err ∧ err.isSAN = false) := by
    rintro l l2 ⟨tail, rfl, ht⟩ h2
    refine ⟨tail ++ l2, by simp, ?_⟩
    intro e he
    rcases List.mem_append.mp he with he | he
    · exact ht e he
    · exact h2 e he
  have h0 : ∃ tail, httpCertOnIPCheckCert env domain leaf "server certificate"
        = httpCertOnIPCheckCertSAN env.globOther domain leaf :: tail ∧
      ∀ e ∈ tail, ∃ err, e = some err ∧ err.isSAN = false := by
    refine ⟨(httpCertOnIPCheckCertDates env.days env.now env.now leaf "server certificate").map some,
      by simp [httpCertOnIPCheckCert], dates_not_san _ _ _ _ _⟩
  have hfold : ∀ (idx : List Nat) (acc : List (Option CertErr)),
      (∃ tail, acc = httpCertOnIPCheckCertSAN env.globOther domain leaf :: tail ∧
        ∀ e ∈ tail, ∃ err, e = some err ∧ err.isSAN = false) →
      (∃ tail, idx.foldl
          (fun acc _ => acc ++ httpCertOnIPCheckCert env domain leaf "intermediate certificate")
          acc = httpCertOnIPCheckCertSAN env.globOther domain leaf :: tail ∧
        ∀ e ∈ tail, ∃ err, e = some err ∧ err.isSAN = false) := by
    intro idx
    induction idx with
    | nil => intro acc h; exact h
    | cons i r ih =>
      intro acc h
      rw [List.foldl_cons]
      exact ih _ (happ _ _ h (checkCert_other_not_san env domain leaf _ (by decide)))
  unfold httpCertOnIPCheck
  simp only []
  have h1 : ∃ tail, (if (httpCertPools (leaf :: rest)).2.isSome = true then
        (interLoopIndices (leaf :: rest)).foldl
          (fun acc _ => acc ++ httpCertOnIPCheckCert env domain leaf "intermediate certificate")
          (httpCertOnIPCheckCert env domain leaf "server certificate")
      else httpCertOnIPCheckCert env domain leaf "server certificate")
        = httpCertOnIPCheckCertSAN env.globOther domain leaf :: tail ∧
      ∀ e ∈ tail, ∃ err, e = some err ∧ err.isSAN = false := by
    split
    · exact hfold _ _ h0
    · exact h0
  generalize (if (httpCertPools (leaf :: rest)).2.isSome = true then
        (interLoopIndices (leaf :: rest)).foldl
          (fun acc _ => acc ++ httpCertOnIPCheckCert env domain leaf "intermediate certificate")
          (httpCertOnIPCheckCert env domain leaf "server certificate")
      else httpCertOnIPCheckCert env domain leaf "server certificate") = res1 at h1 ⊢
  have h2 : ∃ tail, (if (httpCertPools (leaf :: rest)).1.isSome = true then
        match (leaf :: rest).getLast? with
        | some last => res1 ++ httpCertOnIPCheckCert env domain last "root certificate"
        | none => res1
      else res1)
        = httpCertOnIPCheckCertSAN env.globOther domain leaf :: tail ∧
      ∀ e ∈ tail, ∃ err, e = some err ∧ err.isSAN = false := by
    split
    · split
      · exact happ _ _ h1 (checkCert_other_not_san env domain _ _ (by decide))
      · exact h1
    · exact h1
  generalize (if (httpCertPools (leaf :: rest)).1.isSome = true then
        match (leaf :: rest).getLast? with
        | some last => res1 ++ httpCertOnIPCheckCert env domain last "root certificate"
        | none => res1
      else res1) = res2 at h2 ⊢
  split
  · exact happ _ _ h2 (by intro e he; simp at he; subst he; exact ⟨_, rfl, rfl⟩)
  · exact h2

theorem httpCertOnIP_ip (env : Env) (domain : String) (ip : IP) (port : Int) :
    (httpCertOnIP env domain ip port).ip = ip := by
  unfold httpCertOnIP
  cases env.newRouter with
  | some e => rfl
  | none =>
    cases hr : env.route ip with
    | error e => rfl
    | ok b =>
      cases b with
      | false => rfl
      | true =>
        cases hd : env.dial ip port domain with
        | error e => simp [hd]
        | ok certs => simp [hd]

theorem mapAssign_fresh (m : List Entry) (e : Entry) (h : ∀ x ∈ m, x.key ≠ e.key) :
    mapAssign m e = m ++ [e] := by
  unfold mapAssign
  have : m.any (fun x => decide (x.key = e.key)) = false := by
    rw [List.any_eq_false]
    intro x hx
    simpa using h x hx
  simp [this]

theorem taskEntry_key (env : Env) (domain : String) (port : Int) (ips : List IP) (i : Nat)
    (e : Entry) (h : taskEntry env domain port ips i = some e) : e.key = i := by
  unfold taskEntry at h
  cases hi : ips[i]? with
  | none => simp [hi] at h
  | some ip =>
    simp [hi] at h
    rw [← h]

theorem runTasks_fold (env : Env) (domain : String) (port : Int) (ips : List IP) :
    ∀ (order : List Nat) (st : List Entry × Nat), order.Nodup →
      (∀ x ∈ st.1, x.key ∉ order) →
      (order.foldl
        (fun st i =>
          match ips[i]? with
          | some ip => getResult st i (httpCertOnIP env domain ip port)
          | none => st) st).1
        = st.1 ++ order.filterMap (taskEntry env domain port ips) := by
  intro order
  induction order with
  | nil => intro st _ _; simp
  | cons i rest ih =>
    intro st hnd hfresh
    rw [List.nodup_cons] at hnd
    rw [List.foldl_cons]
    cases hi : ips[i]? with
    | none =>
      simp only []
      rw [ih st hnd.2 (fun x hx hmem => hfresh x hx (List.mem_cons_of_mem _ hmem))]
      simp [taskEntry, hi]
    | some ip =>
      simp only []
      have hassign : (getResult st i (httpCertOnIP env domain ip port)).1
          = st.1 ++ [{ key := i, ip := ip, errs := (httpCertOnIP env domain ip port).errs }] := by
        unfold getResult
        simp only [httpCertOnIP_ip]
        apply mapAssign_fresh
        intro x hx hk
        exact hfresh x hx (by simp at hk; simp [hk])
      rw [ih _ hnd.2]
      · rw [hassign]
        simp [taskEntry, hi]
      · intro x hx hmem
        rw [hassign] at hx
        rcases List.mem_append.mp hx with hx | hx
        · exact hfresh x hx (List.mem_cons_of_mem _ hmem)
        · simp at hx
          subst hx
          exact hnd.1 hmem

theorem runTasks_eq (env : Env) (domain : String) (port : Int) (ips : List IP)
    (order : List Nat) (hnd : order.Nodup) :
    (runTasks env domain port ips order).1 = order.filterMap (taskEntry env domain port ips) := by
  unfold runTasks
  rw [runTasks_fold env domain port ips order ([], 0) hnd (by simp)]
  simp

theorem reportErrs_valid (ip : IP) : ∀ (errs : List (Option CertErr)) (st : List Line × Bool),
    (reportErrs ip errs st).2 = (st.2 && errs.all Option.isNone) := by
  intro errs
  induction errs with
  | nil => intro st; simp [reportErrs]
  | cons e rest ih =>
    intro st
    cases e with
    | none => simp [reportErrs, ih]
    | some e => simp [reportErrs, ih]

theorem reportLoop_valid : ∀ (m : List Entry) (st : List Line × Bool),
    (reportLoop m st).2 = (st.2 && m.all (fun ent => ent.errs.all Option.isNone)) := by
  intro m
  induction m with
  | nil => intro st; simp [reportLoop]
  | cons ent rest ih =>
    intro st
    unfold reportLoop
    by_cases h : ent.errs.length = 0
    · have hnil : ent.errs = [] := List.length_eq_zero.mp h
      simp [h, ih, hnil]
    · simp [h, ih, reportErrs_valid, Bool.and_assoc]

theorem report_error_iff (m : List Entry) :
    (report m).2 = some CmdErr.failedToValidate ↔ ∃ ent ∈ m, ∃ e ∈ ent.errs, e ≠ none := by
  unfold report
  simp only [reportLoop_valid, Bool.true_and]
  by_cases h : m.all (fun ent => ent.errs.all Option.isNone) = true
  · simp only [h, if_true]
    constructor
    · intro hc; cases hc
    · rintro ⟨ent, hent, e, he, hne⟩
      rw [List.all_eq_true] at h
      have h2 := h ent hent
      rw [List.all_eq_true] at h2
      have h3 := h2 e he
      cases e with
      | none => exact absurd rfl hne
      | some x => simp at h3
  · simp only [h]
    constructor
    · intro _
      simp only [List.all_eq_true, not_forall] at h
      obtain ⟨ent, hent, e, he, hne⟩ := h
      refine ⟨ent, hent, e, he, ?_⟩
      intro hnone
      subst hnone
      simp at hne
    · intro _; simp

theorem report_error_none_or_failed (m : List Entry) :
    (report m).2 = none ∨ (report m).2 = some CmdErr.failedToValidate := by
  unfold report
  by_cases h : (reportLoop m ([], true)).2 = true <;> simp [h]

theorem reportErrs_lines (ip : IP) : ∀ (errs : List (Option CertErr)) (st : List Line × Bool),
    (reportErrs ip errs st).1 = st.1 ++ errs.filterMap (fun e => e.map (Line.failed ip)) := by
  intro errs
  induction errs with
  | nil => intro st; simp [reportErrs]
  | cons e rest ih =>
    intro st
    cases e with
    | none => simp [reportErrs, ih]
    | some e => simp [reportErrs, ih]

theorem reportLoop_lines : ∀ (m : List Entry) (st : List Line × Bool),
    (reportLoop m st).1 = st.1 ++ m.flatMap entryLines := by
  intro m
  induction m with
  | nil => intro st; simp [reportLoop]
  | cons ent rest ih =>
    intro st
    unfold reportLoop
    by_cases h : ent.errs.length = 0
    · simp [h, ih, entryLines]
    · simp [h, ih, entryLines, reportErrs_lines]

theorem report_lines (m : List Entry) : (report m).1 = m.flatMap entryLines := by
  unfold report
  simp [reportLoop_lines]

theorem perm_range_mem {order : List Nat} {n : Nat} (h : order.Perm (List.range n)) (i : Nat) :
    i ∈ order ↔ i < n := by
  rw [h.mem_iff, List.mem_range]

theorem mem_runTasks_iff (env : Env) (domain : String) (port : Int) (ips : List IP)
    (order : List Nat) (hord : order.Perm (List.range ips.length)) (ent : Entry) :
    ent ∈ (runTasks env domain port ips order).1 ↔
      ∃ (i : Nat) (hi : i < ips.length),
        ent = { key := i, ip := ips[i], errs := (httpCertOnIP env domain ips[i] port).errs } := by
  rw [runTasks_eq env domain port ips order (hord.nodup_iff.mpr (List.nodup_range _))]
  rw [List.mem_filterMap]
  constructor
  · rintro ⟨i, hi, hsome⟩
    have hlt := (perm_range_mem hord i).mp hi
    refine ⟨i, hlt, ?_⟩
    unfold taskEntry at hsome
    rw [List.getElem?_eq_getElem hlt] at hsome
    simp at hsome
    exact hsome.symm
  · rintro ⟨i, hlt, rfl⟩
    refine ⟨i, (perm_range_mem hord i).mpr hlt, ?_⟩
    unfold taskEntry
    rw [List.getElem?_eq_getElem hlt]
    rfl

theorem runTasks_keys (env : Env) (domain : String) (port : Int) (ips : List IP) :
    ∀ (order : List Nat), (∀ i ∈ order, i < ips.length) →
      (order.filterMap (taskEntry env domain port ips)).map Entry.key = order := by
  intro order
  induction order with
  | nil => intro _; rfl
  | cons i rest ih =>
    intro h
    have hlt : i < ips.length := h i (List.mem_cons_self _ _)
    have hrest := ih (fun j hj => h j (List.mem_cons_of_mem _ hj))
    have hsome : taskEntry env domain port ips i
        = some { key := i, ip := ips[i], errs := (httpCertOnIP env domain ips[i] port).errs } := by
      unfold taskEntry
      rw [List.getElem?_eq_getElem hlt]
      rfl
    rw [List.filterMap_cons_some hsome, List.map_cons, hrest]

/-! ## Claims -/

/-- C1, evaluated on the code: the server presents a leaf for `*.test.local`
with valid dates to a request for `api.test.local` and the chain verifies. The
SAN check returns `nil`, the date check no error and `Verify` no error, yet
the error list of the address is `[nil]`, of length 1, so the report prints no
line at all for it, and in particular no `OK` line. -/
theorem passing_address_prints_no_ok_line :
    httpCertOnIPCheckCertSAN envOK.globOther "api.test.local" testLeaf = none ∧
    httpCertOnIPCheckCertDates envOK.days envOK.now envOK.now testLeaf "server certificate" = [] ∧
    envOK.verify testLeaf "api.test.local" none none = none ∧
    httpCertOnIP envOK "api.test.local" testAddr 443
      = { errs := [none], runned := true, ip := testAddr } ∧
    RunE envOK "api.test.local" [0] = ([], none) := by
  decide

/-- C2, evaluated on the code: in the chain leaf, intermediate, root the
intermediate expired at instant 50 and the check runs at instant 1000. The date
check of that certificate alone yields an expiry error, but the error list of
`httpCertOnIPCheck` for the chain is `[nil]`: it holds no date error for the
intermediate. -/
theorem intermediate_dates_not_checked :
    httpCertOnIPCheckCertDates 0 1000 1000 expiredMid "intermediate certificate"
      = [CertErr.expires "intermediate certificate" "CN=mid" 50] ∧
    httpCertOnIPCheck envOK "api.test.local" testAddr 443 [testLeaf, expiredMid, testRoot]
      = [none] := by
  decide

/-- C3, the claim as stated fails: with a grace period of one day and the
clock at instant 1000, a certificate whose not-after date is exactly one day
after instant 1000 gets no error from `httpCertOnIPCheckCertDates`. -/
theorem boundary_not_after_accepted :
    boundaryCert.notAfter = 1000 + 1 * 86400000000000 ∧
    httpCertOnIPCheckCertDates 1 1000 1000 boundaryCert "server certificate" = [] := by
  decide

/-- C3, amended: for every grace period in days whose length in nanoseconds
fits a signed 64-bit duration, `httpCertOnIPCheckCertDates` produces an expiry
error exactly when the not-after date is strictly earlier than now plus
`days` times 24 hours; a certificate whose not-after date equals that instant
is accepted. -/
theorem dates_expiry_strictly_before (days : Nat) (nowAfter nowBefore : Int)
    (cert : Certificate) (certType : String)
    (hfit : (days : Int) * 86400000000000 < 2 ^ 63) :
    ((∃ ct s t, CertErr.expires ct s t ∈
        httpCertOnIPCheckCertDates days nowAfter nowBefore cert certType)
      ↔ cert.notAfter < nowAfter + (days : Int) * 86400000000000) ∧
    (cert.notAfter = nowAfter + (days : Int) * 86400000000000 →
      ¬ ∃ ct s t, CertErr.expires ct s t ∈
        httpCertOnIPCheckCertDates days nowAfter nowBefore cert certType) := by
  have hiff := dates_expiry_iff days nowAfter nowBefore cert certType
  rw [graceDuration_of_small days hfit] at hiff
  refine ⟨hiff, fun heq hex => ?_⟩
  have := hiff.mp hex
  omega

/-- C3, amended, at a grace period of one day and the clock at instant 1000. -/
theorem dates_expiry_strictly_before_witness :
    ((1 : Nat) : Int) * 86400000000000 < 2 ^ 63 ∧
    (((∃ ct s t, CertErr.expires ct s t ∈
        httpCertOnIPCheckCertDates 1 1000 1000 boundaryCert "server certificate")
      ↔ boundaryCert.notAfter < 1000 + ((1 : Nat) : Int) * 86400000000000) ∧
    (boundaryCert.notAfter = 1000 + ((1 : Nat) : Int) * 86400000000000 →
      ¬ ∃ ct s t, CertErr.expires ct s t ∈
        httpCertOnIPCheckCertDates 1 1000 1000 boundaryCert "server certificate")) :=
  ⟨by decide,
   dates_expiry_strictly_before 1 1000 1000 boundaryCert "server certificate" (by decide)⟩

/-- C4, the claim as stated fails: the pattern `*.example.com` matches the
hostname `a.b.example.com`, of two labels before `example.com`, in the name
loop of both callers, and `httpCertOnIPCheckCertSAN` returns `nil` for a
certificate whose only SAN entry is that pattern. -/
theorem wildcard_matches_two_labels :
    sanNameMatches noGlobOther "a.b.example.com" ["*.example.com"] = true ∧
    checkCertsNameMatches noGlobOther "a.b.example.com" ["*.example.com"] = true ∧
    httpCertOnIPCheckCertSAN noGlobOther "a.b.example.com" wildcardCert = none := by
  decide

/-- C4, amended: SAN DNS-name matching compiles the name as a glob with no
separator, so a wildcard matches any run of characters, dots included. The
pattern `*.example.com` matches exactly the hostnames that end in
`.example.com`: it matches `a.example.com` and `a.b.example.com` and does not
match `example.com`, in `httpCertOnIPCheckCertSAN` and in `checkCerts`. -/
theorem wildcard_matches_any_run (other : String → Option (String → Bool)) (domain : String) :
    (sanNameMatches other domain ["*.example.com"] = true
      ↔ ".example.com".toList <:+ domain.toList) ∧
    (checkCertsNameMatches other domain ["*.example.com"] = true
      ↔ ".example.com".toList <:+ domain.toList) ∧
    sanNameMatches other "a.example.com" ["*.example.com"] = true ∧
    sanNameMatches other "a.b.example.com" ["*.example.com"] = true ∧
    sanNameMatches other "example.com" ["*.example.com"] = false := by
  refine ⟨sanNameMatches_example other domain, sanNameMatches_example other domain, ?_, ?_, ?_⟩
  · rw [sanNameMatches_example]; decide
  · rw [sanNameMatches_example]; decide
  · rw [← Bool.not_eq_true, sanNameMatches_example]; decide

/-- C5: when the argument resolves to the addresses `ips` and every task
reports once, in any order, the command returns the error `failed to validate
certificate` if and only if the error list of some address holds a non-nil
error, and returns `nil` if and only if no error list holds one. -/
theorem command_fails_iff_some_address_has_error (env : Env) (arg : String) (order : List Nat)
    (domain : String) (port : Int) (ips : List IP)
    (hres : httpCertResolve env arg = Except.ok (domain, port, ips))
    (hord : order.Perm (List.range ips.length)) :
    ((RunE env arg order).2 = some CmdErr.failedToValidate ↔
      ∃ ip ∈ ips, ∃ e ∈ (httpCertOnIP env domain ip port).errs, e ≠ none) ∧
    ((RunE env arg order).2 = none ↔
      ∀ ip ∈ ips, ∀ e ∈ (httpCertOnIP env domain ip port).errs, e = none) := by
  have hrun : RunE env arg order = report (runTasks env domain port ips order).1 := by
    unfold RunE
    rw [hres]
  have hiff : (RunE env arg order).2 = some CmdErr.failedToValidate ↔
      ∃ ip ∈ ips, ∃ e ∈ (httpCertOnIP env domain ip port).errs, e ≠ none := by
    rw [hrun, report_error_iff]
    constructor
    · rintro ⟨ent, hent, e, he, hne⟩
      obtain ⟨i, hi, rfl⟩ := (mem_runTasks_iff env domain port ips order hord ent).mp hent
      exact ⟨ips[i], List.getElem_mem _, e, he, hne⟩
    · rintro ⟨ip, hip, e, he, hne⟩
      obtain ⟨i, hi, rfl⟩ := List.getElem_of_mem hip
      exact ⟨_, (mem_runTasks_iff env domain port ips order hord _).mpr ⟨i, hi, rfl⟩, e, he, hne⟩
  refine ⟨hiff, ?_⟩
  constructor
  · intro hnone ip hip e he
    by_contra hne
    have := hiff.mpr ⟨ip, hip, e, he, hne⟩
    rw [hnone] at this
    cases this
  · intro hall
    rcases report_error_none_or_failed (runTasks env domain port ips order).1 with h | h
    · rw [hrun]; exact h
    · rw [← hrun] at h
      obtain ⟨ip, hip, e, he, hne⟩ := hiff.mp h
      exact absurd (hall ip hip e he) hne

/-- C5 at a name that resolves to two addresses, one of which refuses the
connection, the second task reporting first. -/
theorem command_fails_iff_some_address_has_error_witness :
    httpCertResolve envTwo "api.test.local"
      = Except.ok ("api.test.local", 443, [testAddr, testAddr2]) ∧
    [1, 0].Perm (List.range [testAddr, testAddr2].length) ∧
    (((RunE envTwo "api.test.local" [1, 0]).2 = some CmdErr.failedToValidate ↔
      ∃ ip ∈ [testAddr, testAddr2],
        ∃ e ∈ (httpCertOnIP envTwo "api.test.local" ip 443).errs, e ≠ none) ∧
    ((RunE envTwo "api.test.local" [1, 0]).2 = none ↔
      ∀ ip ∈ [testAddr, testAddr2],
        ∀ e ∈ (httpCertOnIP envTwo "api.test.local" ip 443).errs, e = none)) :=
  ⟨rfl, by decide,
   command_fails_iff_some_address_has_error envTwo "api.test.local" [1, 0] "api.test.local" 443
     [testAddr, testAddr2] rfl (by decide)⟩

/-- C6: the pools built by `httpCertOnIPCheck`. For a chain of length 1 both
pools are `nil`; for length 2 the root pool holds the second certificate alone
and the intermediate pool is `nil`; for length 3 or more the root pool holds the
last certificate alone and the intermediate pool holds the certificates at the
indices from 1 to length minus 2 and no other, each encoding once. -/
theorem chain_classified_by_position (certs : List Certificate) :
    (certs.length = 1 → httpCertPools certs = (none, none)) ∧
    (certs.length = 2 →
      ∃ second, certs[1]? = some second ∧ httpCertPools certs = (some [second], none)) ∧
    (3 ≤ certs.length →
      ∃ last pool, certs[certs.length - 1]? = some last ∧
        httpCertPools certs = (some [last], some pool) ∧
        (∀ p ∈ pool, ∃ i, 1 ≤ i ∧ i < certs.length - 1 ∧ certs[i]? = some p) ∧
        (∀ i c, 1 ≤ i → i < certs.length - 1 → certs[i]? = some c →
          ∃ p ∈ pool, p.raw = c.raw) ∧
        (pool.map Certificate.raw).Nodup) := by
  refine ⟨?_, ?_, ?_⟩
  · intro h
    unfold httpCertPools
    simp [h]
  · intro h
    match certs, h with
    | [a, b], _ =>
      exact ⟨b, rfl, by simp [httpCertPools, CertPool.AddCert]⟩
  · intro h
    have hlast : certs.length - 1 < certs.length := by omega
    refine ⟨certs[certs.length - 1],
      ((certs.take (certs.length - 1)).drop 1).foldl CertPool.AddCert [],
      List.getElem?_eq_getElem hlast, ?_, ?_, ?_, ?_⟩
    · unfold httpCertPools
      have h1 : certs.length > 1 := by omega
      have h2 : certs.length > 2 := by omega
      simp only [h1, h2, if_true]
      rw [List.getLast?_eq_getElem?, List.getElem?_eq_getElem hlast]
      simp [CertPool.AddCert]
    · intro p hp
      rcases foldl_AddCert_mem _ _ p hp with h0 | h0
      · cases h0
      · exact (mem_middle_iff certs p).mp h0
    · intro i c h1 h2 hc
      exact foldl_AddCert_raw _ [] c ((mem_middle_iff certs c).mpr ⟨i, h1, h2, hc⟩)
    · exact foldl_AddCert_nodup _ [] (by simp)

/-- C6 at chains of length 1, 2 and 3. -/
theorem chain_classified_by_position_witness :
    ([testLeaf].length = 1 ∧ httpCertPools [testLeaf] = (none, none)) ∧
    ([testLeaf, testRoot].length = 2 ∧
      ∃ second, [testLeaf, testRoot][1]? = some second ∧
        httpCertPools [testLeaf, testRoot] = (some [second], none)) ∧
    (3 ≤ [testLeaf, expiredMid, testRoot].length ∧
      httpCertPools [testLeaf, expiredMid, testRoot] = (some [testRoot], some [expiredMid])) :=
  ⟨⟨rfl, (chain_classified_by_position [testLeaf]).1 rfl⟩,
   ⟨rfl, (chain_classified_by_position [testLeaf, testRoot]).2.1 rfl⟩,
   ⟨by decide, by decide⟩⟩

/-- C7: in the error list of `httpCertOnIPCheck` for a chain that starts with
`leaf`, the first entry is the result of the SAN check of `leaf` and no other
entry comes from a SAN check; a certificate checked under another type than
`server certificate` gets no SAN check. The SAN check returns an error exactly
when the certificate has no SAN entry at all, or no DNS name compiles to a glob
that matches the domain and no IP address of the certificate is equal to the
domain parsed as a literal IP; it returns `nil` otherwise. -/
theorem san_check_leaf_only_and_error_iff (env : Env) (domain : String) (ip : IP) (port : Int)
    (leaf : Certificate) (rest : List Certificate) :
    (∃ tail, httpCertOnIPCheck env domain ip port (leaf :: rest)
        = httpCertOnIPCheckCertSAN env.globOther domain leaf :: tail ∧
      ∀ e ∈ tail, ∃ err, e = some err ∧ err.isSAN = false) ∧
    (∀ (cert : Certificate) (certType : String), certType ≠ "server certificate" →
      ∀ e ∈ httpCertOnIPCheckCert env domain cert certType,
        ∃ err, e = some err ∧ err.isSAN = false) ∧
    (httpCertOnIPCheckCertSAN env.globOther domain leaf ≠ none ↔
      (leaf.dnsNames = [] ∧ leaf.ipAddresses = [] ∧ leaf.uris = []) ∨
      ((¬ ∃ name ∈ leaf.dnsNames, ∃ m, globCompile env.globOther name = some m ∧
          m domain = true) ∧
       (¬ ∃ hostIP, ParseIP domain = some hostIP ∧
          ∃ a ∈ leaf.ipAddresses, IP.Equal a hostIP = true))) ∧
    (httpCertOnIPCheckCertSAN env.globOther domain leaf = none ↔
      ¬ ((leaf.dnsNames = [] ∧ leaf.ipAddresses = [] ∧ leaf.uris = []) ∨
        ((¬ ∃ name ∈ leaf.dnsNames, ∃ m, globCompile env.globOther name = some m ∧
            m domain = true) ∧
         (¬ ∃ hostIP, ParseIP domain = some hostIP ∧
            ∃ a ∈ leaf.ipAddresses, IP.Equal a hostIP = true)))) := by
  have hnone := san_none_iff env.globOther domain leaf
  have hempty : (leaf.dnsNames = [] ∧ leaf.ipAddresses = [] ∧ leaf.uris = []) →
      (¬ ∃ name ∈ leaf.dnsNames, ∃ m, globCompile env.globOther name = some m ∧
          m domain = true) ∧
      (¬ ∃ hostIP, ParseIP domain = some hostIP ∧
          ∃ a ∈ leaf.ipAddresses, IP.Equal a hostIP = true) := by
    rintro ⟨h1, h2, _⟩
    constructor
    · rintro ⟨n, hn, _⟩; rw [h1] at hn; cases hn
    · rintro ⟨_, _, a, ha, _⟩; rw [h2] at ha; cases ha
  refine ⟨san_applied_to_leaf_only env domain ip port leaf rest,
    fun cert certType h => checkCert_other_not_san env domain cert certType h, ?_, ?_⟩
  · rw [Ne, hnone]
    constructor
    · intro h
      right
      exact ⟨fun hn => h (Or.inl hn), fun hi => h (Or.inr hi)⟩
    · rintro (h | h)
      · have := hempty h
        rintro (hn | hi)
        · exact this.1 hn
        · exact this.2 hi
      · rintro (hn | hi)
        · exact h.1 hn
        · exact h.2 hi
  · rw [hnone]
    constructor
    · rintro (hn | hi)
      · rintro (h | h)
        · exact (hempty h).1 hn
        · exact h.1 hn
      · rintro (h | h)
        · exact (hempty h).2 hi
        · exact h.2 hi
    · intro h
      by_contra hcon
      apply h
      right
      exact ⟨fun hn => hcon (Or.inl hn), fun hi => hcon (Or.inr hi)⟩

/-- C7 at the chain leaf, intermediate, root of the concrete inputs: the
certificate type `root certificate` differs from `server certificate`, the
SAN check of the leaf for `api.test.local` returns `nil`, and it is the head of
the error list. -/
theorem san_check_leaf_only_and_error_iff_witness :
    "root certificate" ≠ "server certificate" ∧
    httpCertOnIPCheckCertSAN envOK.globOther "api.test.local" testLeaf = none ∧
    (∃ tail, httpCertOnIPCheck envOK "api.test.local" testAddr 443
        [testLeaf, expiredMid, testRoot]
        = httpCertOnIPCheckCertSAN envOK.globOther "api.test.local" testLeaf :: tail ∧
      ∀ e ∈ tail, ∃ err, e = some err ∧ err.isSAN = false) ∧
    (∀ e ∈ httpCertOnIPCheckCert envOK "api.test.local" testRoot "root certificate",
      ∃ err, e = some err ∧ err.isSAN = false) :=
  ⟨by decide, by decide,
   (san_check_leaf_only_and_error_iff envOK "api.test.local" testAddr 443 testLeaf
     [expiredMid, testRoot]).1,
   (san_check_leaf_only_and_error_iff envOK "api.test.local" testAddr 443 testLeaf
     [expiredMid, testRoot]).2.1 testRoot "root certificate" (by decide)⟩

/-- C8, as the code has it: when no route leads to a resolved address, the route
lookup returns an error. `httpCertOnIP` then records the address as not run
with the single error `failed to get route for <ip>: ...`; the report prints
that error line and nothing else for it, so no `OK` line, and the command
fails. -/
theorem unroutable_address_fails_command (env : Env) (arg : String) (order : List Nat)
    (domain : String) (port : Int) (ips : List IP)
    (hres : httpCertResolve env arg = Except.ok (domain, port, ips))
    (hord : order.Perm (List.range ips.length))
    (i : Nat) (hi : i < ips.length) (msg : String)
    (hnew : env.newRouter = none) (hroute : env.route ips[i] = Except.error msg) :
    httpCertOnIP env domain ips[i] port
      = { errs := [some (CertErr.noRoute ips[i] msg)], runned := false, ip := ips[i] } ∧
    (∃ ent ∈ (runTasks env domain port ips order).1, ent.key = i ∧ ent.ip = ips[i] ∧
      entryLines ent = [Line.failed ips[i] (CertErr.noRoute ips[i] msg)]) ∧
    (RunE env arg order).1 = (runTasks env domain port ips order).1.flatMap entryLines ∧
    Line.failed ips[i] (CertErr.noRoute ips[i] msg) ∈ (RunE env arg order).1 ∧
    (RunE env arg order).2 = some CmdErr.failedToValidate := by
  have hrun : RunE env arg order = report (runTasks env domain port ips order).1 := by
    unfold RunE
    rw [hres]
  have hon : httpCertOnIP env domain ips[i] port
      = { errs := [some (CertErr.noRoute ips[i] msg)], runned := false, ip := ips[i] } := by
    unfold httpCertOnIP
    rw [hnew]
    simp only []
    rw [hroute]
  have hent : ({ key := i, ip := ips[i], errs := (httpCertOnIP env domain ips[i] port).errs } :
      Entry) ∈ (runTasks env domain port ips order).1 :=
    (mem_runTasks_iff env domain port ips order hord _).mpr ⟨i, hi, rfl⟩
  have hlines : entryLines
      { key := i, ip := ips[i], errs := (httpCertOnIP env domain ips[i] port).errs }
      = [Line.failed ips[i] (CertErr.noRoute ips[i] msg)] := by
    rw [hon]
    simp [entryLines]
  refine ⟨hon, ⟨_, hent, rfl, rfl, hlines⟩, ?_, ?_, ?_⟩
  · rw [hrun, report_lines]
  · rw [hrun, report_lines, List.mem_flatMap]
    exact ⟨_, hent, by rw [hlines]; exact List.mem_singleton.2 rfl⟩
  · rw [hrun, report_error_iff]
    exact ⟨_, hent, some (CertErr.noRoute ips[i] msg), by rw [hon]; exact List.mem_singleton.2 rfl,
      by simp⟩

/-- C8 at a name that resolves to one address, to which no route leads. -/
theorem unroutable_address_fails_command_witness :
    Line.failed testAddr (CertErr.noRoute testAddr "no route found for 192.0.2.10")
        ∈ (RunE envRouteFails "api.test.local" [0]).1 ∧
    (RunE envRouteFails "api.test.local" [0]).2 = some CmdErr.failedToValidate :=
  ⟨(unroutable_address_fails_command envRouteFails "api.test.local" [0] "api.test.local" 443
      [testAddr] rfl (by decide) 0 (by decide) "no route found for 192.0.2.10" rfl rfl).2.2.2.1,
   (unroutable_address_fails_command envRouteFails "api.test.local" [0] "api.test.local" 443
      [testAddr] rfl (by decide) 0 (by decide) "no route found for 192.0.2.10" rfl rfl).2.2.2.2⟩

/-- C8, the claim as stated fails on the code: the name resolves to 192.0.2.10,
to which no route leads, so the route lookup returns its error. The address is
recorded as not run, but with that error, and the command prints the error
line and fails. -/
theorem unroutable_address_is_reported_as_failure :
    httpCertOnIP envRouteFails "api.test.local" testAddr 443
      = { errs := [some (CertErr.noRoute testAddr "no route found for 192.0.2.10")],
          runned := false, ip := testAddr } ∧
    RunE envRouteFails "api.test.local" [0]
      = ([Line.failed testAddr (CertErr.noRoute testAddr "no route found for 192.0.2.10")],
          some CmdErr.failedToValidate) := by
  decide

/-- C9: task `i` checks `ips[i]` and writes its result under the address of the
result it allocated. When every task reports once, in any order, the map read
after `wg.Wait()` has as many entries as there are addresses, repeated
addresses included, its keys are pairwise distinct, and it holds for each task
the entry of that task: its address and the error list of its check. -/
theorem result_map_has_one_entry_per_task (env : Env) (domain : String) (port : Int)
    (ips : List IP) (order : List Nat) (hord : order.Perm (List.range ips.length)) :
    (runTasks env domain port ips order).1.length = ips.length ∧
    ((runTasks env domain port ips order).1.map Entry.key).Nodup ∧
    ∀ (i : Nat) (hi : i < ips.length),
      { key := i, ip := ips[i], errs := (httpCertOnIP env domain ips[i] port).errs }
        ∈ (runTasks env domain port ips order).1 := by
  have hnd : order.Nodup := hord.nodup_iff.mpr (List.nodup_range _)
  have hkeys : (runTasks env domain port ips order).1.map Entry.key = order := by
    rw [runTasks_eq env domain port ips order hnd]
    exact runTasks_keys env domain port ips order (fun i hi => (perm_range_mem hord i).mp hi)
  refine ⟨?_, ?_, ?_⟩
  · have := congrArg List.length hkeys
    rw [List.length_map] at this
    rw [this, hord.length_eq, List.length_range]
  · rw [hkeys]; exact hnd
  · intro i hi
    exact (mem_runTasks_iff env domain port ips order hord _).mpr ⟨i, hi, rfl⟩

/-- C9 at three addresses, two of them equal and one refusing the connection,
the tasks reporting in the order 2, 0, 1: the map has three entries. -/
theorem result_map_has_one_entry_per_task_witness :
    [2, 0, 1].Perm (List.range [testAddr, testAddr2, testAddr].length) ∧
    (runTasks envTwo "api.test.local" 443 [testAddr, testAddr2, testAddr] [2, 0, 1]).1.length
      = 3 :=
  ⟨by decide,
   (result_map_has_one_entry_per_task envTwo "api.test.local" 443
     [testAddr, testAddr2, testAddr] [2, 0, 1] (by decide)).1⟩

/-- C10, evaluated on the code: `::1` is a literal IPv6 address for
`net.ParseIP`, but `httpCertResolve` first splits its argument at the first
colon and reads what follows as a port, so it fails with the invalid-port error
whatever the surroundings. A literal IPv4 address, which holds no colon,
resolves to itself with port 443. -/
theorem ipv6_literal_rejected (env : Env) :
    ParseIP "::1" = some [0, 0, 0, 0, 0, 0, 0, 0, 0, 0, 0, 0, 0, 0, 0, 1] ∧
    httpCertResolve env "::1" = Except.error CmdErr.invalidPort ∧
    httpCertResolve env "192.0.2.10"
      = Except.ok ("192.0.2.10", 443, [[0, 0, 0, 0, 0, 0, 0, 0, 0, 0, 255, 255, 192, 0, 2, 10]]) := by
  refine ⟨by decide, rfl, rfl⟩

/-! ## Lemmas for the HTTP client -/

theorem readerFuel_read_lt (r : Reader) (n : Nat) (hn : 0 < n) (hr : r ≠ []) :
    readerFuel (readerRead r n).2 < readerFuel r := by
  cases r with
  | nil => exact absurd rfl hr
  | cons ev rest =>
    unfold readerRead
    by_cases h : ev.bytes.length ≤ n
    · simp only [h, if_true, readerFuel]; omega
    · simp only [h, if_false, readerFuel, List.length_drop]; omega

theorem ioCopyLoop_eq : ∀ (fuel : Nat) (r : Reader) (acc : List Nat), readerFuel r < fuel →
    ioCopyLoop fuel r acc = (acc ++ readerBytes r, readerError r) := by
  intro fuel
  induction fuel with
  | zero => intro r acc h; omega
  | succ fuel ih =>
    intro r acc h
    cases r with
    | nil => simp [ioCopyLoop, readerRead, readerBytes, readerError]
    | cons ev rest =>
      by_cases hlen : ev.bytes.length ≤ 32768
      · cases herr : ev.err with
        | none =>
          have hread : readerRead (ev :: rest) 32768 = ((ev.bytes, none), rest) := by
            simp [readerRead, hlen, herr]
          rw [ioCopyLoop, hread]
          simp only []
          rw [ih rest _ (by simp only [readerFuel] at h; omega)]
          simp [readerBytes, readerError, herr]
        | some e =>
          cases e with
          | eof =>
            have hread : readerRead (ev :: rest) 32768 = ((ev.bytes, some ReadErr.eof), rest) := by
              simp [readerRead, hlen, herr]
            rw [ioCopyLoop, hread]
            simp [readerBytes, readerError, herr]
          | other msg =>
            have hread : readerRead (ev :: rest) 32768
                = ((ev.bytes, some (ReadErr.other msg)), rest) := by
              simp [readerRead, hlen, herr]
            rw [ioCopyLoop, hread]
            simp [readerBytes, readerError, herr]
      · have hread : readerRead (ev :: rest) 32768
            = ((ev.bytes.take 32768, none),
               { bytes := ev.bytes.drop 32768, err := ev.err } :: rest) := by
          simp [readerRead, hlen]
        rw [ioCopyLoop, hread]
        simp only []
        rw [ih _ _ (by simp only [readerFuel, List.length_drop] at h ⊢; omega)]
        simp only [readerBytes, readerError, Prod.mk.injEq]
        constructor
        · rw [List.append_assoc, ← List.append_assoc (List.take 32768 ev.bytes),
            List.take_append_drop]
        · trivial

theorem ioCopy_eq (r : Reader) : ioCopy r = (readerBytes r, readerError r) := by
  unfold ioCopy
  rw [ioCopyLoop_eq _ r [] (by omega)]
  simp

theorem splitN2_head (sep : Char) (s : List Char) :
    (stringsSplitN2 sep s).headD [] = s.takeWhile (fun c => c != sep) := by
  unfold stringsSplitN2
  rw [List.span_eq_take_drop]
  cases h : List.dropWhile (fun c => c != sep) s with
  | nil => simp
  | cons x b => simp

theorem outputRaw_calls (env : HttpEnv) (c : Client) (res : Response) :
    (outputRaw env c res).calls = [Presenter.raw] := by
  unfold outputRaw
  split
  · split <;> try rfl
    split <;> rfl
  · rfl

theorem outputMedia_calls_head (env : HttpEnv) (c : Client) (res : Response) :
    (outputMedia env c res).calls.head? = some Presenter.media := by
  unfold outputMedia
  split <;> rfl

theorem wrapRenderError_calls (r : RenderResult) : (wrapRenderError r).calls = r.calls := by
  unfold wrapRenderError
  cases h : r.err <;> rfl

theorem wrapRenderError_written (r : RenderResult) :
    (wrapRenderError r).written = r.written := by
  unfold wrapRenderError
  cases h : r.err <;> rfl

theorem wrapRenderError_err (r : RenderResult) :
    (wrapRenderError r).err = r.err.map (fun e => "error while rendering response: " ++ e) := by
  unfold wrapRenderError
  cases h : r.err <;> simp [h]

/-- The function `output` for a client that is not in raw mode and has no jq
filter, on an interactive terminal: the dispatch on the MIME type. -/
theorem output_by_mime (env : HttpEnv) (c : Client) (res : Response)
    (hraw : c.raw = false) (hterm : env.isTerminal = true) (hjq : c.jq = none) :
    output env c res = wrapRenderError
      (if outputMimeType env c res = "application/json" then outputWith env Presenter.json c res
      else if outputMimeType env c res = "application/xml" ∨
          outputMimeType env c res = "text/xml" then
        outputWith env (Presenter.highlighted "xml") c res
      else if outputMimeType env c res = "text/html" then
        outputWith env (Presenter.highlighted "html") c res
      else if outputMimeType env c res = "image/png" ∨ outputMimeType env c res = "image/jpeg" ∨
          outputMimeType env c res = "image/gif" then
        outputWith env Presenter.image c res
      else
        if (outputMimeType env c res).toList.takeWhile (fun ch => ch != '/') = "audio".toList ∨
            (outputMimeType env c res).toList.takeWhile (fun ch => ch != '/') = "video".toList then
          outputMedia env c res
        else outputRaw env c res) := by
  unfold output
  rw [if_neg (by simp [hraw, hterm]), hjq]
  simp only [Option.isSome_none, Bool.false_eq_true, if_false, splitN2_head]

theorem Run_of_response (env : HttpEnv) (c : Client) (req : Request) (tr : Transport)
    (res : Response) (hreq : buildRequest env c = Except.ok req)
    (htr : buildClient env c = Except.ok tr) (hdo : env.doRequest tr req = Except.ok res) :
    Run env c = { err := (output env c res).err, sent := some req,
                  calls := (output env c res).calls, written := (output env c res).written,
                  network := (wrapSizedBody env c.body).2 ++ [NetEvent.clientDo req] } := by
  unfold Run
  rw [hreq]
  simp only []
  rw [htr]
  simp only []
  rw [hdo]

theorem outputMedia_single_call (env : HttpEnv) (c : Client) (res : Response) (p : Presenter)
    (h : (outputMedia env c res).calls = [p]) :
    outputMedia env c res = outputWith env p c res := by
  unfold outputMedia at h ⊢
  by_cases hff : env.hasFFMpeg = true
  · simp only [hff, Bool.not_true, Bool.false_eq_true, if_false] at h ⊢
    simp only [outputWith, List.cons.injEq, and_true] at h
    rw [h]
  · simp only [hff, Bool.not_false, if_true] at h
    rw [outputRaw_calls] at h
    simp at h

/-- A result of one of the presenters that entered one presenter only, not the
raw one, is the result of that library presenter. -/
theorem branch_single_presenter (env : HttpEnv) (c : Client) (res : Response) (p : Presenter)
    (B : RenderResult)
    (hB : (∃ q, B = outputWith env q c res) ∨ B = outputMedia env c res ∨
      B = outputRaw env c res)
    (hcalls : B.calls = [p]) (hp : p ≠ Presenter.raw) : B = outputWith env p c res := by
  rcases hB with ⟨q, hq⟩ | hB | hB
  · subst hq
    simp only [outputWith, List.cons.injEq, and_true] at hcalls
    rw [hcalls]
  · subst hB
    exact outputMedia_single_call env c res p hcalls
  · subst hB
    rw [outputRaw_calls] at hcalls
    simp at hcalls
    exact absurd hcalls.symm hp

/-- When `output` entered one presenter only and it is not the raw one, the
result is that of the library presenter, its error wrapped unless it is the jq
presenter. -/
theorem output_single_presenter (env : HttpEnv) (c : Client) (res : Response) (p : Presenter)
    (hcalls : (output env c res).calls = [p]) (hp : p ≠ Presenter.raw) :
    (output env c res).written = (env.render p c res).1 ∧
    ((output env c res).err = (env.render p c res).2 ∨
     (output env c res).err
       = (env.render p c res).2.map (fun e => "error while rendering response: " ++ e)) := by
  by_cases h0 : c.raw = true ∨ (!env.isTerminal) = true
  · exfalso
    unfold output at hcalls
    rw [if_pos h0, outputRaw_calls] at hcalls
    simp at hcalls
    exact hp hcalls.symm
  · by_cases hjq : c.jq.isSome = true
    · unfold output at hcalls ⊢
      rw [if_neg h0, if_pos hjq] at hcalls ⊢
      simp only [outputWith, List.cons.injEq, and_true] at hcalls
      subst hcalls
      exact ⟨rfl, Or.inl rfl⟩
    · have hraw : c.raw = false := by
        cases hr : c.raw
        · rfl
        · exact absurd (Or.inl hr) h0
      have hterm : env.isTerminal = true := by
        cases ht : env.isTerminal
        · exact absurd (Or.inr (by simp [ht])) h0
        · rfl
      have hjq2 : c.jq = none := by
        cases hj : c.jq
        · rfl
        · simp [hj] at hjq
      rw [output_by_mime env c res hraw hterm hjq2] at hcalls ⊢
      rw [wrapRenderError_calls] at hcalls
      rw [wrapRenderError_written, wrapRenderError_err]
      have hB := branch_single_presenter env c res p _ (by
        split_ifs
        · exact Or.inl ⟨_, rfl⟩
        · exact Or.inl ⟨_, rfl⟩
        · exact Or.inl ⟨_, rfl⟩
        · exact Or.inl ⟨_, rfl⟩
        · exact Or.inr (Or.inl rfl)
        · exact Or.inr (Or.inr rfl)) hcalls hp
      rw [hB]
      exact ⟨rfl, Or.inr rfl⟩

theorem char_le_iff (a b : Char) : a ≤ b ↔ a.toNat ≤ b.toNat := by
  simp [Char.le_def, Char.toNat, UInt32.le_def]
  rfl

theorem toNat_ofNat_small (n : Nat) (h : n < 256) : (Char.ofNat n).toNat = n := by
  have : n.isValidChar := Or.inl (by omega)
  simp [Char.ofNat, this, Char.ofNatAux, Char.toNat, UInt32.toNat]

theorem letter_is_ascii (ch : Char) (h : isASCIILetter ch = true) : ch.toNat < 128 := by
  unfold isASCIILetter at h
  simp only [decide_eq_true_eq] at h
  have h1 : ('a' : Char).toNat = 97 := rfl
  have h2 : ('z' : Char).toNat = 122 := rfl
  have h3 : ('A' : Char).toNat = 65 := rfl
  have h4 : ('Z' : Char).toNat = 90 := rfl
  rw [char_le_iff, char_le_iff, char_le_iff, char_le_iff] at h
  omega

theorem stringsToUpper_letters (uni : Char → Char) : ∀ (s : List Char),
    s.all isASCIILetter = true → stringsToUpper uni s = s.map asciiUpper := by
  intro s h
  unfold stringsToUpper
  apply List.map_congr_left
  intro ch hch
  rw [List.all_eq_true] at h
  simp [letter_is_ascii ch (h ch hch)]

theorem string_eq_empty_iff (m : String) : m = "" ↔ m.toList = [] := by
  constructor
  · intro h; rw [h]; rfl
  · intro h
    cases m with
    | mk data =>
      simp only [String.toList] at h
      rw [h]

/-- An option that succeeds keeps a protocol pin that is set, sets the pin it
is about, and never leaves both pins set when they were not both set. -/
theorem apply_pins (env : HttpEnv) (o : ClientOption) (c c2 : Client)
    (h : ClientOption.apply env o c = (c2, none)) :
    (c.forceHTTP1 = true → c2.forceHTTP1 = true) ∧
    (c.forceHTTP2 = true → c2.forceHTTP2 = true) ∧
    (o = ClientOption.WithForceHTTP1 → c2.forceHTTP1 = true) ∧
    (o = ClientOption.WithForceHTTP2 → c2.forceHTTP2 = true) ∧
    (¬ (c.forceHTTP1 = true ∧ c.forceHTTP2 = true) →
      ¬ (c2.forceHTTP1 = true ∧ c2.forceHTTP2 = true)) := by
  cases o <;> simp only [ClientOption.apply] at h
  case WithMethod m =>
    split at h
    · simp at h
    · split at h
      · simp at h
      · simp only [Prod.mk.injEq, and_true] at h
        subst h
        simp
  case WithForceHTTP1 =>
    split at h
    · simp at h
    · rename_i hf
      simp only [Prod.mk.injEq, and_true] at h
      subst h
      simp
      intro _
      simpa using hf
  case WithForceHTTP2 =>
    split at h
    · simp at h
    · rename_i hf
      simp only [Prod.mk.injEq, and_true] at h
      subst h
      simp
      intro _
      simpa using hf
  case WithJQ f =>
    split at h
    · simp at h
    · simp only [Prod.mk.injEq, and_true] at h
      subst h
      simp
  case WithStyle st =>
    split at h
    · simp at h
    · simp only [Prod.mk.injEq, and_true] at h
      subst h
      simp
  all_goals
    simp only [Prod.mk.injEq, and_true] at h
    subst h
    simp

theorem applyOptions_pins (env : HttpEnv) : ∀ (opts : List ClientOption) (c c2 : Client),
    applyOptions env opts c = Except.ok c2 →
    (c.forceHTTP1 = true → c2.forceHTTP1 = true) ∧
    (c.forceHTTP2 = true → c2.forceHTTP2 = true) ∧
    (ClientOption.WithForceHTTP1 ∈ opts → c2.forceHTTP1 = true) ∧
    (ClientOption.WithForceHTTP2 ∈ opts → c2.forceHTTP2 = true) ∧
    (¬ (c.forceHTTP1 = true ∧ c.forceHTTP2 = true) →
      ¬ (c2.forceHTTP1 = true ∧ c2.forceHTTP2 = true)) := by
  intro opts
  induction opts with
  | nil =>
    intro c c2 h
    simp only [applyOptions, Except.ok.injEq] at h
    subst h
    simp
  | cons o rest ih =>
    intro c c2 h
    rw [applyOptions] at h
    cases hap : ClientOption.apply env o c with
    | mk c1 e =>
      cases e with
      | some msg => rw [hap] at h; simp at h
      | none =>
        rw [hap] at h
        simp only [] at h
        obtain ⟨a1, a2, a3, a4, a5⟩ := apply_pins env o c c1 hap
        obtain ⟨b1, b2, b3, b4, b5⟩ := ih c1 c2 h
        refine ⟨fun hc => b1 (a1 hc), fun hc => b2 (a2 hc), ?_, ?_, fun hc => b5 (a5 hc)⟩
        · intro hmem
          rcases List.mem_cons.mp hmem with hmem | hmem
          · exact b1 (a3 hmem.symm)
          · exact b3 hmem
        · intro hmem
          rcases List.mem_cons.mp hmem with hmem | hmem
          · exact b2 (a4 hmem.symm)
          · exact b4 hmem

theorem NewClient_ok (env : HttpEnv) (uri : String) (opts : List ClientOption) (c : Client)
    (h : NewClient env uri opts = Except.ok c) :
    ∃ c0 u, applyOptions env opts defaultClient = Except.ok c0 ∧
      parseURL env uri = Except.ok u ∧ c = { c0 with url := u } := by
  unfold NewClient at h
  cases h1 : applyOptions env opts defaultClient with
  | error e => rw [h1] at h; simp at h
  | ok c0 =>
    rw [h1] at h
    simp only [] at h
    cases h2 : parseURL env uri with
    | error e => rw [h2] at h; simp at h
    | ok u =>
      rw [h2] at h
      simp only [Except.ok.injEq] at h
      exact ⟨c0, u, rfl, rfl, h.symm⟩

theorem getScheme_http (rest : List Char) :
    getScheme ('h' :: 't' :: 't' :: 'p' :: ':' :: rest) [] = Except.ok "http".toList := by
  rfl

theorem urlParse_http_scheme (env : HttpEnv) (uri : String) (u : URL)
    (h : urlParse env ("http://" ++ uri) = Except.ok u) : u.scheme = "http" := by
  unfold urlParse at h
  have hl : ("http://" ++ uri).toList = 'h' :: 't' :: 't' :: 'p' :: ':' :: '/' :: '/' :: uri.toList := by
    rw [String.toList, String.data_append]; rfl
  rw [hl] at h
  have ht : List.takeWhile (fun c => c != '#')
      ('h' :: 't' :: 't' :: 'p' :: ':' :: '/' :: '/' :: uri.toList)
      = 'h' :: 't' :: 't' :: 'p' :: ':' :: '/' :: '/' ::
          List.takeWhile (fun c => c != '#') uri.toList := by
    rfl
  rw [ht, getScheme_http] at h
  simp only [] at h
  cases hp : env.urlParts ("http://" ++ uri) with
  | error e => rw [hp] at h; simp at h
  | ok parts =>
    rw [hp] at h
    simp only [Except.ok.injEq] at h
    rw [← h]
    rfl

theorem parseURL_bare_scheme (env : HttpEnv) (uri : String) (u : URL)
    (hbare : stringsContains "://".toList uri.toList = false)
    (h : parseURL env uri = Except.ok u) : u.scheme = "http" := by
  unfold parseURL at h
  simp only [hbare, Bool.not_false, if_true] at h
  cases hp : urlParse env ("http://" ++ uri) with
  | error e => rw [hp] at h; simp at h
  | ok u0 =>
    rw [hp] at h
    simp only [] at h
    have hs := urlParse_http_scheme env uri u0 hp
    split at h
    · simp at h
    · split at h
      · simp at h
      · simp only [Except.ok.injEq] at h
        rw [← h]; exact hs

theorem asciiUpper_idem (c : Char) : asciiUpper (asciiUpper c) = asciiUpper c := by
  unfold asciiUpper
  by_cases h : 'a' ≤ c ∧ c ≤ 'z'
  · simp only [h, and_self, if_true]
    rw [char_le_iff, char_le_iff] at h
    have h1 : ('a' : Char).toNat = 97 := rfl
    have h2 : ('z' : Char).toNat = 122 := rfl
    have hn : (Char.ofNat (c.toNat - 32)).toNat = c.toNat - 32 := toNat_ofNat_small _ (by omega)
    have : ¬ ('a' ≤ Char.ofNat (c.toNat - 32) ∧ Char.ofNat (c.toNat - 32) ≤ 'z') := by
      rw [char_le_iff, char_le_iff, hn, h1]
      omega
    simp [this]
  · simp [h]

theorem asciiLower_idem (c : Char) : asciiLower (asciiLower c) = asciiLower c := by
  unfold asciiLower
  by_cases h : 'A' ≤ c ∧ c ≤ 'Z'
  · simp only [h, and_self, if_true]
    rw [char_le_iff, char_le_iff] at h
    have h1 : ('A' : Char).toNat = 65 := rfl
    have h2 : ('Z' : Char).toNat = 90 := rfl
    have hn : (Char.ofNat (c.toNat + 32)).toNat = c.toNat + 32 := toNat_ofNat_small _ (by omega)
    have : ¬ ('A' ≤ Char.ofNat (c.toNat + 32) ∧ Char.ofNat (c.toNat + 32) ≤ 'Z') := by
      rw [char_le_iff, char_le_iff, hn, h2]
      omega
    simp [this]
  · simp [h]

theorem isTokenChar_iff (c : Char) : isTokenChar c = true ↔
    ((48 ≤ c.toNat ∧ c.toNat ≤ 57) ∨ (65 ≤ c.toNat ∧ c.toNat ≤ 90) ∨
      (97 ≤ c.toNat ∧ c.toNat ≤ 122) ∨
      c.toNat ∈ [33, 35, 36, 37, 38, 39, 42, 43, 45, 46, 94, 95, 96, 124, 126]) := by
  unfold isTokenChar
  simp only [decide_eq_true_eq]

theorem asciiUpper_token (c : Char) (h : isTokenChar c = true) :
    isTokenChar (asciiUpper c) = true := by
  unfold asciiUpper
  by_cases hl : 'a' ≤ c ∧ c ≤ 'z'
  · simp only [hl, and_self, if_true]
    rw [char_le_iff, char_le_iff] at hl
    have h1 : ('a' : Char).toNat = 97 := rfl
    have h2 : ('z' : Char).toNat = 122 := rfl
    rw [isTokenChar_iff, toNat_ofNat_small _ (by omega)]
    right; left; omega
  · simp only [hl, if_false]; exact h

theorem asciiLower_token (c : Char) (h : isTokenChar c = true) :
    isTokenChar (asciiLower c) = true := by
  unfold asciiLower
  by_cases hl : 'A' ≤ c ∧ c ≤ 'Z'
  · simp only [hl, and_self, if_true]
    rw [char_le_iff, char_le_iff] at hl
    have h1 : ('A' : Char).toNat = 65 := rfl
    have h2 : ('Z' : Char).toNat = 90 := rfl
    rw [isTokenChar_iff, toNat_ofNat_small _ (by omega)]
    right; right; left; omega
  · simp only [hl, if_false]; exact h

theorem canonLoop_idem : ∀ (l : List Char) (u : Bool),
    canonLoop u (canonLoop u l) = canonLoop u l := by
  intro l
  induction l with
  | nil => intro u; rfl
  | cons c cs ih =>
    intro u
    cases u with
    | true =>
      simp only [canonLoop, if_true, asciiUpper_idem, ih]
    | false =>
      simp only [canonLoop, Bool.false_eq_true, if_false, asciiLower_idem, ih]

theorem canonLoop_token : ∀ (l : List Char) (u : Bool), l.all isTokenChar = true →
    (canonLoop u l).all isTokenChar = true := by
  intro l
  induction l with
  | nil => intro u _; rfl
  | cons c cs ih =>
    intro u h
    simp only [List.all_cons, Bool.and_eq_true] at h
    cases u with
    | true =>
      simp only [canonLoop, if_true, List.all_cons, Bool.and_eq_true]
      exact ⟨asciiUpper_token c h.1, ih _ h.2⟩
    | false =>
      simp only [canonLoop, Bool.false_eq_true, if_false, List.all_cons, Bool.and_eq_true]
      exact ⟨asciiLower_token c h.1, ih _ h.2⟩

theorem canonicalKey_idem (s : String) : canonicalKey (canonicalKey s) = canonicalKey s := by
  unfold canonicalKey
  by_cases h : s.toList.all isTokenChar = true
  · simp only [h, if_true]
    have h2 : (String.mk (canonLoop true s.toList)).toList.all isTokenChar = true :=
      canonLoop_token s.toList true h
    simp only [h2, if_true]
    show String.mk (canonLoop true (canonLoop true s.toList)) = _
    rw [canonLoop_idem]
  · rw [if_neg h, if_neg h]

theorem headerValues_update (f : List String → List String) : ∀ (h : Header) (key k : String),
    headerValues (headerUpdate f h key) k
      = if k = key then f (headerValues h key) else headerValues h k := by
  intro h
  induction h with
  | nil =>
    intro key k
    by_cases hk : k = key
    · simp [headerUpdate, headerValues, hk]
    · have : ¬ key = k := fun h => hk h.symm
      simp [headerUpdate, headerValues, hk, this]
  | cons e rest ih =>
    intro key k
    unfold headerUpdate
    by_cases he : e.1 = key
    · simp only [he, if_true, headerValues]
      by_cases hk : k = key
      · simp [hk]
      · have : ¬ key = k := fun h => hk h.symm
        simp [hk, this]
    · simp only [he, if_false, headerValues, ih]
      by_cases hk : k = key
      · subst hk
        simp [he]
      · simp only [hk, if_false]

theorem headerValues_set (h : Header) (key value k : String) :
    headerValues (headerSet h key value) k
      = if k = canonicalKey key then [value] else headerValues h k := by
  unfold headerSet
  rw [headerValues_update]

theorem headerValues_add (h : Header) (key value k : String) :
    headerValues (headerAdd h key value) k
      = if k = canonicalKey key then headerValues h k ++ [value] else headerValues h k := by
  unfold headerAdd
  rw [headerValues_update]
  by_cases hk : k = canonicalKey key
  · simp [hk]
  · simp [hk]

theorem inner_add_values : ∀ (vs : List String) (h : Header) (name k : String),
    headerValues (vs.foldl (fun h2 v => headerAdd h2 name v) h) k
      = if k = canonicalKey name then headerValues h k ++ vs else headerValues h k := by
  intro vs
  induction vs with
  | nil => intro h name k; simp
  | cons v rest ih =>
    intro h name k
    rw [List.foldl_cons, ih, headerValues_add]
    by_cases hk : k = canonicalKey name
    · simp [hk]
    · simp [hk]

theorem addUserHeaders_values : ∀ (user h : Header) (k : String),
    headerValues (addUserHeaders h user) k = headerValues h k ++ valuesAddedFor user k := by
  intro user
  induction user with
  | nil => intro h k; simp [addUserHeaders, valuesAddedFor]
  | cons e rest ih =>
    intro h k
    have hstep : addUserHeaders h (e :: rest)
        = addUserHeaders (e.2.foldl (fun h2 v => headerAdd h2 e.1 v) h) rest := by
      simp [addUserHeaders]
    rw [hstep, ih, inner_add_values, valuesAddedFor]
    by_cases hk : k = canonicalKey e.1
    · have : canonicalKey e.1 = k := hk.symm
      simp [hk]
    · have : ¬ canonicalKey e.1 = k := fun h => hk h.symm
      simp [hk, this]

theorem headerValues_absent : ∀ (h : Header) (k : String), k ∉ h.map Prod.fst →
    headerValues h k = [] := by
  intro h
  induction h with
  | nil => intro k _; rfl
  | cons e rest ih =>
    intro k hk
    simp only [List.map_cons, List.mem_cons, not_or] at hk
    have : ¬ e.1 = k := fun h => hk.1 h.symm
    simp only [headerValues, this, if_false]
    exact ih k hk.2

theorem valuesAddedFor_eq : ∀ (h : Header) (k : String), headerWellFormed h →
    valuesAddedFor h k = headerValues h k := by
  intro h
  induction h with
  | nil => intro k _; rfl
  | cons e rest ih =>
    intro k hwf
    obtain ⟨hnd, hfix⟩ := hwf
    simp only [List.map_cons, List.nodup_cons] at hnd
    have hrest : headerWellFormed rest :=
      ⟨hnd.2, fun x hx => hfix x (List.mem_cons_of_mem _ hx)⟩
    have he : canonicalKey e.1 = e.1 := hfix e (List.mem_cons_self _ _)
    rw [valuesAddedFor, he, ih k hrest, headerValues]
    by_cases hk : e.1 = k
    · subst hk
      simp [headerValues_absent rest e.1 hnd.1]
    · simp [hk]

theorem headerUpdate_keys (f : List String → List String) : ∀ (h : Header) (key : String),
    (headerUpdate f h key).map Prod.fst
      = if key ∈ h.map Prod.fst then h.map Prod.fst else h.map Prod.fst ++ [key] := by
  intro h
  induction h with
  | nil => intro key; simp [headerUpdate]
  | cons e rest ih =>
    intro key
    unfold headerUpdate
    by_cases he : e.1 = key
    · simp [he]
    · have hne : ¬ key = e.1 := fun h => he h.symm
      simp only [he, if_false, List.map_cons, ih, List.mem_cons, hne, false_or]
      by_cases hm : key ∈ rest.map Prod.fst
      · simp only [hm, if_true]
      · simp only [hm, if_false, List.cons_append]

theorem headerUpdate_mem (f : List String → List String) : ∀ (h : Header) (key : String)
    (x : String × List String), x ∈ headerUpdate f h key → x.1 = key ∨ ∃ y ∈ h, y.1 = x.1 := by
  intro h
  induction h with
  | nil =>
    intro key x hx
    simp only [headerUpdate, List.mem_singleton] at hx
    left; rw [hx]
  | cons e rest ih =>
    intro key x hx
    unfold headerUpdate at hx
    by_cases he : e.1 = key
    · simp only [he, if_true, List.mem_cons] at hx
      rcases hx with hx | hx
      · left; rw [hx]
      · right; exact ⟨x, List.mem_cons_of_mem _ hx, rfl⟩
    · simp only [he, if_false, List.mem_cons] at hx
      rcases hx with hx | hx
      · right; exact ⟨e, List.mem_cons_self _ _, by rw [hx]⟩
      · rcases ih key x hx with h1 | ⟨y, hy, hyx⟩
        · exact Or.inl h1
        · right; exact ⟨y, List.mem_cons_of_mem _ hy, hyx⟩

theorem headerAdd_wellFormed (h : Header) (name value : String) (hwf : headerWellFormed h) :
    headerWellFormed (headerAdd h name value) := by
  obtain ⟨hnd, hfix⟩ := hwf
  unfold headerAdd
  constructor
  · rw [headerUpdate_keys]
    by_cases hm : canonicalKey name ∈ h.map Prod.fst
    · simp only [hm, if_true]; exact hnd
    · simp only [hm, if_false]
      rw [List.nodup_append]
      refine ⟨hnd, by simp, ?_⟩
      intro a ha hb
      simp only [List.mem_singleton] at hb
      subst hb
      exact hm ha
  · intro x hx
    rcases headerUpdate_mem _ h _ x hx with h1 | ⟨y, hy, hyx⟩
    · rw [h1, canonicalKey_idem]
    · rw [← hyx]; exact hfix y hy

/-- The headers of the client after an option that succeeds. -/
theorem apply_headers (env : HttpEnv) (o : ClientOption) (c c2 : Client)
    (h : ClientOption.apply env o c = (c2, none)) :
    c2.headers = match o with
      | ClientOption.WithHeader name value => headerAdd c.headers name value
      | _ => c.headers := by
  cases o <;> simp only [ClientOption.apply] at h
  case WithMethod m =>
    split at h
    · simp at h
    · split at h
      · simp at h
      · simp only [Prod.mk.injEq, and_true] at h
        subst h
        rfl
  case WithForceHTTP1 =>
    split at h
    · simp at h
    · simp only [Prod.mk.injEq, and_true] at h
      subst h
      rfl
  case WithForceHTTP2 =>
    split at h
    · simp at h
    · simp only [Prod.mk.injEq, and_true] at h
      subst h
      rfl
  case WithJQ f =>
    split at h
    · simp at h
    · simp only [Prod.mk.injEq, and_true] at h
      subst h
      rfl
  case WithStyle st =>
    split at h
    · simp at h
    · simp only [Prod.mk.injEq, and_true] at h
      subst h
      rfl
  all_goals
    simp only [Prod.mk.injEq, and_true] at h
    subst h
    rfl

theorem applyOptions_headers (env : HttpEnv) : ∀ (opts : List ClientOption) (c c2 : Client),
    applyOptions env opts c = Except.ok c2 → headerWellFormed c.headers →
    headerWellFormed c2.headers ∧
    ∀ k, headerValues c2.headers k = headerValues c.headers k ++ userValues opts k := by
  intro opts
  induction opts with
  | nil =>
    intro c c2 h hwf
    simp only [applyOptions, Except.ok.injEq] at h
    subst h
    exact ⟨hwf, fun k => by simp [userValues]⟩
  | cons o rest ih =>
    intro c c2 h hwf
    rw [applyOptions] at h
    cases hap : ClientOption.apply env o c with
    | mk c1 e =>
      cases e with
      | some msg => rw [hap] at h; simp at h
      | none =>
        rw [hap] at h
        simp only [] at h
        have hh := apply_headers env o c c1 hap
        cases o with
        | WithHeader name value =>
          simp only [] at hh
          have hwf1 : headerWellFormed c1.headers := by
            rw [hh]; exact headerAdd_wellFormed _ _ _ hwf
          obtain ⟨hw2, hv⟩ := ih c1 c2 h hwf1
          refine ⟨hw2, fun k => ?_⟩
          rw [hv k, hh, headerValues_add]
          by_cases hk : k = canonicalKey name
          · have : canonicalKey name = k := hk.symm
            simp [userValues, hk]
          · have : ¬ canonicalKey name = k := fun h => hk h.symm
            simp [userValues, hk, this]
        | _ =>
          simp only [] at hh
          have hwf1 : headerWellFormed c1.headers := by rw [hh]; exact hwf
          obtain ⟨hw2, hv⟩ := ih c1 c2 h hwf1
          refine ⟨hw2, fun k => ?_⟩
          rw [hv k, hh]
          simp [userValues]

theorem NewRequest_ok (env : HttpEnv) (method url : String) (body : ReqBody) (req0 : Request)
    (h : NewRequestWithContext env method url body = Except.ok req0) :
    req0.header = [] ∧ req0.body = body := by
  unfold NewRequestWithContext at h
  simp only [] at h
  by_cases hv : (!(!(if method = "" then "GET" else method).toList.isEmpty &&
      (if method = "" then "GET" else method).toList.all isTokenChar)) = true
  · rw [if_pos hv] at h
    cases h
  · rw [if_neg hv] at h
    cases hp : urlParse env url with
    | error e => rw [hp] at h; cases h
    | ok u =>
      rw [hp] at h
      simp only [Except.ok.injEq] at h
      rw [← h]
      exact ⟨rfl, rfl⟩

theorem buildRequest_ok (env : HttpEnv) (c : Client) (req : Request)
    (h : buildRequest env c = Except.ok req) :
    ∃ req0, req0.header = [] ∧ req0.body = (wrapSizedBody env c.body).1 ∧
      req = setRequestHeaders c req0 := by
  unfold buildRequest at h
  cases hn : NewRequestWithContext env c.method c.url.text (wrapSizedBody env c.body).1 with
  | error e => rw [hn] at h; cases h
  | ok req0 =>
    rw [hn] at h
    simp only [Except.ok.injEq] at h
    obtain ⟨h1, h2⟩ := NewRequest_ok env _ _ _ req0 hn
    exact ⟨req0, h1, h2, h.symm⟩

theorem generated_values (c : Client) (k : String) :
    headerValues
      (if c.contentType ≠ "" then
        headerSet
          (if c.acccept ≠ "" then
            headerSet (headerSet [] "user-agent" ("dsak/" ++ GetFullVersion)) "accept" c.acccept
          else headerSet [] "user-agent" ("dsak/" ++ GetFullVersion))
          "content-type" c.contentType
      else
        (if c.acccept ≠ "" then
          headerSet (headerSet [] "user-agent" ("dsak/" ++ GetFullVersion)) "accept" c.acccept
        else headerSet [] "user-agent" ("dsak/" ++ GetFullVersion))) k
      = generatedValues c k := by
  have hua : canonicalKey "user-agent" = "User-Agent" := by decide
  have hac : canonicalKey "accept" = "Accept" := by decide
  have hct : canonicalKey "content-type" = "Content-Type" := by decide
  unfold generatedValues
  by_cases h1 : k = "User-Agent"
  · subst h1
    by_cases ha : c.acccept = "" <;> by_cases hc : c.contentType = "" <;>
      simp [ha, hc, headerValues_set, hua, hac, hct, headerValues]
  · by_cases h2 : k = "Accept"
    · subst h2
      by_cases ha : c.acccept = "" <;> by_cases hc : c.contentType = "" <;>
        simp [ha, hc, headerValues_set, hua, hac, hct, headerValues]
    · by_cases h3 : k = "Content-Type"
      · subst h3
        by_cases ha : c.acccept = "" <;> by_cases hc : c.contentType = "" <;>
          simp [ha, hc, headerValues_set, hua, hac, hct, headerValues]
      · have g1 : ¬ "User-Agent" = k := fun h => h1 h.symm
        have g2 : ¬ "Accept" = k := fun h => h2 h.symm
        have g3 : ¬ "Content-Type" = k := fun h => h3 h.symm
        by_cases ha : c.acccept = "" <;> by_cases hc : c.contentType = "" <;>
          simp [ha, hc, headerValues_set, hua, hac, hct, headerValues, headerSet, headerUpdate,
            h1, h2, h3, g1, g2, g3]

theorem setRequestHeaders_values (c : Client) (req0 : Request) (h0 : req0.header = [])
    (k : String) :
    headerValues (setRequestHeaders c req0).header k
      = generatedValues c k ++ valuesAddedFor c.headers k := by
  unfold setRequestHeaders
  simp only [h0, addUserHeaders_values]
  rw [generated_values]

theorem wrapSizedBody_network (env : HttpEnv) (body : Body) :
    (∀ req, NetEvent.clientDo req ∉ (wrapSizedBody env body).2) ∧
    ((∀ url, body ≠ Body.httpResource url 0) → (wrapSizedBody env body).2 = []) ∧
    (∀ url, body = Body.httpResource url 0 →
      (wrapSizedBody env body).2 = [NetEvent.resourceGet url]) := by
  cases body with
  | noBody => simp [wrapSizedBody]
  | resource size => simp [wrapSizedBody]
  | reader content => simp [wrapSizedBody]
  | httpResource url stored =>
    by_cases hs : stored = 0
    · subst hs
      simp [wrapSizedBody, resourceSize]
    · refine ⟨?_, ?_, ?_⟩
      · simp [wrapSizedBody, resourceSize, hs]
      · intro _
        simp [wrapSizedBody, resourceSize, hs]
      · intro url2 h
        simp only [Body.httpResource.injEq] at h
        exact absurd h.2 hs

/-! ## Claims on the HTTP client -/

/-- C11: the MIME type `output` dispatches on. When the forced type is not empty it
is that type, whatever the response says; otherwise it is what stands before
the first `;` of the content type of the response, trimmed and lowered, so that
`Application/JSON; charset=utf-8` gives `application/json`. -/
theorem mime_type_force_type_wins (env : HttpEnv) (c : Client) (res : Response) :
    (c.forceType ≠ "" → outputMimeType env c res = c.forceType) ∧
    (c.forceType = "" →
      outputMimeType env c res
        = String.mk (stringsToLower env.toLowerRune (stringsTrimSpace
            ((headerGet res.header "content-type").toList.takeWhile (fun ch => ch != ';'))))) ∧
    (c.forceType = "" → outputMimeType env c jsonResponse = "application/json") := by
  refine ⟨?_, ?_, ?_⟩
  · intro h
    unfold outputMimeType
    simp [h]
  · intro h
    unfold outputMimeType
    simp only [h, if_true, splitN2_head]
  · intro h
    unfold outputMimeType
    simp only [h, if_true]
    rfl

/-- C11 at the JSON response of the concrete inputs, with the forced type
`text/html` and with none. -/
theorem mime_type_force_type_wins_witness :
    ({ defaultClient with forceType := "text/html" } : Client).forceType ≠ "" ∧
    outputMimeType httpEnvTerm { defaultClient with forceType := "text/html" } jsonResponse
      = "text/html" ∧
    defaultClient.forceType = "" ∧
    outputMimeType httpEnvTerm defaultClient jsonResponse = "application/json" :=
  ⟨by decide,
   (mime_type_force_type_wins httpEnvTerm { defaultClient with forceType := "text/html" }
     jsonResponse).1 (by decide),
   rfl,
   (mime_type_force_type_wins httpEnvTerm defaultClient jsonResponse).2.2 rfl⟩

/-- C12: the presenter `output` enters first, for a client that is not in raw mode
on an interactive terminal. With a jq filter it is the jq presenter, whatever
the MIME type. Without one it follows the MIME type: `application/json` the
JSON presenter, `application/xml` and `text/xml` the XML highlighter,
`text/html` the HTML highlighter, `image/png`, `image/jpeg` and `image/gif` the
image presenter, a type whose part before the first `/` is `audio` or `video`
the media presenter, and every other type the raw presenter. A response
declared `application/json`, with no filter and no forced type, enters the
JSON presenter and not the raw one. -/
theorem presenter_by_mime_type (env : HttpEnv) (c : Client) (res : Response)
    (hraw : c.raw = false) (hterm : env.isTerminal = true) :
    (c.jq.isSome = true → (output env c res).calls = [Presenter.jq]) ∧
    (c.jq = none →
      (outputMimeType env c res = "application/json" →
        (output env c res).calls = [Presenter.json]) ∧
      (outputMimeType env c res = "application/xml" ∨ outputMimeType env c res = "text/xml" →
        (output env c res).calls = [Presenter.highlighted "xml"]) ∧
      (outputMimeType env c res = "text/html" →
        (output env c res).calls = [Presenter.highlighted "html"]) ∧
      (outputMimeType env c res = "image/png" ∨ outputMimeType env c res = "image/jpeg" ∨
          outputMimeType env c res = "image/gif" →
        (output env c res).calls = [Presenter.image]) ∧
      (outputMimeType env c res ∉ ["application/json", "application/xml", "text/xml",
          "text/html", "image/png", "image/jpeg", "image/gif"] →
        ((outputMimeType env c res).toList.takeWhile (fun ch => ch != '/') = "audio".toList ∨
         (outputMimeType env c res).toList.takeWhile (fun ch => ch != '/') = "video".toList →
          (output env c res).calls.head? = some Presenter.media) ∧
        (¬ ((outputMimeType env c res).toList.takeWhile (fun ch => ch != '/') = "audio".toList ∨
            (outputMimeType env c res).toList.takeWhile (fun ch => ch != '/') = "video".toList) →
          (output env c res).calls = [Presenter.raw]))) ∧
    (c.jq = none → c.forceType = "" →
      headerGet res.header "content-type" = "application/json" →
      (output env c res).calls = [Presenter.json]) := by
  refine ⟨?_, ?_, ?_⟩
  · intro hjq
    unfold output
    simp [hraw, hterm, hjq, outputWith]
  · intro hjq
    rw [output_by_mime env c res hraw hterm hjq, wrapRenderError_calls]
    refine ⟨?_, ?_, ?_, ?_, ?_⟩
    · intro hm
      simp [hm, outputWith]
    · intro hm
      rcases hm with hm | hm <;> simp [hm, outputWith]
    · intro hm
      simp [hm, outputWith]
    · intro hm
      rcases hm with hm | hm | hm <;> simp [hm, outputWith]
    · intro hm
      simp only [List.mem_cons, List.mem_singleton, List.not_mem_nil, or_false, not_or] at hm
      obtain ⟨h1, h2, h3, h4, h5, h6, h7⟩ := hm
      constructor
      · intro hav
        simp only [h1, h2, h3, h4, h5, h6, h7, or_self, if_false, hav, if_true]
        exact outputMedia_calls_head env c res
      · intro hav
        simp only [h1, h2, h3, h4, h5, h6, h7, or_self, if_false, hav]
        exact outputRaw_calls env c res
  · intro hjq hforce hhdr
    have hm : outputMimeType env c res = "application/json" := by
      unfold outputMimeType
      simp only [hforce, if_true, hhdr]
      rfl
    rw [output_by_mime env c res hraw hterm hjq, wrapRenderError_calls]
    simp [hm, outputWith]

/-- C12 at the JSON response of the concrete inputs and the default client: the
JSON presenter is entered. -/
theorem presenter_by_mime_type_witness :
    defaultClient.raw = false ∧ httpEnvTerm.isTerminal = true ∧
    outputMimeType httpEnvTerm defaultClient jsonResponse = "application/json" ∧
    (output httpEnvTerm defaultClient jsonResponse).calls = [Presenter.json] :=
  ⟨rfl, rfl, by decide,
   ((presenter_by_mime_type httpEnvTerm defaultClient jsonResponse rfl rfl).2.1 rfl).1
     (by decide)⟩

/-- C13, evaluated on the code: on an interactive terminal and not in raw mode,
the body is the letter `A` followed by a zero byte, which is not graphic, and
the reader hands it over in two reads. `outputRaw` inspects what its single
`Read` returned, the letter alone, and then copies the rest: both bytes reach
the output sink. Handed over in one read, the same body gives the warning
line. -/
theorem split_binary_body_is_written :
    (readerBytes splitBinaryResponse.body).take 1024 = [65, 0] ∧
    isGraphicByte 0 = false ∧
    (outputRaw httpEnvTerm defaultClient splitBinaryResponse).written = [65, 0] ∧
    (output httpEnvTerm defaultClient splitBinaryResponse).written = [65, 0] ∧
    (outputRaw httpEnvTerm defaultClient wholeBinaryResponse).written = binaryWarning := by
  decide

/-- C14: when the client is in raw mode or standard output is not a terminal,
whatever the jq filter, the forced type and the content type, `output` enters
the raw presenter only and writes to the output sink the bytes the body reader
hands over, none inspected and none left out; the error returned is the read
error of the body, if any. -/
theorem raw_mode_streams_body (env : HttpEnv) (c : Client) (res : Response)
    (h : c.raw = true ∨ env.isTerminal = false) :
    output env c res
      = { calls := [Presenter.raw], written := readerBytes res.body,
          err := readerError res.body } := by
  have h1 : c.raw = true ∨ (!env.isTerminal) = true := by
    rcases h with h | h
    · exact Or.inl h
    · right; simp [h]
  have h2 : ¬ ((!c.raw) = true ∧ env.isTerminal = true) := by
    rcases h with h | h
    · simp [h]
    · simp [h]
  unfold output
  simp only [h1, if_true]
  unfold outputRaw
  simp only [h2, if_false, ioCopy_eq]

/-- C14 at a body that holds a zero byte, in raw mode on a terminal. -/
theorem raw_mode_streams_body_witness :
    (({ defaultClient with raw := true } : Client).raw = true ∨
      httpEnvTerm.isTerminal = false) ∧
    output httpEnvTerm { defaultClient with raw := true } wholeBinaryResponse
      = { calls := [Presenter.raw], written := [65, 0], err := none } :=
  ⟨Or.inl rfl,
   raw_mode_streams_body httpEnvTerm { defaultClient with raw := true } wholeBinaryResponse
     (Or.inl rfl)⟩

/-- C15, the claim as stated fails: the response is declared `application/json`
and the JSON presenter fails. `Run` enters the JSON presenter only, writes
nothing to the output sink and returns the error of the presenter, wrapped:
there is no fall back to raw streaming. -/
theorem json_failure_fails_run :
    outputMimeType httpEnvTerm literalBodyClient
        { status := "200 OK", statusCode := 200,
          header := [("Content-Type", ["application/json"])],
          body := [{ bytes := [65], err := none }, { bytes := [0], err := none }] }
      = "application/json" ∧
    (Run httpEnvTerm literalBodyClient).calls = [Presenter.json] ∧
    (Run httpEnvTerm literalBodyClient).written = [] ∧
    (Run httpEnvTerm literalBodyClient).err
      = some "error while rendering response: response is not valid json" := by
  decide

/-- C15, amended: when the request is built and answered, `output` enters a single
presenter that is not the raw one (jq, JSON, a highlighter, image, or media with
`ffmpeg` installed) and that presenter returns an error, `Run` returns that
error, as it is for the jq presenter and prefixed with `error while rendering
response` for the others; the raw presenter is not entered and the output sink
holds what the failed presenter wrote. -/
theorem presenter_failure_fails_run (env : HttpEnv) (c : Client) (req : Request)
    (tr : Transport) (res : Response) (p : Presenter) (e : String)
    (hreq : buildRequest env c = Except.ok req) (htr : buildClient env c = Except.ok tr)
    (hdo : env.doRequest tr req = Except.ok res)
    (hcalls : (output env c res).calls = [p]) (hp : p ≠ Presenter.raw)
    (hfail : (env.render p c res).2 = some e) :
    ((Run env c).err = some e ∨
      (Run env c).err = some ("error while rendering response: " ++ e)) ∧
    (Run env c).calls = [p] ∧
    Presenter.raw ∉ (Run env c).calls ∧
    (Run env c).written = (env.render p c res).1 := by
  rw [Run_of_response env c req tr res hreq htr hdo]
  obtain ⟨hw, herr⟩ := output_single_presenter env c res p hcalls hp
  simp only []
  refine ⟨?_, hcalls, ?_, hw⟩
  · rcases herr with h | h
    · left; rw [h, hfail]
    · right; rw [h, hfail]; rfl
  · rw [hcalls]
    simp
    exact fun h => hp h.symm

/-- C15, amended, at the JSON failure of the concrete inputs. -/
theorem presenter_failure_fails_run_witness :
    ((Run httpEnvTerm literalBodyClient).err = some "response is not valid json" ∨
      (Run httpEnvTerm literalBodyClient).err
        = some ("error while rendering response: " ++ "response is not valid json")) ∧
    (Run httpEnvTerm literalBodyClient).calls = [Presenter.json] ∧
    Presenter.raw ∉ (Run httpEnvTerm literalBodyClient).calls ∧
    (Run httpEnvTerm literalBodyClient).written = [] :=
  presenter_failure_fails_run httpEnvTerm literalBodyClient _ _ _ Presenter.json
    "response is not valid json" rfl rfl rfl (by decide) (by decide) rfl

/-- C16: for a client built by `NewClient` from a list of options and a request
built from it, the values of every header are the value `setRequestHeaders`
generates for it, if any, followed by the values the `WithHeader` options gave
under that canonical name, in the order of the options. So the first
`User-Agent` value is `dsak/` and the version, the first `Accept` value is the
accept value when one is set, the first `Content-Type` value is the content type
when one is set, and every value of a `WithHeader` option is present. -/
theorem header_merge_order (env : HttpEnv) (uri : String) (opts : List ClientOption)
    (c : Client) (req : Request)
    (hnew : NewClient env uri opts = Except.ok c)
    (hreq : buildRequest env c = Except.ok req) :
    (∀ key, headerValues req.header key = generatedValues c key ++ userValues opts key) ∧
    headerGet req.header "User-Agent" = "dsak/" ++ GetFullVersion ∧
    (c.acccept ≠ "" → headerGet req.header "Accept" = c.acccept) ∧
    (c.contentType ≠ "" → headerGet req.header "Content-Type" = c.contentType) ∧
    (∀ name value, ClientOption.WithHeader name value ∈ opts →
      value ∈ headerValues req.header (canonicalKey name)) := by
  obtain ⟨c0, u, hopts, _, hc⟩ := NewClient_ok env uri opts c hnew
  obtain ⟨req0, h0, _, hr⟩ := buildRequest_ok env c req hreq
  obtain ⟨hwf, hv⟩ := applyOptions_headers env opts defaultClient c0 hopts
    ⟨by decide, by intro e he; cases he⟩
  have hheaders : c.headers = c0.headers := by rw [hc]
  have hall : ∀ key, headerValues req.header key
      = generatedValues c key ++ userValues opts key := by
    intro key
    rw [hr, setRequestHeaders_values c req0 h0, hheaders, valuesAddedFor_eq _ _ hwf, hv]
    simp [defaultClient, headerValues]
  refine ⟨hall, ?_, ?_, ?_, ?_⟩
  · unfold headerGet
    rw [show canonicalKey "User-Agent" = "User-Agent" by decide, hall]
    simp [generatedValues]
  · intro ha
    unfold headerGet
    rw [show canonicalKey "Accept" = "Accept" by decide, hall]
    simp [generatedValues, ha]
  · intro hct
    unfold headerGet
    rw [show canonicalKey "Content-Type" = "Content-Type" by decide, hall]
    simp [generatedValues, hct]
  · intro name value hmem
    rw [hall]
    apply List.mem_append_right
    unfold userValues
    rw [List.mem_filterMap]
    exact ⟨_, hmem, by simp⟩

/-- C16 at four options, two of them for the header `X-A` under different
spellings and one for `User-Agent`. -/
theorem header_merge_order_witness :
    NewClient httpEnvTerm "example.com"
        [ClientOption.WithHeader "x-a" "1", ClientOption.WithHeader "user-agent" "me",
         ClientOption.WithAccept "text/html", ClientOption.WithHeader "X-A" "2"]
      = Except.ok
          { defaultClient with
            acccept := "text/html"
            headers := [("X-A", ["1", "2"]), ("User-Agent", ["me"])]
            url := { scheme := "http", host := "example.com", hostname := "example.com",
                     text := "http://example.com" } } ∧
    (∃ req, buildRequest httpEnvTerm
        { defaultClient with
          acccept := "text/html"
          headers := [("X-A", ["1", "2"]), ("User-Agent", ["me"])]
          url := { scheme := "http", host := "example.com", hostname := "example.com",
                   text := "http://example.com" } } = Except.ok req ∧
      headerValues req.header "User-Agent" = ["dsak/0.0.0-dev", "me"] ∧
      headerValues req.header "X-A" = ["1", "2"] ∧
      headerGet req.header "User-Agent" = "dsak/" ++ GetFullVersion) :=
  ⟨rfl, _, rfl, rfl, rfl,
   (header_merge_order httpEnvTerm "example.com"
      [ClientOption.WithHeader "x-a" "1", ClientOption.WithHeader "user-agent" "me",
       ClientOption.WithAccept "text/html", ClientOption.WithHeader "X-A" "2"] _ _ rfl rfl).2.1⟩

/-- C17, evaluated on the code: the body is the literal content `hi`, not a
resource. `buildRequest` always wraps the body in a `*sizedBody`, of size 0 for
a body that is not a resource, so the type test of `setRequestHeaders` always
succeeds and the content length is 0, not -1. For a resource of size 42 it
is 42. -/
theorem literal_body_content_length_is_zero :
    (∃ req, buildRequest httpEnvTerm literalBodyClient = Except.ok req ∧
      req.body = ReqBody.sized (Body.reader [104, 105]) 0 ∧ req.contentLength = 0) ∧
    (∃ req, buildRequest httpEnvTerm { literalBodyClient with body := Body.resource 42 }
        = Except.ok req ∧ req.contentLength = 42) :=
  ⟨⟨_, rfl, rfl, rfl⟩, ⟨_, rfl, rfl⟩⟩

/-- C18: the option `WithMethod(m)` returns an error exactly when `m` is empty or
holds a character that is not an ASCII letter. When it succeeds the method of
the client is `m` in upper case and nothing else changes; when it fails the
client is unchanged. -/
theorem with_method_fails_iff (env : HttpEnv) (m : String) (c : Client) :
    ((ClientOption.apply env (ClientOption.WithMethod m) c).2 ≠ none ↔
      m = "" ∨ ∃ ch ∈ m.toList, isASCIILetter ch = false) ∧
    ((ClientOption.apply env (ClientOption.WithMethod m) c).2 = none →
      (ClientOption.apply env (ClientOption.WithMethod m) c).1
        = { c with method := String.mk (m.toList.map asciiUpper) }) ∧
    ((ClientOption.apply env (ClientOption.WithMethod m) c).2 ≠ none →
      (ClientOption.apply env (ClientOption.WithMethod m) c).1 = c) := by
  by_cases hm : m = ""
  · have : ClientOption.apply env (ClientOption.WithMethod m) c
        = (c, some "method cannot be empty") := by
      simp [ClientOption.apply, hm]
    rw [this]
    simp [hm]
  · by_cases hl : matchLetters m = true
    · have hall : m.toList.all isASCIILetter = true := by
        unfold matchLetters at hl
        simp only [Bool.and_eq_true] at hl
        exact hl.2
      have : ClientOption.apply env (ClientOption.WithMethod m) c
          = ({ c with method := String.mk (m.toList.map asciiUpper) }, none) := by
        simp only [ClientOption.apply, hm, if_false, hl, Bool.not_true, Bool.false_eq_true]
        rw [stringsToUpper_letters env.toUpperRune m.toList hall]
      rw [this]
      simp only [ne_eq, not_true_eq_false, false_iff, not_or, not_exists, not_and,
        Bool.not_eq_false, true_implies, false_implies, and_true]
      refine ⟨hm, ?_⟩
      intro ch hch
      rw [List.all_eq_true] at hall
      exact hall ch hch
    · have : ClientOption.apply env (ClientOption.WithMethod m) c
          = (c, some (m ++ ": invalid method")) := by
        simp [ClientOption.apply, hm, hl]
      rw [this]
      simp only [ne_eq, reduceCtorEq, not_false_eq_true, true_iff, false_implies, true_implies,
        and_true]
      right
      unfold matchLetters at hl
      have hne : m.toList ≠ [] := fun h => hm ((string_eq_empty_iff m).mpr h)
      have hnall : ¬ (∀ ch ∈ m.toList, isASCIILetter ch = true) := by
        intro hall
        apply hl
        rw [Bool.and_eq_true]
        refine ⟨?_, List.all_eq_true.mpr hall⟩
        cases hd : m.toList with
        | nil => exact absurd hd hne
        | cons a b => rfl
      by_contra hcon
      apply hnall
      intro ch hch
      by_contra hnot
      exact hcon ⟨ch, hch, by simpa using hnot⟩

/-- C18 at the methods `post`, accepted, and `GET` followed by a space,
refused. -/
theorem with_method_fails_iff_witness :
    (ClientOption.apply httpEnvTerm (ClientOption.WithMethod "post") defaultClient).2 = none ∧
    (ClientOption.apply httpEnvTerm (ClientOption.WithMethod "post") defaultClient).1
      = { defaultClient with method := "POST" } ∧
    (ClientOption.apply httpEnvTerm (ClientOption.WithMethod "GET ") defaultClient).2 ≠ none ∧
    (ClientOption.apply httpEnvTerm (ClientOption.WithMethod "GET ") defaultClient).1
      = defaultClient :=
  ⟨by decide,
   (with_method_fails_iff httpEnvTerm "post" defaultClient).2.1 (by decide),
   by decide,
   (with_method_fails_iff httpEnvTerm "GET " defaultClient).2.2 (by decide)⟩

/-- C19: a client returned by `NewClient` never has both protocol pins set, and a
list of options that holds both `WithForceHTTP1` and `WithForceHTTP2`, in any
order and among any other options, makes `NewClient` return an error. -/
theorem protocol_pins_exclusive (env : HttpEnv) (uri : String) (opts : List ClientOption) :
    (∀ c, NewClient env uri opts = Except.ok c →
      ¬ (c.forceHTTP1 = true ∧ c.forceHTTP2 = true)) ∧
    (ClientOption.WithForceHTTP1 ∈ opts → ClientOption.WithForceHTTP2 ∈ opts →
      ∃ e, NewClient env uri opts = Except.error e) := by
  have hex : ∀ c, NewClient env uri opts = Except.ok c →
      ¬ (c.forceHTTP1 = true ∧ c.forceHTTP2 = true) ∧
      (ClientOption.WithForceHTTP1 ∈ opts → c.forceHTTP1 = true) ∧
      (ClientOption.WithForceHTTP2 ∈ opts → c.forceHTTP2 = true) := by
    intro c h
    obtain ⟨c0, u, h0, _, hc⟩ := NewClient_ok env uri opts c h
    obtain ⟨_, _, b3, b4, b5⟩ := applyOptions_pins env opts defaultClient c0 h0
    subst hc
    exact ⟨b5 (by decide), b3, b4⟩
  refine ⟨fun c h => (hex c h).1, ?_⟩
  intro h1 h2
  cases hn : NewClient env uri opts with
  | error e => exact ⟨e, rfl⟩
  | ok c =>
    obtain ⟨a, b, d⟩ := hex c hn
    exact absurd ⟨b h1, d h2⟩ a

/-- C19 at the options `WithForceHTTP2` then `WithForceHTTP1`. -/
theorem protocol_pins_exclusive_witness :
    ClientOption.WithForceHTTP1 ∈ [ClientOption.WithForceHTTP2, ClientOption.WithForceHTTP1] ∧
    ClientOption.WithForceHTTP2 ∈ [ClientOption.WithForceHTTP2, ClientOption.WithForceHTTP1] ∧
    (∃ e, NewClient httpEnvTerm "example.com"
      [ClientOption.WithForceHTTP2, ClientOption.WithForceHTTP1] = Except.error e) :=
  ⟨by decide, by decide,
   (protocol_pins_exclusive httpEnvTerm "example.com"
     [ClientOption.WithForceHTTP2, ClientOption.WithForceHTTP1]).2 (by decide) (by decide)⟩

/-- C20, as the code has it: for a client with the HTTP/2 pin whose URL has the
scheme `http`, `buildTransport` returns its error, and `Run` returns an error
without reaching `client.Do` and without output; that error is the one of the
transport whenever the request itself could be built. What `Run` puts on the
network before it fails is what `wrapSizedBody` does: nothing, unless the body
is an HTTP resource that has no size stored, whose `Size` sends a `GET` to the
URL of the resource. For the scheme `https` the transport is built. A target
with no `://` is parsed with `http://` in front, so a client built for it has
the scheme `http`. -/
theorem http2_pin_on_plain_http_fails_before_request (env : HttpEnv) (c : Client) :
    (c.forceHTTP2 = true → c.url.scheme = "http" →
      buildTransport env c = Except.error errHTTP2RequiresTLS ∧
      (Run env c).sent = none ∧ (Run env c).calls = [] ∧ (Run env c).written = [] ∧
      (Run env c).err ≠ none ∧
      (∀ req, buildRequest env c = Except.ok req →
        (Run env c).err = some ("failed to build HTTP client: " ++
          ("failed to build HTTP transport: " ++ errHTTP2RequiresTLS))) ∧
      (∀ req, NetEvent.clientDo req ∉ (Run env c).network) ∧
      ((∀ url, c.body ≠ Body.httpResource url 0) → (Run env c).network = []) ∧
      (∀ url, c.body = Body.httpResource url 0 →
        (Run env c).network = [NetEvent.resourceGet url])) ∧
    (c.url.scheme = "https" → ∃ tr, buildTransport env c = Except.ok tr) ∧
    (∀ uri opts c2, stringsContains "://".toList uri.toList = false →
      NewClient env uri opts = Except.ok c2 → c2.url.scheme = "http") := by
  refine ⟨?_, ?_, ?_⟩
  · intro h2 hs
    have htr : buildTransport env c = Except.error errHTTP2RequiresTLS := by
      unfold buildTransport
      simp [h2, hs]
    have hcl : buildClient env c
        = Except.error ("failed to build HTTP transport: " ++ errHTTP2RequiresTLS) := by
      unfold buildClient
      rw [htr]
    have hprobe := wrapSizedBody_network env c.body
    refine ⟨htr, ?_⟩
    cases hreq : buildRequest env c with
    | error e =>
      have : Run env c = ⟨some ("failed to build HTTP request: " ++ e), none, [], [],
          (wrapSizedBody env c.body).2⟩ := by
        unfold Run; rw [hreq]
      rw [this]
      refine ⟨rfl, rfl, rfl, by simp, fun req h => (by cases h), hprobe.1, hprobe.2.1, hprobe.2.2⟩
    | ok req =>
      have : Run env c = ⟨some ("failed to build HTTP client: " ++
            ("failed to build HTTP transport: " ++ errHTTP2RequiresTLS)), none, [], [],
          (wrapSizedBody env c.body).2⟩ := by
        unfold Run; rw [hreq]; simp only []; rw [hcl]
      rw [this]
      refine ⟨rfl, rfl, rfl, by simp, fun _ _ => rfl, hprobe.1, hprobe.2.1, hprobe.2.2⟩
  · intro hs
    unfold buildTransport
    have : ¬ (c.forceHTTP2 = true ∧ c.url.scheme = "http") := by
      rw [hs]; simp
    rw [if_neg this]
    exact ⟨_, rfl⟩
  · intro uri opts c2 hbare hnew
    obtain ⟨c0, u, _, hu, hc⟩ := NewClient_ok env uri opts c2 hnew
    subst hc
    exact parseURL_bare_scheme env uri u hbare hu

/-- C20 at the bare target `example.com` with the option `WithForceHTTP2`. -/
theorem http2_pin_on_plain_http_fails_before_request_witness :
    NewClient httpEnvTerm "example.com" [ClientOption.WithForceHTTP2] = Except.ok http2Client ∧
    http2Client.forceHTTP2 = true ∧ http2Client.url.scheme = "http" ∧
    buildTransport httpEnvTerm http2Client = Except.error errHTTP2RequiresTLS ∧
    (Run httpEnvTerm http2Client).sent = none ∧
    (Run httpEnvTerm http2Client).err ≠ none ∧
    (Run httpEnvTerm http2Client).network = [] :=
  ⟨rfl, rfl, rfl,
   ((http2_pin_on_plain_http_fails_before_request httpEnvTerm http2Client).1 rfl rfl).1,
   ((http2_pin_on_plain_http_fails_before_request httpEnvTerm http2Client).1 rfl rfl).2.1,
   ((http2_pin_on_plain_http_fails_before_request httpEnvTerm http2Client).1 rfl rfl).2.2.2.2.1,
   ((http2_pin_on_plain_http_fails_before_request httpEnvTerm http2Client).1
      rfl rfl).2.2.2.2.2.2.2.1 (fun _ h => by cases h)⟩

/-- C20, the claim as stated fails on the code: the client is built for the bare
target `example.com` with the HTTP/2 pin and, as body, the HTTP resource
`http://files.test/body`, as the command does for `--request-body`. `Run` fails
on the transport, but `buildRequest` has run before and its `wrapSizedBody`
has asked the resource for its size, which sends a `GET` to its URL. -/
theorem http2_pin_with_http_resource_body_sends_get :
    NewClient httpEnvTerm "example.com"
        [ClientOption.WithBody (Body.httpResource "http://files.test/body" 0),
          ClientOption.WithForceHTTP2] = Except.ok http2ResourceClient ∧
    (Run httpEnvTerm http2ResourceClient).err
      = some ("failed to build HTTP client: " ++
          ("failed to build HTTP transport: " ++ errHTTP2RequiresTLS)) ∧
    (Run httpEnvTerm http2ResourceClient).sent = none ∧
    (Run httpEnvTerm http2ResourceClient).network
      = [NetEvent.resourceGet "http://files.test/body"] :=
  ⟨rfl, rfl, rfl, rfl⟩

/-! ## Lemmas for the report, the tree and the registry -/

theorem writeAll_spec (w : memoryWriter) (ps : List (List Nat))
    (h : (w.buffer.length : Int) ≤ w.maxSize) :
    ((writeAll w ps).buffer.length : Int) ≤ w.maxSize ∧ (writeAll w ps).maxSize = w.maxSize := by
  induction ps generalizing w with
  | nil => exact ⟨h, rfl⟩
  | cons p rest ih =>
    have hstep : writeAll w (p :: rest) = writeAll (w.Write p).1 rest := rfl
    rw [hstep]
    by_cases hbig : (w.buffer.length : Int) + (p.length : Int) > w.maxSize
    · have hw : (w.Write p).1 = w := by simp [memoryWriter.Write, hbig]
      rw [hw]
      exact ih w h
    · have hw : (w.Write p).1 = { w with buffer := w.buffer ++ p } := by
        simp [memoryWriter.Write, hbig]
      rw [hw]
      have := ih { w with buffer := w.buffer ++ p } (by
        simp only [List.length_append, Nat.cast_add]
        omega)
      exact this

theorem getConfigFileLoop_other (a : String) (rest : List String) (file : String)
    (h : a ≠ "--configfile") :
    getConfigFileLoop (a :: rest) file = getConfigFileLoop rest file := by
  cases rest <;> simp [getConfigFileLoop, h]

theorem getConfigFileLoop_flag (next : String) (rest : List String) (file : String) :
    getConfigFileLoop ("--configfile" :: next :: rest) file
      = getConfigFileLoop (next :: rest) next := by
  simp [getConfigFileLoop]

theorem getConfigFileLoop_no_flag (args : List String) (file : String)
    (h : "--configfile" ∉ args) : getConfigFileLoop args file = Except.ok file := by
  induction args generalizing file with
  | nil => rfl
  | cons a rest ih =>
    simp only [List.mem_cons, not_or] at h
    rw [getConfigFileLoop_other a rest file (fun e => h.1 e.symm)]
    exact ih file h.2

theorem getConfigFileLoop_last_flag (args : List String) (file : String)
    (h : args.getLast? = some "--configfile") :
    getConfigFileLoop args file = Except.error "--configfile requires an argument" := by
  induction args generalizing file with
  | nil => simp at h
  | cons a rest ih =>
    cases rest with
    | nil =>
      simp at h
      simp [getConfigFileLoop, h]
    | cons b rest2 =>
      have hl : (b :: rest2).getLast? = some "--configfile" := by
        simpa [List.getLast?_cons_cons] using h
      by_cases ha : a = "--configfile"
      · rw [ha, getConfigFileLoop_flag]
        exact ih b hl
      · rw [getConfigFileLoop_other a _ file ha]
        exact ih file hl

theorem getConfigFileLoop_after_flag (pre post : List String) (next file : String)
    (h : "--configfile" ∉ next :: post) :
    getConfigFileLoop (pre ++ "--configfile" :: next :: post) file = Except.ok next := by
  induction pre generalizing file with
  | nil =>
    simp only [List.nil_append]
    rw [getConfigFileLoop_flag]
    exact getConfigFileLoop_no_flag (next :: post) next h
  | cons a rest ih =>
    cases hrest : rest ++ "--configfile" :: next :: post with
    | nil => simp at hrest
    | cons b tl =>
      simp only [List.cons_append, hrest]
      by_cases ha : a = "--configfile"
      · rw [ha, getConfigFileLoop_flag, ← hrest]
        exact ih b
      · rw [getConfigFileLoop_other a _ file ha, ← hrest]
        exact ih file

theorem getConfigFileLoop_ok_last (args : List String) (file f : String)
    (h : getConfigFileLoop args file = Except.ok f) :
    args.getLast? ≠ some "--configfile" := by
  intro hl
  rw [getConfigFileLoop_last_flag args file hl] at h
  cases h

theorem IP.Equal_refl (a : IP) : IP.Equal a a = true := by
  simp [IP.Equal]

theorem IP.Equal_of_length_eq (a b : IP) (h : a.length = b.length) :
    IP.Equal a b = decide (a = b) := by
  simp [IP.Equal, h]

theorem IP.Equal_trans (a b c : IP) (hab : IP.Equal a b = true) (hbc : IP.Equal b c = true) :
    IP.Equal a c = true := by
  by_cases h1 : a.length = b.length
  · rw [IP.Equal_of_length_eq a b h1] at hab
    have : a = b := by simpa using hab
    rw [this]
    exact hbc
  · by_cases h2 : b.length = c.length
    · rw [IP.Equal_of_length_eq b c h2] at hbc
      have : b = c := by simpa using hbc
      rw [← this]
      exact hab
    · unfold IP.Equal at hab hbc
      rw [if_neg h1] at hab
      rw [if_neg h2] at hbc
      by_cases h3 : a.length = 4 ∧ b.length = 16
      · rw [if_pos h3] at hab
        have h4 : ¬ (b.length = 4 ∧ c.length = 16) := by omega
        rw [if_neg h4] at hbc
        by_cases h5 : b.length = 16 ∧ c.length = 4
        · rw [if_pos h5] at hbc
          simp only [Bool.and_eq_true, decide_eq_true_eq] at hab hbc
          have : a = c := by rw [hab.2, hbc.2]
          rw [this]
          exact IP.Equal_refl c
        · rw [if_neg h5] at hbc
          cases hbc
      · rw [if_neg h3] at hab
        by_cases h6 : a.length = 16 ∧ b.length = 4
        · rw [if_pos h6] at hab
          by_cases h7 : b.length = 4 ∧ c.length = 16
          · rw [if_pos h7] at hbc
            simp only [Bool.and_eq_true, decide_eq_true_eq] at hab hbc
            have : a = c := by
              rw [← List.take_append_drop 12 a, ← List.take_append_drop 12 c, hab.1, hbc.1,
                hab.2, hbc.2]
            rw [this]
            exact IP.Equal_refl c
          · rw [if_neg h7] at hbc
            have h8 : ¬ (b.length = 16 ∧ c.length = 4) := by omega
            rw [if_neg h8] at hbc
            cases hbc
        · rw [if_neg h6] at hab
          cases hab

/-- One step of a loop that appends an entry unless the list holds one that is
the same. -/
theorem firstOccurrences_fold {α : Type} (same : α → α → Bool)
    (htrans : ∀ a b c, same a b = true → same b c = true → same a c = true)
    (l : List α) (acc seen : List α)
    (hrep : ∀ z, seen.any (fun y => same y z) = acc.any (fun y => same y z)) :
    l.foldl (fun acc x => if acc.any (fun y => same y x) then acc else acc ++ [x]) acc
      = acc ++ firstOccurrencesFrom same seen l := by
  induction l generalizing acc seen with
  | nil => simp [firstOccurrencesFrom]
  | cons x rest ih =>
    rw [List.foldl_cons, firstOccurrencesFrom]
    by_cases hx : acc.any (fun y => same y x) = true
    · rw [if_pos hx, if_pos (by rw [hrep]; exact hx)]
      apply ih
      intro z
      rw [List.any_append, hrep z]
      cases hz : acc.any (fun y => same y z) with
      | true => simp
      | false =>
        simp only [List.any_cons, List.any_nil, Bool.or_false, Bool.false_or]
        cases hxz : same x z with
        | false => rfl
        | true =>
          obtain ⟨y, hy, hyx⟩ := List.any_eq_true.1 hx
          have : acc.any (fun y => same y z) = true :=
            List.any_eq_true.2 ⟨y, hy, htrans y x z hyx hxz⟩
          rw [this] at hz
          cases hz
    · rw [if_neg hx, if_neg (by rw [hrep]; exact hx)]
      rw [ih (acc ++ [x]) (seen ++ [x])]
      · simp
      · intro z
        rw [List.any_append, List.any_append, hrep z]

theorem firstOccurrencesFrom_pairwise {α : Type} (same : α → α → Bool) (l seen : List α) :
    (firstOccurrencesFrom same seen l).Pairwise (fun a b => same a b = false)
      ∧ ∀ x ∈ firstOccurrencesFrom same seen l, x ∈ l ∧ seen.any (fun y => same y x) = false := by
  induction l generalizing seen with
  | nil => simp [firstOccurrencesFrom]
  | cons x rest ih =>
    rw [firstOccurrencesFrom]
    obtain ⟨ih1, ih2⟩ := ih (seen ++ [x])
    have hrest : ∀ z ∈ firstOccurrencesFrom same (seen ++ [x]) rest,
        z ∈ x :: rest ∧ seen.any (fun y => same y z) = false ∧ same x z = false := by
      intro z hz
      obtain ⟨h1, h2⟩ := ih2 z hz
      rw [List.any_append] at h2
      simp only [List.any_cons, List.any_nil, Bool.or_false, Bool.or_eq_false_iff] at h2
      exact ⟨List.mem_cons_of_mem _ h1, h2.1, h2.2⟩
    by_cases hx : seen.any (fun y => same y x) = true
    · rw [if_pos hx]
      exact ⟨ih1, fun z hz => ⟨(hrest z hz).1, (hrest z hz).2.1⟩⟩
    · rw [if_neg hx]
      refine ⟨List.pairwise_cons.2 ⟨fun z hz => (hrest z hz).2.2, ih1⟩, ?_⟩
      intro z hz
      rcases List.mem_cons.1 hz with h | h
      · rw [h]
        exact ⟨List.mem_cons_self _ _, by simpa using hx⟩
      · exact ⟨(hrest z h).1, (hrest z h).2.1⟩

theorem firstOccurrencesFrom_covers {α : Type} (same : α → α → Bool)
    (hrefl : ∀ a, same a a = true)
    (htrans : ∀ a b c, same a b = true → same b c = true → same a c = true)
    (l seen : List α) (x : α) (hx : x ∈ l) :
    (∃ y ∈ seen, same y x = true) ∨ ∃ y ∈ firstOccurrencesFrom same seen l, same y x = true := by
  induction l generalizing seen with
  | nil => simp at hx
  | cons a rest ih =>
    rw [firstOccurrencesFrom]
    have key : (∃ y ∈ seen, same y x = true) ∨ same a x = true
        ∨ ∃ y ∈ firstOccurrencesFrom same (seen ++ [a]) rest, same y x = true := by
      rcases List.mem_cons.1 hx with h | h
      · exact Or.inr (Or.inl (by rw [h]; exact hrefl a))
      · rcases ih (seen ++ [a]) h with ⟨y, hy, hyx⟩ | h2
        · rcases List.mem_append.1 hy with h3 | h3
          · exact Or.inl ⟨y, h3, hyx⟩
          · simp only [List.mem_singleton] at h3
            exact Or.inr (Or.inl (by rw [← h3]; exact hyx))
        · exact Or.inr (Or.inr h2)
    by_cases ha : seen.any (fun y => same y a) = true
    · rw [if_pos ha]
      rcases key with h | h | h
      · exact Or.inl h
      · obtain ⟨y, hy, hya⟩ := List.any_eq_true.1 ha
        exact Or.inl ⟨y, hy, htrans y a x hya h⟩
      · exact Or.inr h
    · rw [if_neg ha]
      rcases key with h | h | h
      · exact Or.inl h
      · exact Or.inr ⟨a, List.mem_cons_self _ _, h⟩
      · obtain ⟨y, hy, hyx⟩ := h
        exact Or.inr ⟨y, List.mem_cons_of_mem _ hy, hyx⟩

theorem sans_components (certs : List Certificate) (a : List String) (b : List IP)
    (c : List String) :
    certs.foldl
      (fun (acc : List String × List IP × List String) cert =>
        (sansAddNames acc.1 cert.dnsNames, sansAddIPs acc.2.1 cert.ipAddresses,
          sansAddURLs acc.2.2 cert.uris))
      (a, b, c)
    = ((certs.flatMap (fun cert => cert.dnsNames)).foldl
          (fun names name => if names.any (fun y => y == name) then names else names ++ [name]) a,
        (certs.flatMap (fun cert => cert.ipAddresses)).foldl
          (fun ips givenIP =>
            if ips.any (fun ip => IP.Equal ip givenIP) then ips else ips ++ [givenIP]) b,
        (certs.flatMap (fun cert => cert.uris)).foldl
          (fun urls givenURL =>
            if urls.any (fun url => url == givenURL) then urls else urls ++ [givenURL]) c) := by
  induction certs generalizing a b c with
  | nil => rfl
  | cons cert rest ih =>
    rw [List.foldl_cons, ih]
    simp only [List.flatMap_cons, List.foldl_append]
    have hn : ∀ (names : List String) (l : List String), sansAddNames names l
        = l.foldl
          (fun names name => if names.any (fun y => y == name) then names else names ++ [name])
          names := by
      intro names l
      unfold sansAddNames
      congr 1
      funext names name
      have : names.contains name = names.any (fun y => y == name) := by
        rw [Bool.eq_iff_iff]
        simp [List.any_eq_true]
      rw [this]
      cases names.any (fun y => y == name) <;> rfl
    rw [hn]
    rfl

theorem reportsMatch_append (a b : List LogWrite) :
    reportsMatch (a ++ b) ↔ reportsMatch a ∨ reportsMatch b := by
  simp only [reportsMatch, List.mem_append]
  tauto

theorem reportsNoneValid_append (a b : List LogWrite) :
    reportsNoneValid (a ++ b) ↔ reportsNoneValid a ∨ reportsNoneValid b := by
  simp only [reportsNoneValid, List.mem_append]

theorem reportsNoSAN_append (a b : List LogWrite) :
    reportsNoSAN (a ++ b) ↔ reportsNoSAN a ∨ reportsNoSAN b := by
  simp only [reportsNoSAN, List.mem_append]

theorem doTrace_on (c : Client) (h : c.trace = true) (text : String) (attrs : List Attribute) :
    doTrace c text attrs = [LogWrite.print attrs text] := by
  simp [doTrace, h]

theorem doTracef_on (c : Client) (h : c.trace = true) (format : String) (args : List TraceArg)
    (attrs : List Attribute) :
    doTracef c format args attrs = [LogWrite.printf attrs format args] := by
  simp [doTracef, h]

theorem doTrace_off (c : Client) (h : c.trace = false) (text : String) (attrs : List Attribute) :
    doTrace c text attrs = [] := by
  simp [doTrace, h]

theorem doTracef_off (c : Client) (h : c.trace = false) (format : String) (args : List TraceArg)
    (attrs : List Attribute) :
    doTracef c format args attrs = [] := by
  simp [doTracef, h]

theorem quiet_names_header (c : Client) (names : List String) :
    logQuiet (traceInfo c "Certificate Subject Alternate Name domains are "
        ++ traceValuef c "%q\n" [TraceArg.strs names]) := by
  cases h : c.trace <;>
    simp [logQuiet, reportsMatch, reportsNoneValid, reportsNoSAN, traceInfo, traceValuef,
      doTrace, doTracef, h]

theorem quiet_ips_header (c : Client) (ips : List IP) :
    logQuiet (traceInfo c "Certificate Subject Alternate Name ips are "
        ++ traceValuef c "%q\n" [TraceArg.ips ips]) := by
  cases h : c.trace <;>
    simp [logQuiet, reportsMatch, reportsNoneValid, reportsNoSAN, traceInfo, traceValuef,
      doTrace, doTracef, h]

theorem quiet_urls_header (c : Client) (urls : List String) :
    logQuiet (traceInfo c "Certificate Subject Alternate Name uris are "
        ++ traceValuef c "%q\n" [TraceArg.strs urls]) := by
  cases h : c.trace <;>
    simp [logQuiet, reportsMatch, reportsNoneValid, reportsNoSAN, traceInfo, traceValuef,
      doTrace, doTracef, h]

theorem checkCertsNames_spec (cenv : CertsEnv) (c : Client) (hostname : String)
    (names : List String) :
    ((checkCertsNames cenv c hostname names).isSome ↔
      ∃ name ∈ names, ∃ m, globCompile cenv.globOther name = some m ∧ m hostname = true)
    ∧ ∀ found, checkCertsNames cenv c hostname names = some found →
        (c.trace = true → reportsMatch found ∧ ¬ reportsNoneValid found ∧ ¬ reportsNoSAN found)
        ∧ (c.trace = false → found = []) := by
  induction names with
  | nil => simp [checkCertsNames]
  | cons name rest ih =>
    cases hc : globCompile cenv.globOther name with
    | none =>
      have : checkCertsNames cenv c hostname (name :: rest)
          = checkCertsNames cenv c hostname rest := by
        simp [checkCertsNames, hc]
      rw [this]
      refine ⟨?_, ih.2⟩
      rw [ih.1]
      simp [hc]
    | some m =>
      by_cases hm : m hostname = true
      · have : checkCertsNames cenv c hostname (name :: rest)
            = some (traceInfo c "Certificate Subject Alternate Name domain " ++ traceValue c name
                ++ traceInfo c " matches hostname " ++ traceValueln c c.url.hostname) := by
          simp [checkCertsNames, hc, hm]
        rw [this]
        refine ⟨?_, ?_⟩
        · simp only [Option.isSome_some, true_iff]
          exact ⟨name, List.mem_cons_self _ _, m, hc, hm⟩
        · intro found hf
          cases hf
          constructor
          · intro h
            simp [reportsMatch, reportsNoneValid, reportsNoSAN, traceInfo, traceValue,
              traceValueln, doTrace, h]
          · intro h
            simp [traceInfo, traceValue, traceValueln, doTrace, h]
      · have : checkCertsNames cenv c hostname (name :: rest)
            = checkCertsNames cenv c hostname rest := by
          simp [checkCertsNames, hc, hm]
        rw [this]
        refine ⟨?_, ih.2⟩
        rw [ih.1]
        constructor
        · rintro ⟨n, hn, m2, h1, h2⟩
          exact ⟨n, List.mem_cons_of_mem _ hn, m2, h1, h2⟩
        · rintro ⟨n, hn, m2, h1, h2⟩
          rcases List.mem_cons.1 hn with h | h
          · rw [h, hc] at h1
            cases h1
            exact absurd h2 hm
          · exact ⟨n, h, m2, h1, h2⟩

theorem checkCertsIPs_spec (cenv : CertsEnv) (c : Client) (hostIP : IP) (ips : List IP) :
    ((checkCertsIPs cenv c hostIP ips).isSome ↔ ∃ ip ∈ ips, IP.Equal ip hostIP = true)
    ∧ ∀ found, checkCertsIPs cenv c hostIP ips = some found →
        (c.trace = true → reportsMatch found ∧ ¬ reportsNoneValid found ∧ ¬ reportsNoSAN found)
        ∧ (c.trace = false → found = []) := by
  induction ips with
  | nil => simp [checkCertsIPs]
  | cons ip rest ih =>
    by_cases he : IP.Equal ip hostIP = true
    · have : checkCertsIPs cenv c hostIP (ip :: rest)
          = some (traceInfo c "Certificate Subject Alternate Name ip "
              ++ traceValue c (cenv.ipString ip) ++ traceInfoln c " matches hostname") := by
        simp [checkCertsIPs, he]
      rw [this]
      refine ⟨?_, ?_⟩
      · simp only [Option.isSome_some, true_iff]
        exact ⟨ip, List.mem_cons_self _ _, he⟩
      · intro found hf
        cases hf
        constructor
        · intro h
          simp [reportsMatch, reportsNoneValid, reportsNoSAN, traceInfo, traceValue,
            traceInfoln, doTrace, h]
        · intro h
          simp [traceInfo, traceValue, traceInfoln, doTrace, h]
    · have : checkCertsIPs cenv c hostIP (ip :: rest) = checkCertsIPs cenv c hostIP rest := by
        simp [checkCertsIPs, he]
      rw [this]
      refine ⟨?_, ih.2⟩
      rw [ih.1]
      simp [he]

theorem checkCertsURLs_spec (c : Client) (givenURL : String) (urls : List String) :
    ((checkCertsURLs c givenURL urls).isSome ↔ ∃ url ∈ urls, url.toList <+: givenURL.toList)
    ∧ ∀ found, checkCertsURLs c givenURL urls = some found →
        (c.trace = true → reportsMatch found ∧ ¬ reportsNoneValid found ∧ ¬ reportsNoSAN found)
        ∧ (c.trace = false → found = []) := by
  induction urls with
  | nil => simp [checkCertsURLs]
  | cons url rest ih =>
    by_cases he : url.toList.isPrefixOf givenURL.toList = true
    · have : checkCertsURLs c givenURL (url :: rest)
          = some (traceInfo c "Certificate Subject Alternate Name uri " ++ traceValue c url
              ++ traceInfoln c " matches url") := by
        simp only [checkCertsURLs, he, Bool.not_true, Bool.false_eq_true, if_false]
      rw [this]
      refine ⟨?_, ?_⟩
      · simp only [Option.isSome_some, true_iff]
        exact ⟨url, List.mem_cons_self _ _, List.isPrefixOf_iff_prefix.1 he⟩
      · intro found hf
        cases hf
        constructor
        · intro h
          simp [reportsMatch, reportsNoneValid, reportsNoSAN, traceInfo, traceValue,
            traceInfoln, doTrace, h]
        · intro h
          simp [traceInfo, traceValue, traceInfoln, doTrace, h]
    · have he1 : url.toList.isPrefixOf givenURL.toList = false := Bool.eq_false_iff.2 he
      have : checkCertsURLs c givenURL (url :: rest) = checkCertsURLs c givenURL rest := by
        simp only [checkCertsURLs, he1, Bool.not_false, if_true]
      rw [this]
      refine ⟨?_, ih.2⟩
      rw [ih.1]
      have he2 : ¬ url.toList <+: givenURL.toList := fun h => he (List.isPrefixOf_iff_prefix.2 h)
      constructor
      · rintro ⟨u, hu, hp⟩
        exact ⟨u, List.mem_cons_of_mem _ hu, hp⟩
      · rintro ⟨u, hu, hp⟩
        rcases List.mem_cons.1 hu with h | h
        · rw [h] at hp
          exact absurd hp he2
        · exact ⟨u, h, hp⟩

theorem logQuiet_nil : logQuiet [] := by
  simp [logQuiet, reportsMatch, reportsNoneValid, reportsNoSAN]

theorem logQuiet_append (a b : List LogWrite) (ha : logQuiet a) (hb : logQuiet b) :
    logQuiet (a ++ b) := by
  obtain ⟨a1, a2, a3⟩ := ha
  obtain ⟨b1, b2, b3⟩ := hb
  refine ⟨?_, ?_, ?_⟩
  · rw [reportsMatch_append]
    exact fun h => h.elim a1 b1
  · rw [reportsNoneValid_append]
    exact fun h => h.elim a2 b2
  · rw [reportsNoSAN_append]
    exact fun h => h.elim a3 b3

theorem verdict_none_valid (pre post : List LogWrite) (P : Prop) (hpre : logQuiet pre)
    (hpost : reportsNoneValid post ∧ ¬ reportsMatch post ∧ ¬ reportsNoSAN post) (hno : ¬ P) :
    ¬ reportsNoSAN (pre ++ post) ∧ (reportsMatch (pre ++ post) ↔ P)
      ∧ (reportsNoneValid (pre ++ post) ↔ ¬ P) := by
  obtain ⟨a1, a2, a3⟩ := hpre
  obtain ⟨b1, b2, b3⟩ := hpost
  refine ⟨?_, ⟨?_, ?_⟩, ⟨?_, ?_⟩⟩
  · rw [reportsNoSAN_append]
    exact fun h => h.elim a3 b3
  · rw [reportsMatch_append]
    exact fun h => (h.elim a1 b2).elim
  · exact fun h => absurd h hno
  · exact fun _ => hno
  · rw [reportsNoneValid_append]
    exact fun _ => Or.inr b1

theorem verdict_match (pre post : List LogWrite) (P : Prop) (hpre : logQuiet pre)
    (hpost : reportsMatch post ∧ ¬ reportsNoneValid post ∧ ¬ reportsNoSAN post) (hyes : P) :
    ¬ reportsNoSAN (pre ++ post) ∧ (reportsMatch (pre ++ post) ↔ P)
      ∧ (reportsNoneValid (pre ++ post) ↔ ¬ P) := by
  obtain ⟨a1, a2, a3⟩ := hpre
  obtain ⟨b1, b2, b3⟩ := hpost
  refine ⟨?_, ⟨?_, ?_⟩, ⟨?_, ?_⟩⟩
  · rw [reportsNoSAN_append]
    exact fun h => h.elim a3 b3
  · exact fun _ => hyes
  · rw [reportsMatch_append]
    exact fun _ => Or.inr b1
  · rw [reportsNoneValid_append]
    exact fun h => (h.elim a2 b2).elim
  · exact fun h => absurd hyes h

theorem none_valid_line (c : Client) (h : c.trace = true) :
    reportsNoneValid (traceErrorln c "None of the Certificate Subject Alternate Name are valid")
    ∧ ¬ reportsMatch (traceErrorln c "None of the Certificate Subject Alternate Name are valid")
    ∧ ¬ reportsNoSAN (traceErrorln c "None of the Certificate Subject Alternate Name are valid") := by
  simp [reportsMatch, reportsNoneValid, reportsNoSAN, traceErrorln, doTrace, h]

theorem no_san_line (c : Client) (h : c.trace = true) :
    reportsNoSAN (traceErrorln c "Certificate has no Subject Alternate Name")
    ∧ ¬ reportsMatch (traceErrorln c "Certificate has no Subject Alternate Name")
    ∧ ¬ reportsNoneValid (traceErrorln c "Certificate has no Subject Alternate Name") := by
  simp [reportsMatch, reportsNoneValid, reportsNoSAN, traceErrorln, doTrace, h]

theorem checkCertsFromURLs_spec (c : Client) (urls : List String) (log : List LogWrite)
    (h : c.trace = true) (hq : logQuiet log) :
    ¬ reportsNoSAN (checkCertsFromURLs c urls log)
    ∧ (reportsMatch (checkCertsFromURLs c urls log)
        ↔ ∃ url ∈ urls, url.toList <+: c.url.text.toList)
    ∧ (reportsNoneValid (checkCertsFromURLs c urls log)
        ↔ ¬ ∃ url ∈ urls, url.toList <+: c.url.text.toList) := by
  by_cases hlen : urls.length > 0
  · have hq2 := logQuiet_append _ _ hq (quiet_urls_header c urls)
    obtain ⟨hs1, hs2⟩ := checkCertsURLs_spec c c.url.text urls
    cases hf : checkCertsURLs c c.url.text urls with
    | none =>
      have hr : checkCertsFromURLs c urls log
          = (log ++ (traceInfo c "Certificate Subject Alternate Name uris are "
            ++ traceValuef c "%q\n" [TraceArg.strs urls]))
            ++ traceErrorln c "None of the Certificate Subject Alternate Name are valid" := by
        simp only [checkCertsFromURLs, hlen, if_true, hf, List.append_assoc]
      have hno : ¬ ∃ url ∈ urls, url.toList <+: c.url.text.toList := by
        rw [← hs1, hf]
        simp
      rw [hr]
      exact verdict_none_valid _ _ _ hq2 (none_valid_line c h) hno
    | some found =>
      have hr : checkCertsFromURLs c urls log
          = (log ++ (traceInfo c "Certificate Subject Alternate Name uris are "
            ++ traceValuef c "%q\n" [TraceArg.strs urls])) ++ found := by
        simp only [checkCertsFromURLs, hlen, if_true, hf, List.append_assoc]
      have hyes : ∃ url ∈ urls, url.toList <+: c.url.text.toList := by
        rw [← hs1, hf]
        simp
      rw [hr]
      exact verdict_match _ _ _ hq2 ((hs2 found hf).1 h) hyes
  · have hr : checkCertsFromURLs c urls log
        = log ++ traceErrorln c "None of the Certificate Subject Alternate Name are valid" := by
      simp only [checkCertsFromURLs, hlen, if_false]
    have hnil : urls = [] := by
      cases urls with
      | nil => rfl
      | cons _ _ => simp at hlen
    have hno : ¬ ∃ url ∈ urls, url.toList <+: c.url.text.toList := by
      rw [hnil]
      simp
    rw [hr]
    exact verdict_none_valid _ _ _ hq (none_valid_line c h) hno

theorem checkCertsFromIPs_spec (cenv : CertsEnv) (c : Client) (hostname : String)
    (ips : List IP) (urls : List String) (log : List LogWrite) (h : c.trace = true)
    (hq : logQuiet log) :
    ¬ reportsNoSAN (checkCertsFromIPs cenv c hostname ips urls log)
    ∧ (reportsMatch (checkCertsFromIPs cenv c hostname ips urls log)
        ↔ (∃ hostIP, ParseIP hostname = some hostIP ∧ ∃ ip ∈ ips, IP.Equal ip hostIP = true)
          ∨ ∃ url ∈ urls, url.toList <+: c.url.text.toList)
    ∧ (reportsNoneValid (checkCertsFromIPs cenv c hostname ips urls log)
        ↔ ¬ ((∃ hostIP, ParseIP hostname = some hostIP ∧ ∃ ip ∈ ips, IP.Equal ip hostIP = true)
          ∨ ∃ url ∈ urls, url.toList <+: c.url.text.toList)) := by
  by_cases hlen : ips.length > 0
  · have hq2 := logQuiet_append _ _ hq (quiet_ips_header c ips)
    cases hp : ParseIP hostname with
    | none =>
      have hr : checkCertsFromIPs cenv c hostname ips urls log
          = checkCertsFromURLs c urls
              (log ++ (traceInfo c "Certificate Subject Alternate Name ips are "
                ++ traceValuef c "%q\n" [TraceArg.ips ips])) := by
        simp only [checkCertsFromIPs, hlen, if_true, hp, List.append_assoc]
      rw [hr]
      have := checkCertsFromURLs_spec c urls _ h hq2
      have hno : ¬ ∃ hostIP, none = some hostIP ∧ ∃ ip ∈ ips, IP.Equal ip hostIP = true := by
        rintro ⟨_, h1, _⟩
        cases h1
      rw [or_iff_right hno]
      exact this
    | some hostIP =>
      obtain ⟨hs1, hs2⟩ := checkCertsIPs_spec cenv c hostIP ips
      cases hf : checkCertsIPs cenv c hostIP ips with
      | none =>
        have hr : checkCertsFromIPs cenv c hostname ips urls log
            = checkCertsFromURLs c urls
                (log ++ (traceInfo c "Certificate Subject Alternate Name ips are "
                  ++ traceValuef c "%q\n" [TraceArg.ips ips])) := by
          simp only [checkCertsFromIPs, hlen, if_true, hp, hf, List.append_assoc]
        have hno : ¬ ∃ h2, some hostIP = some h2 ∧ ∃ ip ∈ ips, IP.Equal ip h2 = true := by
          rintro ⟨h2, h1, h3⟩
          cases h1
          rw [← hs1, hf] at h3
          cases h3
        rw [hr, or_iff_right hno]
        exact checkCertsFromURLs_spec c urls _ h hq2
      | some found =>
        have hr : checkCertsFromIPs cenv c hostname ips urls log
            = (log ++ (traceInfo c "Certificate Subject Alternate Name ips are "
                ++ traceValuef c "%q\n" [TraceArg.ips ips])) ++ found := by
          simp only [checkCertsFromIPs, hlen, if_true, hp, hf, List.append_assoc]
        have hyes : (∃ h2, some hostIP = some h2 ∧ ∃ ip ∈ ips, IP.Equal ip h2 = true)
            ∨ ∃ url ∈ urls, url.toList <+: c.url.text.toList := by
          refine Or.inl ⟨hostIP, rfl, ?_⟩
          rw [← hs1, hf]
          rfl
        rw [hr]
        exact verdict_match _ _ _ hq2 ((hs2 found hf).1 h) hyes
  · have hr : checkCertsFromIPs cenv c hostname ips urls log = checkCertsFromURLs c urls log := by
      simp only [checkCertsFromIPs, hlen, if_false]
    have hnil : ips = [] := by
      cases ips with
      | nil => rfl
      | cons _ _ => simp at hlen
    have hno : ¬ ∃ hostIP, ParseIP hostname = some hostIP
        ∧ ∃ ip ∈ ips, IP.Equal ip hostIP = true := by
      rw [hnil]
      simp
    rw [hr, or_iff_right hno]
    exact checkCertsFromURLs_spec c urls log h hq

theorem checkCertsFromURLs_off (c : Client) (urls : List String) (log : List LogWrite)
    (h : c.trace = false) : checkCertsFromURLs c urls log = log := by
  have h1 : ∀ t, traceInfo c t = [] := fun t => doTrace_off c h _ _
  have h2 : ∀ f a, traceValuef c f a = [] := fun f a => doTracef_off c h _ _ _
  have h3 : ∀ t, traceErrorln c t = [] := fun t => doTrace_off c h _ _
  by_cases hlen : urls.length > 0
  · cases hf : checkCertsURLs c c.url.text urls with
    | none => simp only [checkCertsFromURLs, hlen, if_true, hf, h1, h2, h3, List.append_nil]
    | some found =>
      have := ((checkCertsURLs_spec c c.url.text urls).2 found hf).2 h
      simp only [checkCertsFromURLs, hlen, if_true, hf, h1, h2, this, List.append_nil]
  · simp only [checkCertsFromURLs, hlen, if_false, h3, List.append_nil]

theorem checkCertsFromIPs_off (cenv : CertsEnv) (c : Client) (hostname : String)
    (ips : List IP) (urls : List String) (log : List LogWrite) (h : c.trace = false) :
    checkCertsFromIPs cenv c hostname ips urls log = log := by
  have h1 : ∀ t, traceInfo c t = [] := fun t => doTrace_off c h _ _
  have h2 : ∀ f a, traceValuef c f a = [] := fun f a => doTracef_off c h _ _ _
  by_cases hlen : ips.length > 0
  · cases hp : ParseIP hostname with
    | none =>
      simp only [checkCertsFromIPs, hlen, if_true, hp, h1, h2, List.append_nil]
      exact checkCertsFromURLs_off c urls log h
    | some hostIP =>
      cases hf : checkCertsIPs cenv c hostIP ips with
      | none =>
        simp only [checkCertsFromIPs, hlen, if_true, hp, hf, h1, h2, List.append_nil]
        exact checkCertsFromURLs_off c urls log h
      | some found =>
        have := ((checkCertsIPs_spec cenv c hostIP ips).2 found hf).2 h
        simp only [checkCertsFromIPs, hlen, if_true, hp, hf, h1, h2, this, List.append_nil]
  · simp only [checkCertsFromIPs, hlen, if_false]
    exact checkCertsFromURLs_off c urls log h

theorem stringsSplit_ne_nil (sep : Char) (s : List Char) : stringsSplit sep s ≠ [] := by
  induction s with
  | nil => simp [stringsSplit]
  | cons c cs ih =>
    rw [stringsSplit]
    by_cases h : c = sep
    · simp [h]
    · rw [if_neg h]
      cases hs : stringsSplit sep cs with
      | nil => simp
      | cons p ps => simp

theorem stringsSplit_sep_free (sep : Char) (s : List Char) :
    ∀ p ∈ stringsSplit sep s, sep ∉ p := by
  induction s with
  | nil => simp [stringsSplit]
  | cons c cs ih =>
    rw [stringsSplit]
    by_cases h : c = sep
    · rw [if_pos h]
      intro p hp
      rcases List.mem_cons.1 hp with hp | hp
      · rw [hp]; simp
      · exact ih p hp
    · rw [if_neg h]
      cases hs : stringsSplit sep cs with
      | nil => exact absurd hs (stringsSplit_ne_nil sep cs)
      | cons q qs =>
        rw [hs] at ih
        intro p hp
        rcases List.mem_cons.1 hp with hp | hp
        · rw [hp]
          intro hmem
          rcases List.mem_cons.1 hmem with h1 | h1
          · exact h h1.symm
          · exact ih q (List.mem_cons_self _ _) h1
        · exact ih p (List.mem_cons_of_mem _ hp)

theorem stringsSplit_free (sep : Char) (a : List Char) (h : sep ∉ a) :
    stringsSplit sep a = [a] := by
  induction a with
  | nil => rfl
  | cons c cs ih =>
    have hc : c ≠ sep := fun e => h (by rw [e]; exact List.mem_cons_self _ _)
    have hcs : sep ∉ cs := fun e => h (List.mem_cons_of_mem _ e)
    rw [stringsSplit, if_neg hc, ih hcs]

theorem stringsSplit_append_sep (sep : Char) (a t : List Char) (h : sep ∉ a) :
    stringsSplit sep (a ++ sep :: t) = a :: stringsSplit sep t := by
  induction a with
  | nil => simp [stringsSplit]
  | cons c cs ih =>
    have hc : c ≠ sep := fun e => h (by rw [e]; exact List.mem_cons_self _ _)
    have hcs : sep ∉ cs := fun e => h (List.mem_cons_of_mem _ e)
    rw [List.cons_append, stringsSplit, if_neg hc, ih hcs]

theorem stringsSplit_join (sep : Char) (l : List (List Char)) (hne : l ≠ [])
    (hfree : ∀ p ∈ l, sep ∉ p) : stringsSplit sep (stringsJoin sep l) = l := by
  induction l with
  | nil => exact absurd rfl hne
  | cons a rest ih =>
    cases rest with
    | nil =>
      rw [stringsJoin]
      exact stringsSplit_free sep a (hfree a (List.mem_cons_self _ _))
    | cons b rest2 =>
      rw [stringsJoin, stringsSplit_append_sep sep a _ (hfree a (List.mem_cons_self _ _)),
        ih (by simp) (fun p hp => hfree p (List.mem_cons_of_mem _ hp))]

/-- The parent of a name of two parts or more has one part less. -/
theorem parentName_level (name : String) (h : 2 ≤ (stringsSplit '>' name.toList).length) :
    (stringsSplit '>' (parentName name).toList).length + 1
      = (stringsSplit '>' name.toList).length := by
  have hne : (stringsSplit '>' name.toList).dropLast ≠ [] := by
    intro e
    have := congrArg List.length e
    simp only [List.length_dropLast, List.length_nil] at this
    omega
  have hfree : ∀ p ∈ (stringsSplit '>' name.toList).dropLast, '>' ∉ p := fun p hp =>
    stringsSplit_sep_free '>' name.toList p (List.dropLast_subset _ hp)
  have : (parentName name).toList = stringsJoin '>' (stringsSplit '>' name.toList).dropLast := rfl
  rw [this, stringsSplit_join '>' _ hne hfree, List.length_dropLast]
  omega

theorem parentName_level_one (name : String) (h : (stringsSplit '>' name.toList).length = 1) :
    parentName name = "" := by
  unfold parentName
  cases hs : stringsSplit '>' name.toList with
  | nil => rfl
  | cons a rest =>
    rw [hs] at h
    cases rest with
    | nil => rfl
    | cons b rest2 => simp at h

theorem mapLookup_isSome {β : Type} (m : List (String × β)) (k : String) :
    (mapLookup m k).isSome ↔ k ∈ m.map Prod.fst := by
  induction m with
  | nil => simp [mapLookup]
  | cons e rest ih =>
    rw [mapLookup]
    by_cases h : e.1 = k
    · simp [h]
    · rw [if_neg h, ih]
      simp only [List.map_cons, List.mem_cons]
      constructor
      · exact fun hm => Or.inr hm
      · rintro (hm | hm)
        · exact absurd hm.symm h
        · exact hm

theorem mapLookup_store {β : Type} (m : List (String × β)) (k k2 : String) (v : β) :
    mapLookup (mapStore m k v) k2 = if k2 = k then some v else mapLookup m k2 := by
  induction m with
  | nil =>
    simp only [mapStore, mapLookup]
    by_cases h : k = k2
    · simp [h]
    · have : ¬ k2 = k := fun e => h e.symm
      simp [h, this]
  | cons e rest ih =>
    rw [mapStore]
    by_cases h : e.1 = k
    · rw [if_pos h]
      by_cases h2 : k2 = k
      · simp [mapLookup, h2]
      · have h3 : ¬ e.1 = k2 := fun e2 => h2 (by rw [← e2, h])
        have h4 : ¬ k = k2 := fun e2 => h2 e2.symm
        simp [mapLookup, h2, h3, h4]
    · rw [if_neg h]
      by_cases h2 : e.1 = k2
      · have h3 : ¬ k2 = k := fun e2 => h (by rw [h2, e2])
        simp [mapLookup, h2, h3]
      · simp only [mapLookup, h2, if_false]
        exact ih

theorem mapStore_keys {β : Type} (m : List (String × β)) (k : String) (v : β) :
    ((mapStore m k v).map Prod.fst).Nodup ↔ (m.map Prod.fst).Nodup := by
  have hmem : ∀ (m : List (String × β)) (x : String),
      x ∈ (mapStore m k v).map Prod.fst ↔ x = k ∨ x ∈ m.map Prod.fst := by
    intro m x
    rw [← mapLookup_isSome, mapLookup_store, ← mapLookup_isSome]
    by_cases h : x = k <;> simp [h]
  induction m with
  | nil => simp [mapStore]
  | cons e rest ih =>
    rw [mapStore]
    by_cases h : e.1 = k
    · rw [if_pos h]
      simp only [List.map_cons, List.nodup_cons, h]
    · rw [if_neg h]
      simp only [List.map_cons, List.nodup_cons, ih, hmem rest e.1, not_or]
      constructor
      · exact fun hh => ⟨hh.1.2, hh.2⟩
      · exact fun hh => ⟨⟨h, hh.1⟩, hh.2⟩

theorem mapStore_mem {β : Type} (m : List (String × β)) (k x : String) (v : β) :
    x ∈ (mapStore m k v).map Prod.fst ↔ x = k ∨ x ∈ m.map Prod.fst := by
  rw [← mapLookup_isSome, mapLookup_store, ← mapLookup_isSome]
  by_cases h : x = k <;> simp [h]

theorem leveledGet_append (l : List (Nat × List String)) (n m : Nat) (x : String) :
    leveledGet (leveledAppend l n x) m
      = if m = n then leveledGet l n ++ [x] else leveledGet l m := by
  induction l with
  | nil =>
    simp only [leveledAppend, leveledGet]
    by_cases h : n = m
    · simp [h]
    · have : ¬ m = n := fun e => h e.symm
      simp [h, this]
  | cons e rest ih =>
    rw [leveledAppend]
    by_cases h : e.1 = n
    · rw [if_pos h]
      by_cases h2 : m = n
      · simp [leveledGet, h2, h]
      · have h3 : ¬ e.1 = m := fun e2 => h2 (by rw [← e2, h])
        simp [leveledGet, h2, h3]
    · rw [if_neg h]
      by_cases h2 : e.1 = m
      · have h3 : ¬ m = n := fun e2 => h (by rw [h2, e2])
        simp [leveledGet, h2, h3, h]
      · simp only [leveledGet, h2, if_false, h]
        exact ih

theorem leveledAppend_keys (l : List (Nat × List String)) (n k : Nat) (x : String) :
    k ∈ (leveledAppend l n x).map Prod.fst ↔ k = n ∨ k ∈ l.map Prod.fst := by
  induction l with
  | nil => simp [leveledAppend]
  | cons e rest ih =>
    rw [leveledAppend]
    by_cases h : e.1 = n
    · rw [if_pos h]
      simp only [List.map_cons, List.mem_cons, h]
      tauto
    · rw [if_neg h]
      simp only [List.map_cons, List.mem_cons, ih]
      tauto

theorem buildLeveled_fold (cmds : List (String × registeredCommand))
    (acc : List (Nat × List String)) :
    (∀ n name,
      name ∈ leveledGet (cmds.foldl
          (fun leveled e =>
            if e.1 = "" then leveled
            else leveledAppend leveled (stringsSplit '>' e.1.toList).length e.1) acc) n
        ↔ name ∈ leveledGet acc n
          ∨ (name ∈ cmds.map Prod.fst ∧ name ≠ "" ∧ (stringsSplit '>' name.toList).length = n))
    ∧ (∀ n,
      n ∈ (cmds.foldl
          (fun leveled e =>
            if e.1 = "" then leveled
            else leveledAppend leveled (stringsSplit '>' e.1.toList).length e.1) acc).map Prod.fst
        ↔ n ∈ acc.map Prod.fst
          ∨ ∃ name ∈ cmds.map Prod.fst, name ≠ "" ∧ (stringsSplit '>' name.toList).length = n) := by
  induction cmds generalizing acc with
  | nil => simp
  | cons e rest ih =>
    rw [List.foldl_cons]
    by_cases he : e.1 = ""
    · rw [if_pos he]
      obtain ⟨ih1, ih2⟩ := ih acc
      constructor
      · intro n name
        rw [ih1]
        simp only [List.map_cons, List.mem_cons]
        constructor
        · rintro (h | ⟨h1, h2, h3⟩)
          · exact Or.inl h
          · exact Or.inr ⟨Or.inr h1, h2, h3⟩
        · rintro (h | ⟨h1 | h1, h2, h3⟩)
          · exact Or.inl h
          · exact absurd (h1.trans he) h2
          · exact Or.inr ⟨h1, h2, h3⟩
      · intro n
        rw [ih2]
        simp only [List.map_cons, List.mem_cons]
        constructor
        · rintro (h | ⟨name, h1, h2, h3⟩)
          · exact Or.inl h
          · exact Or.inr ⟨name, Or.inr h1, h2, h3⟩
        · rintro (h | ⟨name, h1 | h1, h2, h3⟩)
          · exact Or.inl h
          · exact absurd (h1.trans he) h2
          · exact Or.inr ⟨name, h1, h2, h3⟩
    · rw [if_neg he]
      obtain ⟨ih1, ih2⟩ := ih (leveledAppend acc (stringsSplit '>' e.1.toList).length e.1)
      constructor
      · intro n name
        rw [ih1, leveledGet_append]
        simp only [List.map_cons, List.mem_cons]
        by_cases hn : n = (stringsSplit '>' e.1.toList).length
        · rw [if_pos hn, List.mem_append, List.mem_singleton]
          constructor
          · rintro ((h | h) | ⟨h1, h2, h3⟩)
            · exact Or.inl (by rw [hn]; exact h)
            · exact Or.inr ⟨Or.inl h, by rw [h]; exact he, by rw [h]; exact hn.symm⟩
            · exact Or.inr ⟨Or.inr h1, h2, h3⟩
          · rintro (h | ⟨h1 | h1, h2, h3⟩)
            · exact Or.inl (Or.inl (by rw [← hn]; exact h))
            · exact Or.inl (Or.inr h1)
            · exact Or.inr ⟨h1, h2, h3⟩
        · rw [if_neg hn]
          constructor
          · rintro (h | ⟨h1, h2, h3⟩)
            · exact Or.inl h
            · exact Or.inr ⟨Or.inr h1, h2, h3⟩
          · rintro (h | ⟨h1 | h1, h2, h3⟩)
            · exact Or.inl h
            · exact absurd (by rw [← h3, h1]) hn
            · exact Or.inr ⟨h1, h2, h3⟩
      · intro n
        rw [ih2, leveledAppend_keys]
        simp only [List.map_cons, List.mem_cons]
        constructor
        · rintro ((h | h) | ⟨name, h1, h2, h3⟩)
          · exact Or.inr ⟨e.1, Or.inl rfl, he, h.symm⟩
          · exact Or.inl h
          · exact Or.inr ⟨name, Or.inr h1, h2, h3⟩
        · rintro (h | ⟨name, h1 | h1, h2, h3⟩)
          · exact Or.inl (Or.inr h)
          · exact Or.inl (Or.inl (by rw [← h3, h1]))
          · exact Or.inr ⟨name, h1, h2, h3⟩

theorem buildLeveled_get (commands : List (String × registeredCommand)) (n : Nat)
    (name : String) :
    name ∈ leveledGet (buildLeveled commands) n
      ↔ name ∈ commands.map Prod.fst ∧ name ≠ ""
        ∧ (stringsSplit '>' name.toList).length = n := by
  unfold buildLeveled
  rw [(buildLeveled_fold commands []).1]
  simp [leveledGet]

theorem buildLeveled_keys (commands : List (String × registeredCommand)) (n : Nat) :
    n ∈ (buildLeveled commands).map Prod.fst
      ↔ ∃ name ∈ commands.map Prod.fst, name ≠ ""
        ∧ (stringsSplit '>' name.toList).length = n := by
  unfold buildLeveled
  rw [(buildLeveled_fold commands []).2]
  simp

theorem addCommand_eq (commands : List (String × registeredCommand)) (st : TreeState)
    (command : String) :
    addCommand commands (stringsSplit '>' command.toList).length st command
      = match mapLookup st.cmds (parentName command) with
        | none => Except.error ("parent command of " ++ command ++ " not found")
        | some parent =>
          match mapLookup commands command with
          | none => Except.error "invalid memory address or nil pointer dereference"
          | some r =>
            Except.ok
              { cmds := mapStore st.cmds command r.creator,
                attached := st.attached ++ [(parent, r.creator)] } := by
  unfold addCommand
  by_cases h : (stringsSplit '>' command.toList).length = 1
  · simp only [h, if_true]
    rw [parentName_level_one command h]
  · simp only [h, if_false]
    rfl

theorem addCommand_ok (commands : List (String × registeredCommand)) (st st2 : TreeState)
    (command : String)
    (h : addCommand commands (stringsSplit '>' command.toList).length st command
      = Except.ok st2) :
    ∃ parent r, mapLookup st.cmds (parentName command) = some parent
      ∧ mapLookup commands command = some r
      ∧ st2 = { cmds := mapStore st.cmds command r.creator,
                attached := st.attached ++ [(parent, r.creator)] } := by
  rw [addCommand_eq] at h
  cases hp : mapLookup st.cmds (parentName command) with
  | none =>
    rw [hp] at h
    cases h
  | some parent =>
    rw [hp] at h
    cases hr : mapLookup commands command with
    | none =>
      rw [hr] at h
      cases h
    | some r =>
      rw [hr] at h
      simp only [Except.ok.injEq] at h
      exact ⟨parent, r, rfl, rfl, h.symm⟩

theorem addCommand_keys (commands : List (String × registeredCommand)) (st st2 : TreeState)
    (command : String)
    (h : addCommand commands (stringsSplit '>' command.toList).length st command
      = Except.ok st2) (k : String) :
    k ∈ st2.cmds.map Prod.fst ↔ k = command ∨ k ∈ st.cmds.map Prod.fst := by
  obtain ⟨parent, r, _, _, hst⟩ := addCommand_ok commands st st2 command h
  rw [hst]
  exact mapStore_mem st.cmds command k r.creator

theorem addCommand_sound (commands : List (String × registeredCommand)) (st st2 : TreeState)
    (command : String)
    (h : addCommand commands (stringsSplit '>' command.toList).length st command
      = Except.ok st2)
    (hinv : treeInv commands st.cmds st.attached) (hkey : command ∈ commands.map Prod.fst) :
    treeInv commands st2.cmds st2.attached := by
  obtain ⟨parent, r, hp, hr, hst⟩ := addCommand_ok commands st st2 command h
  obtain ⟨i1, i2, i3, i4⟩ := hinv
  have hstable : ∀ k c, mapLookup st.cmds k = some c →
      mapLookup (mapStore st.cmds command r.creator) k = some c := by
    intro k c hk
    rw [mapLookup_store]
    by_cases hkc : k = command
    · rw [if_pos hkc]
      obtain ⟨r2, h1, h2⟩ := i3 k c hk
      rw [hkc, hr] at h1
      cases h1
      rw [h2]
    · rw [if_neg hkc]
      exact hk
  rw [hst]
  refine ⟨(mapStore_keys st.cmds command r.creator).2 i1, ?_, ?_, ?_⟩
  · intro k hk
    rcases (mapStore_mem st.cmds command k r.creator).1 hk with h1 | h1
    · rw [h1]; exact hkey
    · exact i2 k h1
  · intro k c hk
    rw [mapLookup_store] at hk
    by_cases hkc : k = command
    · rw [if_pos hkc] at hk
      cases hk
      exact ⟨r, by rw [hkc]; exact hr, rfl⟩
    · rw [if_neg hkc] at hk
      exact i3 k c hk
  · intro k hk hne
    by_cases hkc : k = command
    · refine ⟨parent, r.creator, ?_, ?_, ?_⟩
      · rw [hkc]
        exact hstable _ _ hp
      · rw [hkc, mapLookup_store, if_pos rfl]
      · simp
    · have hk2 : k ∈ st.cmds.map Prod.fst := by
        rcases (mapStore_mem st.cmds command k r.creator).1 hk with h1 | h1
        · exact absurd h1 hkc
        · exact h1
      obtain ⟨p, c, h1, h2, h3⟩ := i4 k hk2 hne
      exact ⟨p, c, hstable _ _ h1, hstable _ _ h2, List.mem_append_left _ h3⟩

theorem addCommands_sound (commands : List (String × registeredCommand)) (level : Nat)
    (l : List String) (st st2 : TreeState)
    (hl : ∀ x ∈ l, x ∈ commands.map Prod.fst ∧ (stringsSplit '>' x.toList).length = level)
    (h : addCommands commands level l st = Except.ok st2)
    (hinv : treeInv commands st.cmds st.attached) :
    treeInv commands st2.cmds st2.attached
      ∧ ∀ k, k ∈ st2.cmds.map Prod.fst ↔ k ∈ l ∨ k ∈ st.cmds.map Prod.fst := by
  induction l generalizing st with
  | nil =>
    simp only [addCommands, Except.ok.injEq] at h
    rw [← h]
    exact ⟨hinv, by simp⟩
  | cons x rest ih =>
    have hx := hl x (List.mem_cons_self _ _)
    rw [addCommands] at h
    cases hs : addCommand commands level st x with
    | error e =>
      rw [hs] at h
      cases h
    | ok st1 =>
      rw [hs] at h
      simp only at h
      rw [← hx.2] at hs
      have hinv1 := addCommand_sound commands st st1 x hs hinv hx.1
      obtain ⟨k1, k2⟩ := ih st1 (fun y hy => hl y (List.mem_cons_of_mem _ hy)) h hinv1
      refine ⟨k1, fun k => ?_⟩
      rw [k2, addCommand_keys commands st st1 x hs, List.mem_cons]
      tauto

theorem addLevels_sound (commands : List (String × registeredCommand)) (rem : List Nat)
    (st st2 : TreeState)
    (h : addLevels commands (buildLeveled commands) rem st = Except.ok st2)
    (hinv : treeInv commands st.cmds st.attached) :
    treeInv commands st2.cmds st2.attached
      ∧ ∀ k, k ∈ st2.cmds.map Prod.fst ↔
          (k ∈ commands.map Prod.fst ∧ k ≠ "" ∧ (stringsSplit '>' k.toList).length ∈ rem)
            ∨ k ∈ st.cmds.map Prod.fst := by
  induction rem generalizing st with
  | nil =>
    simp only [addLevels, Except.ok.injEq] at h
    rw [← h]
    exact ⟨hinv, by simp⟩
  | cons level rest ih =>
    rw [addLevels] at h
    cases hs : addCommands commands level (leveledGet (buildLeveled commands) level) st with
    | error e =>
      rw [hs] at h
      cases h
    | ok st1 =>
      rw [hs] at h
      simp only at h
      obtain ⟨j1, j2⟩ := addCommands_sound commands level _ st st1
        (fun x hx => ⟨((buildLeveled_get commands level x).1 hx).1,
          ((buildLeveled_get commands level x).1 hx).2.2⟩) hs hinv
      obtain ⟨k1, k2⟩ := ih st1 h j1
      refine ⟨k1, fun k => ?_⟩
      rw [k2, j2, buildLeveled_get, List.mem_cons]
      constructor
      · rintro (⟨h1, h2, h3⟩ | ⟨h1, h2, h3⟩ | h1)
        · exact Or.inl ⟨h1, h2, Or.inr h3⟩
        · exact Or.inl ⟨h1, h2, Or.inl h3⟩
        · exact Or.inr h1
      · rintro (⟨h1, h2, h3 | h3⟩ | h1)
        · exact Or.inr (Or.inl ⟨h1, h2, h3⟩)
        · exact Or.inl ⟨h1, h2, h3⟩
        · exact Or.inr (Or.inr h1)

theorem addCommands_success (commands : List (String × registeredCommand)) (level : Nat)
    (l : List String) (st : TreeState)
    (hl : ∀ x ∈ l, x ∈ commands.map Prod.fst ∧ (stringsSplit '>' x.toList).length = level
      ∧ parentName x ∈ st.cmds.map Prod.fst) :
    ∃ st2, addCommands commands level l st = Except.ok st2 := by
  induction l generalizing st with
  | nil => exact ⟨st, rfl⟩
  | cons x rest ih =>
    obtain ⟨hx1, hx2, hx3⟩ := hl x (List.mem_cons_self _ _)
    rw [addCommands]
    have hs : ∃ st1, addCommand commands level st x = Except.ok st1 := by
      rw [← hx2, addCommand_eq]
      cases hp : mapLookup st.cmds (parentName x) with
      | none =>
        have := (mapLookup_isSome st.cmds (parentName x)).2 hx3
        rw [hp] at this
        cases this
      | some parent =>
        cases hr : mapLookup commands x with
        | none =>
          have := (mapLookup_isSome commands x).2 hx1
          rw [hr] at this
          cases this
        | some r => exact ⟨_, rfl⟩
    obtain ⟨st1, hs1⟩ := hs
    rw [hs1]
    simp only
    apply ih
    intro y hy
    obtain ⟨hy1, hy2, hy3⟩ := hl y (List.mem_cons_of_mem _ hy)
    rw [← hx2] at hs1
    exact ⟨hy1, hy2, (addCommand_keys commands st st1 x hs1 _).2 (Or.inr hy3)⟩

theorem addCommands_grows (commands : List (String × registeredCommand)) (level : Nat)
    (l : List String) (s s2 : TreeState)
    (h : addCommands commands level l s = Except.ok s2)
    (hlv : ∀ x ∈ l, (stringsSplit '>' x.toList).length = level) (k : String)
    (hk : k ∈ s.cmds.map Prod.fst ∨ k ∈ l) : k ∈ s2.cmds.map Prod.fst := by
  induction l generalizing s with
  | nil =>
    simp only [addCommands, Except.ok.injEq] at h
    rw [← h]
    rcases hk with hk | hk
    · exact hk
    · simp at hk
  | cons x rest ih =>
    rw [addCommands] at h
    cases hs : addCommand commands level s x with
    | error e =>
      rw [hs] at h
      cases h
    | ok s1 =>
      rw [hs] at h
      simp only at h
      rw [← hlv x (List.mem_cons_self _ _)] at hs
      apply ih s1 h (fun y hy => hlv y (List.mem_cons_of_mem _ hy))
      rcases hk with hk | hk
      · exact Or.inl ((addCommand_keys commands s s1 x hs k).2 (Or.inr hk))
      · rcases List.mem_cons.1 hk with hk | hk
        · exact Or.inl ((addCommand_keys commands s s1 x hs k).2 (Or.inl hk))
        · exact Or.inr hk

theorem addLevels_success (commands : List (String × registeredCommand)) (rem : List Nat)
    (st : TreeState) (hsorted : rem.Pairwise (fun a b => a ≤ b))
    (hparents : ∀ name ∈ commands.map Prod.fst, name ≠ "" →
      parentName name ∈ commands.map Prod.fst)
    (hroot : "" ∈ st.cmds.map Prod.fst)
    (hdone : ∀ name ∈ commands.map Prod.fst, name ≠ "" →
      (stringsSplit '>' name.toList).length ∉ rem → name ∈ st.cmds.map Prod.fst) :
    ∃ st2, addLevels commands (buildLeveled commands) rem st = Except.ok st2 := by
  induction rem generalizing st with
  | nil => exact ⟨st, rfl⟩
  | cons level rest ih =>
    rw [addLevels]
    obtain ⟨hle, hsorted2⟩ := List.pairwise_cons.1 hsorted
    have hl : ∀ x ∈ leveledGet (buildLeveled commands) level,
        x ∈ commands.map Prod.fst ∧ (stringsSplit '>' x.toList).length = level
          ∧ parentName x ∈ st.cmds.map Prod.fst := by
      intro x hx
      obtain ⟨h1, h2, h3⟩ := (buildLeveled_get commands level x).1 hx
      refine ⟨h1, h3, ?_⟩
      by_cases hp : parentName x = ""
      · rw [hp]; exact hroot
      · have hlev : 2 ≤ (stringsSplit '>' x.toList).length := by
          have h0 : (stringsSplit '>' x.toList).length ≠ 0 := fun e =>
            stringsSplit_ne_nil '>' x.toList (List.length_eq_zero.1 e)
          have h1 : (stringsSplit '>' x.toList).length ≠ 1 := fun e =>
            hp (parentName_level_one x e)
          omega
        have hpl := parentName_level x hlev
        apply hdone (parentName x) (hparents x h1 h2) hp
        intro hmem
        rcases List.mem_cons.1 hmem with h4 | h4
        · omega
        · have := hle _ h4
          omega
    obtain ⟨st1, hs1⟩ := addCommands_success commands level _ st hl
    rw [hs1]
    simp only
    have hgrow := addCommands_grows commands level _ st st1 hs1
      (fun x hx => ((buildLeveled_get commands level x).1 hx).2.2)
    apply ih st1 hsorted2 (hgrow "" (Or.inl hroot))
    intro name hname hne hlev
    by_cases heq : (stringsSplit '>' name.toList).length = level
    · exact hgrow name (Or.inr ((buildLeveled_get commands level name).2 ⟨hname, hne, heq⟩))
    · apply hgrow name
      apply Or.inl
      apply hdone name hname hne
      intro hmem
      rcases List.mem_cons.1 hmem with h4 | h4
      · exact heq h4
      · exact hlev h4

theorem counts_sorted (l : List Nat) :
    (l.insertionSort (fun a b => a ≤ b)).Pairwise (fun a b => a ≤ b) :=
  List.sorted_insertionSort (fun a b : Nat => a ≤ b) l

theorem counts_mem (l : List Nat) (n : Nat) :
    n ∈ l.insertionSort (fun a b => a ≤ b) ↔ n ∈ l :=
  (List.perm_insertionSort (fun a b : Nat => a ≤ b) l).mem_iff

theorem buildCommandTree_sound (commands : List (String × registeredCommand)) (t : CommandTree)
    (h : buildCommandTree commands = Except.ok t) :
    treeInv commands t.cmds t.attached
      ∧ (∀ k, k ∈ t.cmds.map Prod.fst ↔ k ∈ commands.map Prod.fst)
      ∧ mapLookup t.cmds "" = some t.rootCmd := by
  unfold buildCommandTree at h
  cases hroot : mapLookup commands "" with
  | none =>
    rw [hroot] at h
    cases h
  | some rootCreator =>
    rw [hroot] at h
    simp only at h
    have hrootmem : "" ∈ commands.map Prod.fst := by
      rw [← mapLookup_isSome, hroot]
      rfl
    have hinv0 : treeInv commands [("", rootCreator.creator)] [] := by
      refine ⟨by simp, ?_, ?_, ?_⟩
      · intro k hk
        simp only [List.map_cons, List.map_nil, List.mem_singleton] at hk
        rw [hk]
        exact hrootmem
      · intro k c hk
        simp only [mapLookup] at hk
        by_cases hk0 : "" = k
        · rw [if_pos hk0] at hk
          cases hk
          exact ⟨rootCreator, by rw [← hk0]; exact hroot, rfl⟩
        · rw [if_neg hk0] at hk
          cases hk
      · intro k hk hne
        simp only [List.map_cons, List.map_nil, List.mem_singleton] at hk
        exact absurd hk hne
    cases hs : addLevels commands (buildLeveled commands)
        (((buildLeveled commands).map Prod.fst).insertionSort (fun a b => a ≤ b))
        { cmds := [("", rootCreator.creator)], attached := [] } with
    | error e =>
      rw [hs] at h
      cases h
    | ok st =>
      rw [hs] at h
      simp only [Except.ok.injEq] at h
      obtain ⟨k1, k2⟩ := addLevels_sound commands _ _ st hs hinv0
      rw [← h]
      refine ⟨k1, fun k => ?_, ?_⟩
      · simp only
        rw [k2]
        constructor
        · rintro (⟨h1, _, _⟩ | h1)
          · exact h1
          · simp only [List.map_cons, List.map_nil, List.mem_singleton] at h1
            rw [h1]
            exact hrootmem
        · intro hk
          by_cases hk0 : k = ""
          · exact Or.inr (by simp [hk0])
          · refine Or.inl ⟨hk, hk0, ?_⟩
            rw [counts_mem, buildLeveled_keys]
            exact ⟨k, hk, hk0, rfl⟩
      · simp only
        have hmem : "" ∈ st.cmds.map Prod.fst := (k2 "").2 (Or.inr (by simp))
        cases hl : mapLookup st.cmds "" with
        | none =>
          have := (mapLookup_isSome st.cmds "").2 hmem
          rw [hl] at this
          cases this
        | some c =>
          obtain ⟨r, hr1, hr2⟩ := k1.2.2.1 "" c hl
          rw [hroot] at hr1
          cases hr1
          rw [hr2]

theorem buildCommandTree_success (commands : List (String × registeredCommand))
    (hroot : "" ∈ commands.map Prod.fst)
    (hparents : ∀ name ∈ commands.map Prod.fst, name ≠ "" →
      parentName name ∈ commands.map Prod.fst) :
    ∃ t, buildCommandTree commands = Except.ok t := by
  unfold buildCommandTree
  cases hr : mapLookup commands "" with
  | none =>
    have := (mapLookup_isSome commands "").2 hroot
    rw [hr] at this
    cases this
  | some rootCreator =>
    simp only
    obtain ⟨st, hs⟩ := addLevels_success commands
      (((buildLeveled commands).map Prod.fst).insertionSort (fun a b => a ≤ b))
      { cmds := [("", rootCreator.creator)], attached := [] } (counts_sorted _) hparents
      (by simp)
      (by
        intro name hname hne hlev
        exact absurd ((counts_mem _ _).2 ((buildLeveled_keys commands _).2 ⟨name, hname, hne, rfl⟩))
          hlev)
    rw [hs]
    exact ⟨_, rfl⟩

theorem httpDebugGetCertsSANs_example :
    httpDebugGetCertsSANs [sanLeaf, sanIssuer]
      = (["*.example.com", "example.com", "issuer.example.org"], [[10, 0, 0, 1]],
          ["https://example.com/", "https://issuer.example.org/"]) := by
  decide

/-! ## Claims on the report, the tree and the registry -/

/-- C21, as the code has it: with the HTTP/2 pin on a URL whose scheme is not
`http`, `buildTransport` returns a transport whose TLS configuration lists
`h2` alone, with `ForceAttemptHTTP2` on, so that `net/http` offers `h2` and
then `http/1.1` in the handshake (`h2` alone if the HTTP/1.1 pin is set too);
its `VerifyConnection` hook returns an error iff the negotiated protocol is not
`h2`. Without the pin it returns a transport whose protocol list is nil and
whose hook never returns an error. -/
theorem http2_pin_lists_h2_and_checks_it (env : HttpEnv) (c : Client) :
    (c.forceHTTP2 = true → c.url.scheme ≠ "http" →
      ∃ tr, buildTransport env c = Except.ok tr ∧ tr.nextProtos = ["h2"]
        ∧ tr.forceAttemptHTTP2 = true
        ∧ onceSetNextProtoDefaults tr = (if c.forceHTTP1 then ["h2"] else ["h2", "http/1.1"])
        ∧ ∀ negotiated, (tr.verifyConnection negotiated ≠ none ↔ negotiated ≠ "h2"))
    ∧ (c.forceHTTP2 = false →
      ∃ tr, buildTransport env c = Except.ok tr ∧ tr.nextProtos = []
        ∧ ∀ negotiated, tr.verifyConnection negotiated = none) := by
  constructor
  · intro h2 hs
    refine ⟨_, by simp only [buildTransport, h2, hs, and_false, if_false]; rfl, ?_, ?_, ?_, ?_⟩
    · simp
    · rfl
    · cases h1 : c.forceHTTP1 <;> simp [onceSetNextProtoDefaults, h1]
    · intro negotiated
      by_cases hn : negotiated = "h2" <;> simp [hn]
  · intro h2
    refine ⟨_, by simp only [buildTransport, h2]; simp; rfl, ?_, ?_⟩
    · simp
    · intro negotiated
      simp

/-- The client `http2TLSClient` gets a transport that lists `h2` alone and
refuses `http/1.1`. -/
theorem http2_pin_lists_h2_and_checks_it_witness :
    ∃ tr, buildTransport httpEnvTerm http2TLSClient = Except.ok tr ∧ tr.nextProtos = ["h2"]
      ∧ tr.verifyConnection "http/1.1" ≠ none ∧ tr.verifyConnection "h2" = none := by
  obtain ⟨tr, h1, h2, _, _, h3⟩ :=
    (http2_pin_lists_h2_and_checks_it httpEnvTerm http2TLSClient).1 rfl (by decide)
  exact ⟨tr, h1, h2, (h3 "http/1.1").2 (by decide),
    by
      have h := (h3 "h2")
      by_contra hne
      exact (h.1 hne) rfl⟩

/-- C21, the claim as stated fails on the code: the client built for
`https://example.com` with the HTTP/2 pin gets a transport with
`ForceAttemptHTTP2` on and a nil `TLSNextProto`, so `net/http` adds `http/1.1`
to the list `h2` of its TLS configuration: the offer is not `h2` alone. -/
theorem http2_pin_offer_holds_http11 :
    NewClient httpEnvTerm "https://example.com" [ClientOption.WithForceHTTP2]
      = Except.ok http2TLSClient ∧
    ∃ tr, buildTransport httpEnvTerm http2TLSClient = Except.ok tr
      ∧ onceSetNextProtoDefaults tr = ["h2", "http/1.1"]
      ∧ onceSetNextProtoDefaults tr ≠ ["h2"] :=
  ⟨rfl, _, rfl, rfl, by decide⟩

/-- C22: with tracing on, the log of `checkCerts` says that the chain has no
Subject Alternate Name iff the names, addresses and URIs collected from the
chain are all empty; otherwise it says that one matches iff some name compiles
to a glob that matches the lowercased hostname of the URL, or that hostname
parses as an IP that some address is `Equal` to, or some URI is a string prefix
of the URL, and it says that none is valid iff none of these holds. The method
returns nothing but its prints, and prints nothing with tracing off. -/
theorem check_certs_verdict (env : HttpEnv) (cenv : CertsEnv) (c : Client)
    (certs : List Certificate) :
    (c.trace = true →
      (reportsNoSAN (checkCerts env cenv c certs) ↔
        (httpDebugGetCertsSANs certs).1 = [] ∧ (httpDebugGetCertsSANs certs).2.1 = []
          ∧ (httpDebugGetCertsSANs certs).2.2 = [])
      ∧ (¬ ((httpDebugGetCertsSANs certs).1 = [] ∧ (httpDebugGetCertsSANs certs).2.1 = []
            ∧ (httpDebugGetCertsSANs certs).2.2 = []) →
          (reportsMatch (checkCerts env cenv c certs) ↔
            someSANMatches cenv (String.mk (stringsToLower env.toLowerRune c.url.hostname.toList))
              c.url.text (httpDebugGetCertsSANs certs).1 (httpDebugGetCertsSANs certs).2.1
              (httpDebugGetCertsSANs certs).2.2)
          ∧ (reportsNoneValid (checkCerts env cenv c certs) ↔
            ¬ someSANMatches cenv
              (String.mk (stringsToLower env.toLowerRune c.url.hostname.toList))
              c.url.text (httpDebugGetCertsSANs certs).1 (httpDebugGetCertsSANs certs).2.1
              (httpDebugGetCertsSANs certs).2.2))
      ∧ (((httpDebugGetCertsSANs certs).1 = [] ∧ (httpDebugGetCertsSANs certs).2.1 = []
            ∧ (httpDebugGetCertsSANs certs).2.2 = []) →
          ¬ reportsMatch (checkCerts env cenv c certs)
            ∧ ¬ reportsNoneValid (checkCerts env cenv c certs)))
    ∧ (c.trace = false → checkCerts env cenv c certs = []) := by
  generalize hn : (httpDebugGetCertsSANs certs).1 = names
  generalize hi : (httpDebugGetCertsSANs certs).2.1 = ips
  generalize hu : (httpDebugGetCertsSANs certs).2.2 = urls
  generalize hh : String.mk (stringsToLower env.toLowerRune c.url.hostname.toList) = hostname
  have hlen : ∀ {α : Type} (l : List α), l.length = 0 ↔ l = [] := fun l => List.length_eq_zero
  by_cases hall : names = [] ∧ ips = [] ∧ urls = []
  · have hr : checkCerts env cenv c certs
        = traceErrorln c "Certificate has no Subject Alternate Name" := by
      simp only [checkCerts, hn, hi, hu, hlen, hall, and_self, if_true]
    rw [hr]
    constructor
    · intro h
      obtain ⟨h1, h2, h3⟩ := no_san_line c h
      exact ⟨⟨fun _ => hall, fun _ => h1⟩, fun hne => absurd hall hne, fun _ => ⟨h2, h3⟩⟩
    · intro h
      exact doTrace_off c h _ _
  · have hall2 : ¬ (names.length = 0 ∧ ips.length = 0 ∧ urls.length = 0) := by
      simpa only [hlen] using hall
    by_cases hnames : names.length > 0
    · obtain ⟨hs1, hs2⟩ := checkCertsNames_spec cenv c hostname names
      cases hf : checkCertsNames cenv c hostname names with
      | none =>
        have hr : checkCerts env cenv c certs
            = checkCertsFromIPs cenv c hostname ips urls
                (traceInfo c "Certificate Subject Alternate Name domains are "
                  ++ traceValuef c "%q\n" [TraceArg.strs names]) := by
          simp only [checkCerts, hn, hi, hu, hh, hall2, if_false, hnames, if_true, hf]
        have hno : ¬ ∃ name ∈ names, ∃ m, globCompile cenv.globOther name = some m
            ∧ m hostname = true := by
          rw [← hs1, hf]
          simp
        rw [hr]
        constructor
        · intro h
          obtain ⟨k1, k2, k3⟩ :=
            checkCertsFromIPs_spec cenv c hostname ips urls _ h (quiet_names_header c names)
          refine ⟨⟨fun hs => absurd hs k1, fun he => absurd he hall⟩, fun _ => ?_,
            fun he => absurd he hall⟩
          unfold someSANMatches
          rw [or_iff_right hno]
          exact ⟨k2, k3⟩
        · intro h
          rw [checkCertsFromIPs_off cenv c hostname ips urls _ h]
          simp [traceInfo, traceValuef, doTrace, doTracef, h]
      | some found =>
        have hr : checkCerts env cenv c certs
            = (traceInfo c "Certificate Subject Alternate Name domains are "
                  ++ traceValuef c "%q\n" [TraceArg.strs names]) ++ found := by
          simp only [checkCerts, hn, hi, hu, hh, hall2, if_false, hnames, if_true, hf]
        have hyes : someSANMatches cenv hostname c.url.text names ips urls := by
          refine Or.inl ?_
          rw [← hs1, hf]
          rfl
        rw [hr]
        constructor
        · intro h
          obtain ⟨k1, k2, k3⟩ := verdict_match _ _ _ (quiet_names_header c names)
            ((hs2 found hf).1 h) hyes
          exact ⟨⟨fun hs => absurd hs k1, fun he => absurd he hall⟩, fun _ => ⟨k2, k3⟩,
            fun he => absurd he hall⟩
        · intro h
          rw [((hs2 found hf).2 h)]
          simp [traceInfo, traceValuef, doTrace, doTracef, h]
    · have hnil : names = [] := by
        cases names with
        | nil => rfl
        | cons _ _ => simp at hnames
      have hr : checkCerts env cenv c certs
          = checkCertsFromIPs cenv c hostname ips urls [] := by
        simp only [checkCerts, hn, hi, hu, hh, hall2, if_false, hnames]
      have hno : ¬ ∃ name ∈ names, ∃ m, globCompile cenv.globOther name = some m
          ∧ m hostname = true := by
        rw [hnil]
        simp
      rw [hr]
      constructor
      · intro h
        obtain ⟨k1, k2, k3⟩ :=
          checkCertsFromIPs_spec cenv c hostname ips urls _ h logQuiet_nil
        refine ⟨⟨fun hs => absurd hs k1, fun he => absurd he hall⟩, fun _ => ?_,
          fun he => absurd he hall⟩
        unfold someSANMatches
        rw [or_iff_right hno]
        exact ⟨k2, k3⟩
      · intro h
        exact checkCertsFromIPs_off cenv c hostname ips urls _ h

/-- The chain of `sanLeaf` and `sanIssuer` checked for `https://WWW.Example.com/`:
the name `*.example.com` matches the lowered hostname. -/
theorem check_certs_verdict_witness :
    reportsMatch (checkCerts httpEnvTerm certsEnvPlain tracingClient [sanLeaf, sanIssuer])
      ∧ ¬ reportsNoSAN (checkCerts httpEnvTerm certsEnvPlain tracingClient [sanLeaf, sanIssuer]) := by
  have h := (check_certs_verdict httpEnvTerm certsEnvPlain tracingClient [sanLeaf, sanIssuer]).1
    rfl
  have hne : ¬ ((httpDebugGetCertsSANs [sanLeaf, sanIssuer]).1 = []
      ∧ (httpDebugGetCertsSANs [sanLeaf, sanIssuer]).2.1 = []
      ∧ (httpDebugGetCertsSANs [sanLeaf, sanIssuer]).2.2 = []) := by
    decide
  refine ⟨(h.2.1 hne).1.2 ?_, fun hs => hne (h.1.1 hs)⟩
  exact Or.inl ⟨"*.example.com", by decide, fun s => globMatchToks
    [GlobTok.any, GlobTok.text '.', GlobTok.text 'e', GlobTok.text 'x', GlobTok.text 'a',
      GlobTok.text 'm', GlobTok.text 'p', GlobTok.text 'l', GlobTok.text 'e', GlobTok.text '.',
      GlobTok.text 'c', GlobTok.text 'o', GlobTok.text 'm'] s.toList, rfl, by decide⟩

/-- C23: `httpDebugGetCertsSANs` returns the first occurrences of the names, of
the addresses and of the URIs of the chain, read certificate after
certificate: an entry is kept iff no earlier entry is the same, names and URIs
being compared as strings and addresses by `IP.Equal`. So no list holds two
entries that are the same, the names and URIs returned are those of the
certificates, every address returned is one of a certificate and every address
of a certificate is `Equal` to one returned. -/
theorem sans_are_first_occurrences (certs : List Certificate) :
    (httpDebugGetCertsSANs certs).1
        = firstOccurrences (fun a b => a == b) (certs.flatMap (fun cert => cert.dnsNames))
    ∧ (httpDebugGetCertsSANs certs).2.1
        = firstOccurrences IP.Equal (certs.flatMap (fun cert => cert.ipAddresses))
    ∧ (httpDebugGetCertsSANs certs).2.2
        = firstOccurrences (fun a b => a == b) (certs.flatMap (fun cert => cert.uris))
    ∧ (httpDebugGetCertsSANs certs).1.Nodup
    ∧ (httpDebugGetCertsSANs certs).2.1.Pairwise (fun a b => IP.Equal a b = false)
    ∧ (httpDebugGetCertsSANs certs).2.2.Nodup
    ∧ (∀ name, name ∈ (httpDebugGetCertsSANs certs).1 ↔ ∃ cert ∈ certs, name ∈ cert.dnsNames)
    ∧ (∀ ip ∈ (httpDebugGetCertsSANs certs).2.1, ∃ cert ∈ certs, ip ∈ cert.ipAddresses)
    ∧ (∀ cert ∈ certs, ∀ givenIP ∈ cert.ipAddresses,
        ∃ ip ∈ (httpDebugGetCertsSANs certs).2.1, IP.Equal ip givenIP = true)
    ∧ (∀ url, url ∈ (httpDebugGetCertsSANs certs).2.2 ↔ ∃ cert ∈ certs, url ∈ cert.uris) := by
  have hstr : ∀ a b c : String, (a == b) = true → (b == c) = true → (a == c) = true := by
    intro a b c h1 h2
    simp only [beq_iff_eq] at h1 h2 ⊢
    rw [h1, h2]
  have h1 : (httpDebugGetCertsSANs certs).1
      = firstOccurrences (fun a b => a == b) (certs.flatMap (fun cert => cert.dnsNames)) := by
    unfold httpDebugGetCertsSANs
    rw [sans_components]
    simp only
    rw [firstOccurrences_fold (fun a b : String => a == b) hstr _ [] [] (fun _ => rfl)]
    rfl
  have h2 : (httpDebugGetCertsSANs certs).2.1
      = firstOccurrences IP.Equal (certs.flatMap (fun cert => cert.ipAddresses)) := by
    unfold httpDebugGetCertsSANs
    rw [sans_components]
    simp only
    rw [firstOccurrences_fold IP.Equal IP.Equal_trans _ [] [] (fun _ => rfl)]
    rfl
  have h3 : (httpDebugGetCertsSANs certs).2.2
      = firstOccurrences (fun a b => a == b) (certs.flatMap (fun cert => cert.uris)) := by
    unfold httpDebugGetCertsSANs
    rw [sans_components]
    simp only
    rw [firstOccurrences_fold (fun a b : String => a == b) hstr _ [] [] (fun _ => rfl)]
    rfl
  have hnodup : ∀ l : List String, (firstOccurrences (fun a b => a == b) l).Nodup := by
    intro l
    have := (firstOccurrencesFrom_pairwise (fun a b : String => a == b) l []).1
    unfold firstOccurrences
    refine List.Pairwise.imp ?_ this
    intro a b hab
    simpa using hab
  have hmem : ∀ (l : List String) (x : String),
      x ∈ firstOccurrences (fun a b => a == b) l ↔ x ∈ l := by
    intro l x
    constructor
    · intro hx
      exact ((firstOccurrencesFrom_pairwise (fun a b : String => a == b) l []).2 x hx).1
    · intro hx
      rcases firstOccurrencesFrom_covers (fun a b : String => a == b) (fun a => by simp) hstr
          l [] x hx with ⟨y, hy, _⟩ | ⟨y, hy, hyx⟩
      · simp at hy
      · have : y = x := by simpa using hyx
        rw [← this]
        exact hy
  refine ⟨h1, h2, h3, ?_, ?_, ?_, ?_, ?_, ?_, ?_⟩
  · rw [h1]; exact hnodup _
  · rw [h2]; exact (firstOccurrencesFrom_pairwise IP.Equal _ []).1
  · rw [h3]; exact hnodup _
  · intro name
    rw [h1, hmem, List.mem_flatMap]
  · intro ip hip
    rw [h2] at hip
    have := ((firstOccurrencesFrom_pairwise IP.Equal _ []).2 ip hip).1
    exact List.mem_flatMap.1 this
  · intro cert hcert givenIP hgiven
    rw [h2]
    rcases firstOccurrencesFrom_covers IP.Equal IP.Equal_refl IP.Equal_trans
        (certs.flatMap (fun cert => cert.ipAddresses)) [] givenIP
        (List.mem_flatMap.2 ⟨cert, hcert, hgiven⟩) with ⟨y, hy, _⟩ | h
    · simp at hy
    · exact h
  · intro url
    rw [h3, hmem, List.mem_flatMap]

/-- The chain of `sanLeaf` and `sanIssuer`: no name is returned twice, and the
16-byte form of `10.0.0.1`, which the leaf lists after the 4-byte form, is
`Equal` to an address returned. -/
theorem sans_are_first_occurrences_witness :
    (httpDebugGetCertsSANs [sanLeaf, sanIssuer]).1.Nodup
      ∧ ∃ ip ∈ (httpDebugGetCertsSANs [sanLeaf, sanIssuer]).2.1,
          IP.Equal ip [0, 0, 0, 0, 0, 0, 0, 0, 0, 0, 255, 255, 10, 0, 0, 1] = true :=
  ⟨(sans_are_first_occurrences [sanLeaf, sanIssuer]).2.2.2.1,
    (sans_are_first_occurrences [sanLeaf, sanIssuer]).2.2.2.2.2.2.2.2.1 sanLeaf (by decide)
      [0, 0, 0, 0, 0, 0, 0, 0, 0, 0, 255, 255, 10, 0, 0, 1] (by decide)⟩

/-- C24: for a client whose tracing is disabled, `getTracerContext` returns the
context it was given, and `doTrace`, `doTracef` and every trace helper print
nothing on the log sink. -/
theorem tracing_disabled_is_silent (c : Client) (h : c.trace = false) :
    (∀ ctx, getTracerContext c ctx = ctx)
    ∧ (∀ text attrs, doTrace c text attrs = [])
    ∧ (∀ format args attrs, doTracef c format args attrs = [])
    ∧ (∀ text, traceInfo c text = [] ∧ traceInfoln c text = [] ∧ traceValue c text = []
        ∧ traceValueln c text = [] ∧ traceError c text = [] ∧ traceErrorln c text = [])
    ∧ (∀ format a, traceInfof c format a = [] ∧ traceValuef c format a = []
        ∧ traceErrorf c format a = [])
    ∧ (∀ info value, traceInfoValue c info value = [] ∧ traceInfoValueln c info value = [])
    ∧ (∀ info format a, traceInfoValuef c info format a = [])
    ∧ (∀ err, traceErrorE c err = [] ∧ traceErrorEln c err = []) := by
  have hd : ∀ text attrs, doTrace c text attrs = [] := by
    intro text attrs
    simp [doTrace, h]
  have hf : ∀ format args attrs, doTracef c format args attrs = [] := by
    intro format args attrs
    simp [doTracef, h]
  refine ⟨?_, hd, hf, ?_, ?_, ?_, ?_, ?_⟩
  · intro ctx
    simp [getTracerContext, h]
  · intro text
    simp [traceInfo, traceInfoln, traceValue, traceValueln, traceError, traceErrorln, hd]
  · intro format a
    simp [traceInfof, traceValuef, traceErrorf, hf]
  · intro info value
    simp [traceInfoValue, traceInfoValueln, traceInfof, traceValue, traceInfoln, hd, hf]
  · intro info format a
    simp [traceInfoValuef, traceInfof, traceValuef, hf]
  · intro err
    cases err <;> simp [traceErrorE, traceErrorEln, traceError, traceErrorln, hd]

/-- The default client does not trace: its context is left as it is and an
error line prints nothing. -/
theorem tracing_disabled_is_silent_witness :
    getTracerContext defaultClient (Context.given 0) = Context.given 0
      ∧ traceErrorln defaultClient "Certificate is not verified" = [] :=
  ⟨(tracing_disabled_is_silent defaultClient rfl).1 (Context.given 0),
    ((tracing_disabled_is_silent defaultClient rfl).2.2.2.1 "Certificate is not verified").2.2.2.2.2⟩

/-- C25, evaluated on the code: the command is configured with the accept value
`text/html` and the request content type `application/json`. Its option list
passes the content type to `WithAccept`, after the accept value, and never
calls `WithContentType`: the request sent carries `Accept: application/json`
and `Content-Type: application/octet-stream`, the default of the client. -/
theorem debug_command_sends_content_type_as_accept :
    ∃ client, httpDebugClient httpEnvTerm (fun _ => Except.error "no resource") debugConfig
        "example.com" = Except.ok client
      ∧ client.acccept = "application/json"
      ∧ client.contentType = "application/octet-stream"
      ∧ ∃ req, (httpDebugRunE httpEnvTerm (fun _ => Except.error "no resource") debugConfig
          "example.com").sent = some req
        ∧ headerValues req.header "Accept" = ["application/json"]
        ∧ headerValues req.header "Content-Type" = ["application/octet-stream"] :=
  ⟨_, rfl, rfl, rfl, _, rfl, rfl, rfl⟩

/-- C26: `buildCommandTree` returns an error iff the root, of name `""`, is not
registered or some registered command other than the root has a parent name,
its name with the last part between `>` removed, that is not registered. When
it succeeds the map returned has no name twice, its names are the registered
names, the command of a name is the one its creator returns, the root returned
is the command of `""`, and the command of every name but the root has been
added to the command of its parent name. -/
theorem command_tree_fails_iff_parent_missing (commands : List (String × registeredCommand)) :
    ((∃ e, buildCommandTree commands = Except.error e) ↔
      ("" ∉ commands.map Prod.fst
        ∨ ∃ name ∈ commands.map Prod.fst, name ≠ "" ∧ parentName name ∉ commands.map Prod.fst))
    ∧ (∀ t, buildCommandTree commands = Except.ok t →
        (t.cmds.map Prod.fst).Nodup
        ∧ (∀ name, name ∈ t.cmds.map Prod.fst ↔ name ∈ commands.map Prod.fst)
        ∧ (∀ name c, mapLookup t.cmds name = some c →
            ∃ r, mapLookup commands name = some r ∧ c = r.creator)
        ∧ mapLookup t.cmds "" = some t.rootCmd
        ∧ (∀ name ∈ commands.map Prod.fst, name ≠ "" →
            ∃ p c, mapLookup t.cmds (parentName name) = some p ∧ mapLookup t.cmds name = some c
              ∧ (p, c) ∈ t.attached)) := by
  constructor
  · constructor
    · rintro ⟨e, he⟩
      by_contra hcon
      simp only [not_or, not_not, not_exists, not_and] at hcon
      obtain ⟨t, ht⟩ := buildCommandTree_success commands hcon.1
        (fun name hname hne => hcon.2 name hname hne)
      rw [ht] at he
      cases he
    · intro hbad
      cases hb : buildCommandTree commands with
      | error e => exact ⟨e, rfl⟩
      | ok t =>
        exfalso
        obtain ⟨⟨_, _, _, i4⟩, hk, _⟩ := buildCommandTree_sound commands t hb
        rcases hbad with h0 | ⟨name, hname, hne, hpar⟩
        · apply h0
          have : "" ∈ t.cmds.map Prod.fst := by
            rw [← mapLookup_isSome]
            rw [(buildCommandTree_sound commands t hb).2.2]
            rfl
          exact (hk "").1 this
        · obtain ⟨p, c, h1, _, _⟩ := i4 name ((hk name).2 hname) hne
          apply hpar
          apply (hk _).1
          rw [← mapLookup_isSome, h1]
          rfl
  · intro t ht
    obtain ⟨⟨i1, _, i3, i4⟩, hk, hr⟩ := buildCommandTree_sound commands t ht
    exact ⟨i1, hk, i3, hr, fun name hname hne => i4 name ((hk name).2 hname) hne⟩

/-- The map `treeCommands` builds: the command of `a>b` is added to the command
of `a`, whatever the order of the map. -/
theorem command_tree_fails_iff_parent_missing_witness :
    buildCommandTree treeCommands
      = Except.ok { rootCmd := 1, cmds := [("", 1), ("a", 2), ("a>b", 3)],
                    attached := [(1, 2), (2, 3)] }
    ∧ ∃ p c, mapLookup [("", 1), ("a", 2), ("a>b", 3)] (parentName "a>b") = some p
        ∧ mapLookup [("", 1), ("a", 2), ("a>b", 3)] "a>b" = some c
        ∧ (p, c) ∈ [(1, 2), (2, 3)] :=
  ⟨rfl,
    ((command_tree_fails_iff_parent_missing treeCommands).2
      { rootCmd := 1, cmds := [("", 1), ("a", 2), ("a>b", 3)], attached := [(1, 2), (2, 3)] }
      rfl).2.2.2.2 "a>b" (by decide) (by decide)⟩

/-- C27, evaluated on the code: the name `a.b`, made of two words of lowercase
letters separated by a period, is refused with a panic, because the test of
`valueNameIsLetter` asks for two characters or more in each word; and the name
`http.debug.request.forcehttp1`, which the command `http debug` registers, is
accepted though its last word holds a digit. -/
theorem register_value_accepts_digits_refuses_short_words :
    (RegisterValue [] "http.debug.request.forcehttp1" ValueTypeBool []).2 = none
    ∧ ¬ (∀ part ∈ stringsSplit '.' "http.debug.request.forcehttp1".toList, isLetterWord part)
    ∧ (RegisterValue [] "a.b" ValueTypeBool []).2 = some "invalid configuration name: a.b"
    ∧ (∀ part ∈ stringsSplit '.' "a.b".toList, isLetterWord part) := by
  refine ⟨by decide, ?_, by decide, ?_⟩
  · intro h
    have hs : ['f', 'o', 'r', 'c', 'e', 'h', 't', 't', 'p', '1']
        ∈ stringsSplit '.' "http.debug.request.forcehttp1".toList := by decide
    have := (h _ hs).2 '1' (by decide)
    exact absurd this (by decide)
  · intro part hp
    have hs : stringsSplit '.' "a.b".toList = [['a'], ['b']] := by decide
    rw [hs] at hp
    rcases List.mem_cons.1 hp with h | h
    · rw [h]; exact ⟨by decide, by decide⟩
    · rw [List.mem_singleton.1 h]; exact ⟨by decide, by decide⟩

/-- C28, as the code has it: `getConfigFile` first asks `getDefaultConfigFile`
for the default file. When that fails, which it does iff `DSAK_CONFIGFILE` is
empty and the home directory is not found, `getConfigFile` returns that error
whatever the arguments. When it yields a default file, `getConfigFile` returns
an error iff the last argument is `--configfile`; when the flag does not occur
it returns the default file, and when its last occurrence is followed by an
argument it returns that argument. -/
theorem config_file_is_after_last_flag (join : String → String → String) (envValue : String)
    (userHomeDir : Except String String) (args : List String) :
    ((∃ e, getDefaultConfigFile join envValue userHomeDir = Except.error e)
        ↔ envValue = "" ∧ ∃ e, userHomeDir = Except.error e)
    ∧ (∀ e, getDefaultConfigFile join envValue userHomeDir = Except.error e →
        getConfigFile join envValue userHomeDir args = Except.error e)
    ∧ (∀ dflt, getDefaultConfigFile join envValue userHomeDir = Except.ok dflt →
        ((∃ e, getConfigFile join envValue userHomeDir args = Except.error e)
            ↔ args.getLast? = some "--configfile")
        ∧ ("--configfile" ∉ args →
            getConfigFile join envValue userHomeDir args = Except.ok dflt)
        ∧ (∀ pre next post, args = pre ++ "--configfile" :: next :: post →
            "--configfile" ∉ next :: post →
            getConfigFile join envValue userHomeDir args = Except.ok next)) := by
  refine ⟨?_, ?_, ?_⟩
  · unfold getDefaultConfigFile
    by_cases hv : envValue = ""
    · cases userHomeDir with
      | error e => simp [hv]
      | ok d => simp [hv]
    · simp [hv]
  · intro e he
    unfold getConfigFile
    rw [he]
  intro dflt hd
  have hget : getConfigFile join envValue userHomeDir args = getConfigFileLoop args dflt := by
    unfold getConfigFile
    rw [hd]
  rw [hget]
  refine ⟨⟨?_, ?_⟩, ?_, ?_⟩
  · rintro ⟨e, he⟩
    by_contra hl
    by_cases hmem : "--configfile" ∈ args
    · obtain ⟨pre, post, hsplit, hpost⟩ : ∃ pre post, args = pre ++ "--configfile" :: post
          ∧ "--configfile" ∉ post := by
        clear he hl hget
        induction args with
        | nil => simp at hmem
        | cons a rest ih =>
          by_cases hr : "--configfile" ∈ rest
          · obtain ⟨pre, post, h1, h2⟩ := ih hr
            exact ⟨a :: pre, post, by rw [h1]; rfl, h2⟩
          · have ha : a = "--configfile" := by
              rcases List.mem_cons.1 hmem with h | h
              · exact h.symm
              · exact absurd h hr
            exact ⟨[], rest, by rw [ha]; rfl, hr⟩
      cases post with
      | nil =>
        apply hl
        rw [hsplit]
        simp
      | cons next post2 =>
        have := getConfigFileLoop_after_flag pre post2 next dflt hpost
        rw [hsplit] at he
        rw [this] at he
        cases he
    · have := getConfigFileLoop_no_flag args dflt hmem
      rw [this] at he
      cases he
  · intro hl
    exact ⟨_, getConfigFileLoop_last_flag args dflt hl⟩
  · intro hmem
    exact getConfigFileLoop_no_flag args dflt hmem
  · intro pre next post hargs hpost
    rw [hargs]
    exact getConfigFileLoop_after_flag pre post next dflt hpost

/-- The arguments `-a --configfile bleh arg` yield `bleh` when the home
directory is found. -/
theorem config_file_is_after_last_flag_witness :
    getConfigFile (fun dir file => dir ++ "/" ++ file) "" (Except.ok "/home/u")
        ["-a", "--configfile", "bleh", "arg"]
      = Except.ok "bleh" :=
  ((config_file_is_after_last_flag (fun dir file => dir ++ "/" ++ file) "" (Except.ok "/home/u")
      ["-a", "--configfile", "bleh", "arg"]).2.2 "/home/u/.dsak.yaml" rfl).2.2
    ["-a"] "bleh" ["arg"] rfl (by decide)

/-- C28, the claim as stated fails on the code: `DSAK_CONFIGFILE` is not set and
the home directory is not found. With no argument at all, so that the last
argument is not `--configfile`, `getConfigFile` returns the error of
`getDefaultConfigFile`. -/
theorem config_file_fails_without_default :
    getConfigFile (fun dir file => dir ++ "/" ++ file) "" (Except.error "$HOME is not defined") []
      = Except.error "failed to get user home directory: $HOME is not defined"
    ∧ ([] : List String).getLast? ≠ some "--configfile" :=
  ⟨rfl, by decide⟩

/-- C29: the guard of `outputRaw` takes line feed, carriage return and tab for
non-printable, as `unicode.IsGraphic` does; in interactive non-raw mode, when the
first read of the body returns no error other than `io.EOF`, a body with a byte
that is not graphic in what that read returns is replaced by the warning, so
is a body with a line feed, a carriage return or a tab there, and a body whose
first read is graphic throughout is written. -/
theorem raw_guard_takes_line_breaks_for_binary (env : HttpEnv) (c : Client) (res : Response)
    (p : List Nat) (e : Option ReadErr) (rest : Reader)
    (hraw : c.raw = false) (hterm : env.isTerminal = true)
    (hread : readerRead res.body 1024 = ((p, e), rest))
    (herr : ∀ msg, e ≠ some (ReadErr.other msg)) :
    (isGraphicByte 10 = false ∧ isGraphicByte 13 = false ∧ isGraphicByte 9 = false)
    ∧ ((∃ b ∈ p, isGraphicByte b = false) →
        outputRaw env c res
          = { calls := [Presenter.raw], written := binaryWarning, err := none })
    ∧ ((10 ∈ p ∨ 13 ∈ p ∨ 9 ∈ p) →
        outputRaw env c res
          = { calls := [Presenter.raw], written := binaryWarning, err := none })
    ∧ ((∀ b ∈ p, isGraphicByte b = true) →
        (outputRaw env c res).written = p ++ (ioCopy rest).1) := by
  have hbin : (∃ b ∈ p, isGraphicByte b = false) →
      outputRaw env c res
        = { calls := [Presenter.raw], written := binaryWarning, err := none } := by
    rintro ⟨b, hb, hg⟩
    have hany : (p.any (fun b => !isGraphicByte b)) = true := by
      rw [List.any_eq_true]
      exact ⟨b, hb, by simp [hg]⟩
    unfold outputRaw
    rw [if_pos (by simp [hraw, hterm]), hread]
    cases e with
    | none => simp [hany]
    | some e =>
      cases e with
      | eof => simp [hany]
      | other msg => exact absurd rfl (herr msg)
  refine ⟨⟨by decide, by decide, by decide⟩, hbin, ?_, ?_⟩
  · rintro (h | h | h)
    · exact hbin ⟨10, h, by decide⟩
    · exact hbin ⟨13, h, by decide⟩
    · exact hbin ⟨9, h, by decide⟩
  · intro hall
    have hany : (p.any (fun b => !isGraphicByte b)) = false := by
      rw [List.any_eq_false]
      intro b hb
      simp [hall b hb]
    unfold outputRaw
    rw [if_pos (by simp [hraw, hterm]), hread]
    cases e with
    | none => simp [hany]
    | some e =>
      cases e with
      | eof => simp [hany]
      | other msg => exact absurd rfl (herr msg)

/-- A plain text body of two lines, `a`, line feed, `b`, is replaced by the
warning. -/
theorem raw_guard_takes_line_breaks_for_binary_witness :
    outputRaw httpEnvTerm defaultClient
        { status := "200 OK", statusCode := 200, header := [],
          body := [{ bytes := [97, 10, 98], err := some ReadErr.eof }] }
      = { calls := [Presenter.raw], written := binaryWarning, err := none } :=
  (raw_guard_takes_line_breaks_for_binary httpEnvTerm defaultClient
    { status := "200 OK", statusCode := 200, header := [],
      body := [{ bytes := [97, 10, 98], err := some ReadErr.eof }] }
    [97, 10, 98] (some ReadErr.eof) [] rfl rfl rfl (fun _ h => by cases h)).2.2.1
    (Or.inl (by decide))

/-- C30: after any sequence of calls of `Write` on a writer made by
`newMemoryWriter`, the buffer holds at most 10 MiB; on such a writer, a call
whose bytes would take the buffer past 10 MiB returns 0 and `ErrTooLarge` and
leaves the writer as it was, and any other call appends all the bytes and
returns their count and no error. -/
theorem memory_writer_never_exceeds_limit (url : String) (ps : List (List Nat)) (p : List Nat) :
    (writeAll (newMemoryWriter url) ps).buffer.length ≤ 10 * 1024 * 1024
    ∧ ((writeAll (newMemoryWriter url) ps).buffer.length + p.length > 10 * 1024 * 1024 →
        (writeAll (newMemoryWriter url) ps).Write p
          = (writeAll (newMemoryWriter url) ps, 0, some ErrTooLarge))
    ∧ ((writeAll (newMemoryWriter url) ps).buffer.length + p.length ≤ 10 * 1024 * 1024 →
        (writeAll (newMemoryWriter url) ps).Write p
          = ({ writeAll (newMemoryWriter url) ps with
                buffer := (writeAll (newMemoryWriter url) ps).buffer ++ p },
              (p.length : Int), none)) := by
  have hinit : ((newMemoryWriter url).buffer.length : Int) ≤ (newMemoryWriter url).maxSize := by
    simp [newMemoryWriter]
  obtain ⟨hlen, hmax⟩ := writeAll_spec (newMemoryWriter url) ps hinit
  have hmax2 : (writeAll (newMemoryWriter url) ps).maxSize = 10 * 1024 * 1024 := by
    rw [hmax]; rfl
  have hmax3 : (newMemoryWriter url).maxSize = 10 * 1024 * 1024 := rfl
  refine ⟨by omega, ?_, ?_⟩
  · intro hbig
    have : ((writeAll (newMemoryWriter url) ps).buffer.length : Int) + (p.length : Int)
        > (writeAll (newMemoryWriter url) ps).maxSize := by
      rw [hmax2]; omega
    simp [memoryWriter.Write, this]
  · intro hok
    have : ¬ ((writeAll (newMemoryWriter url) ps).buffer.length : Int) + (p.length : Int)
        > (writeAll (newMemoryWriter url) ps).maxSize := by
      rw [hmax2]; omega
    simp [memoryWriter.Write, this]

/-- The writer after one call of three bytes holds them and accepts two more. -/
theorem memory_writer_never_exceeds_limit_witness :
    (writeAll (newMemoryWriter "http://example.com") [[1, 2, 3]]).Write [4, 5]
      = ({ writeAll (newMemoryWriter "http://example.com") [[1, 2, 3]] with
            buffer := (writeAll (newMemoryWriter "http://example.com") [[1, 2, 3]]).buffer
              ++ [4, 5] },
          (([4, 5] : List Nat).length : Int), none) :=
  (memory_writer_never_exceeds_limit "http://example.com" [[1, 2, 3]] [4, 5]).2.2 (by decide)

end Dsak
